import Mathlib

/-!
# sqlc: override matching, marker-call validation, the query catalog and the Go result model

A shallow embedding of

* `internal/config/override.go` (`Override.Matches`, `Override.Parse`),
* `internal/sql/validate/func_call.go` (`funcCallVisitor.Visit`, `FuncCall`),
* `internal/compiler/query_catalog.go` (`QueryCatalog.GetTable`),
* `internal/codegen/golang/result.go` (`buildEnums`, `buildQueries`,
  `columnsToStruct` and their helpers) and `query.go` (`Query.hasRetType`),

followed by the properties proved about them.

Go values are embedded as follows.  A pointer that may be nil is an `Option`.
A Go result pair `(value, err)` is a Lean pair of `Option`s when the code stores
the value before looking at `err`.  A method with a pointer receiver that
mutates the receiver returns the receiver's final state next to its result.
Packages whose source is not part of this development (`pattern`, `ast`,
`astutils`, `catalog`, `sqlerr`, `plugin`, `sdk`, `metadata`, the `GoType` half
of `config` and the naming and typing half of `golang`) appear as parameters; where a concrete instance is needed to evaluate the code, it is a
definition whose comment starts with "Modelled from the spec".
-/

set_option autoImplicit false

/-! ## Strings -/

/-- Split a character list at every occurrence of `sep`; the result is never empty. -/
def splitChars (sep : Char) : List Char → List (List Char)
  | [] => [[]]
  | c :: cs =>
    if c = sep then [] :: splitChars sep cs
    else
      match splitChars sep cs with
      | [] => [[c]]
      | p :: ps => (c :: p) :: ps

/-- Go `strings.Split(s, sep)` for a separator of one character. -/
def stringsSplit (s : String) (sep : Char) : List String :=
  (splitChars sep s.data).map String.mk

namespace ast

/-- The type `ast.TableName`: the fields the embedded code reads. -/
structure TableName where
  Catalog : String
  Schema : String
  Name : String
  deriving DecidableEq, Repr

/-- The type `ast.FuncName`. -/
structure FuncName where
  Catalog : String
  Schema : String
  Name : String
  deriving DecidableEq, Repr

/-- The syntax tree as the function-call validator sees it.  `A_Const`,
`ColumnRef` and `FuncCall` are the node types the validator distinguishes;
`Other` stands for every other node type and carries the name of its Go type
and its child nodes.  `Location` is the source position `Pos()` returns. -/
inductive Node where
  | A_Const (Location : Int)
  | ColumnRef (Location : Int)
  | FuncCall (Func : Option FuncName) (Args : List Node) (Location : Int)
  | Other (goType : String) (children : List Node)
  deriving Repr

/-- The text the verb `%T` prints for a node. -/
def Node.goTypeName : Node → String
  | .A_Const _ => "*ast.A_Const"
  | .ColumnRef _ => "*ast.ColumnRef"
  | .FuncCall _ _ _ => "*ast.FuncCall"
  | .Other t _ => t

end ast

namespace config

/-- The type `config.ParsedGoType`: the fields `Override.Parse` copies. -/
structure ParsedGoType where
  ImportPath : String
  Package : String
  TypeName : String
  BasicType : Bool
  deriving DecidableEq, Repr

/-- What `override.go` uses from code outside it: package `pattern`
(`Match`, `MatchCompile`, `Match.MatchString`), the types `GoType`,
`GoStructTag` and `Engine` of package `config` with their `Parse` methods, and
the error values (`Err`) those functions return. -/
structure Deps where
  Match : Type
  Err : Type
  GoType : Type
  GoStructTag : Type
  Engine : Type
  /-- The call `pattern.MatchCompile(p)`, a Go pair `(match, err)`. -/
  MatchCompile : String → Option Match × Option Err
  /-- The call `m.MatchString(s)`. -/
  MatchString : Match → String → Bool
  /-- The call `GoType.Parse()`. -/
  GoTypeParse : GoType → Except Err ParsedGoType
  /-- The call `GoStructTag.Parse()`. -/
  GoStructTagParse : GoStructTag → Except Err (List (String × String))

/-- The struct `config.Override`. -/
structure Override (D : Deps) where
  GoType : D.GoType
  GoStructTag : D.GoStructTag
  DBType : String
  Deprecated_PostgresType : String
  Engine : D.Engine
  Nullable : Bool
  Unsigned : Bool
  Deprecated_Null : Bool
  Column : String
  ColumnName : Option D.Match
  TableCatalog : Option D.Match
  TableSchema : Option D.Match
  TableRel : Option D.Match
  GoImportPath : String
  GoPackage : String
  GoTypeName : String
  GoBasicType : Bool
  GoStructTags : List (String × String)

/-- The method `Override.Matches(n, defaultSchema)`. -/
def Override.Matches {D : Deps} (o : Override D) (n : Option ast.TableName)
    (defaultSchema : String) : Bool :=
  match n with
  | none => false
  | some n =>
    let schema := if n.Schema = "" then defaultSchema else n.Schema
    if (match o.TableCatalog with
        | some m => !D.MatchString m n.Catalog
        | none => false) then false
    else if o.TableSchema.isNone && schema ≠ "" then false
    else if (match o.TableSchema with
        | some m => !D.MatchString m schema
        | none => false) then false
    else if o.TableRel.isNone && n.Name ≠ "" then false
    else if (match o.TableRel with
        | some m => !D.MatchString m n.Name
        | none => false) then false
    else true

/-- The errors `Override.Parse` returns.  The constructors carry the arguments
of the `fmt.Errorf` call that builds the message. -/
inductive ParseError (E : Type) where
  /-- Both "db_type" and "postgres_type" are given. -/
  | dbTypeWithPostgresType
  /-- Both `column` and `db_type` are given. -/
  | columnWithDBType (column dbType : String)
  /-- Neither `column` nor `db_type` is given. -/
  | columnOrDBTypeMissing
  /-- The `column` specifier does not have 2, 3 or 4 parts. -/
  | columnFormat (column : String)
  /-- An error returned by `MatchCompile`, `GoType.Parse` or `GoStructTag.Parse`. -/
  | dep (e : E)
  deriving DecidableEq, Repr

/-- The two warnings `Override.Parse` writes to standard error. -/
inductive Warning where
  | postgresTypeDeprecated
  | nullDeprecated
  deriving DecidableEq, Repr

/-- The section "validate Column" of `Override.Parse`: the receiver after the
section and the error it returns, if any. -/
def Override.parseColumn {D : Deps} (o : Override D) :
    Override D × Option (ParseError D.Err) :=
  if o.Column = "" then (o, none)
  else
    match stringsSplit o.Column '.' with
    | [p0, p1] =>
      let r := D.MatchCompile p1
      let o := { o with ColumnName := r.1 }
      match r.2 with
      | some e => (o, some (.dep e))
      | none =>
        let r := D.MatchCompile p0
        let o := { o with TableRel := r.1 }
        match r.2 with
        | some e => (o, some (.dep e))
        | none =>
          let r := D.MatchCompile "public"
          let o := { o with TableSchema := r.1 }
          match r.2 with
          | some e => (o, some (.dep e))
          | none => (o, none)
    | [p0, p1, p2] =>
      let r := D.MatchCompile p2
      let o := { o with ColumnName := r.1 }
      match r.2 with
      | some e => (o, some (.dep e))
      | none =>
        let r := D.MatchCompile p1
        let o := { o with TableRel := r.1 }
        match r.2 with
        | some e => (o, some (.dep e))
        | none =>
          let r := D.MatchCompile p0
          let o := { o with TableSchema := r.1 }
          match r.2 with
          | some e => (o, some (.dep e))
          | none => (o, none)
    | [p0, p1, p2, p3] =>
      let r := D.MatchCompile p3
      let o := { o with ColumnName := r.1 }
      match r.2 with
      | some e => (o, some (.dep e))
      | none =>
        let r := D.MatchCompile p2
        let o := { o with TableRel := r.1 }
        match r.2 with
        | some e => (o, some (.dep e))
        | none =>
          let r := D.MatchCompile p1
          let o := { o with TableSchema := r.1 }
          match r.2 with
          | some e => (o, some (.dep e))
          | none =>
            let r := D.MatchCompile p0
            let o := { o with TableCatalog := r.1 }
            match r.2 with
            | some e => (o, some (.dep e))
            | none => (o, none)
    | _ => (o, some (.columnFormat o.Column))

/-- The sections "validate GoType" and "validate GoStructTag" of
`Override.Parse`. -/
def Override.parseGo {D : Deps} (o : Override D) :
    Override D × Option (ParseError D.Err) :=
  match D.GoTypeParse o.GoType with
  | .error e => (o, some (.dep e))
  | .ok parsed =>
    let o := { o with
      GoImportPath := parsed.ImportPath
      GoPackage := parsed.Package
      GoTypeName := parsed.TypeName
      GoBasicType := parsed.BasicType }
    match D.GoStructTagParse o.GoStructTag with
    | .error e => (o, some (.dep e))
    | .ok tags => ({ o with GoStructTags := tags }, none)

/-- The outcome of a call of `Override.Parse`: the receiver after the call,
the warnings written to standard error, and the returned error. -/
structure ParseOut (D : Deps) where
  o : Override D
  stderr : List Warning
  err : Option (ParseError D.Err)

/-- The sections "validate deprecated postgres_type field" and "validate
deprecated null field" of `Override.Parse` when the first does not return: the
receiver after them. -/
def Override.mapDeprecated {D : Deps} (o : Override D) : Override D :=
  let o := if o.Deprecated_PostgresType ≠ "" then
    { o with DBType := o.Deprecated_PostgresType } else o
  if o.Deprecated_Null then { o with Nullable := true } else o

/-- The warnings the two sections on deprecated fields write when the first
does not return. -/
def Override.deprecationWarnings {D : Deps} (o : Override D) : List Warning :=
  (if o.Deprecated_PostgresType ≠ "" then [Warning.postgresTypeDeprecated] else [])
    ++ (if o.Deprecated_Null then [Warning.nullDeprecated] else [])

/-- The rest of `Override.Parse`, from "validate option combinations" to the
end: the receiver after it and the returned error. -/
def Override.parseOptions {D : Deps} (o : Override D) :
    Override D × Option (ParseError D.Err) :=
  -- validate option combinations
  if o.Column ≠ "" ∧ o.DBType ≠ "" then
    (o, some (.columnWithDBType o.Column o.DBType))
  else if o.Column = "" ∧ o.DBType = "" then
    (o, some .columnOrDBTypeMissing)
  else
    -- validate Column
    match o.parseColumn with
    | (o, some e) => (o, some e)
    | (o, none) =>
      -- validate GoType, validate GoStructTag
      o.parseGo

/-- The method `Override.Parse()`. -/
def Override.Parse {D : Deps} (o : Override D) : ParseOut D :=
  -- validate deprecated postgres_type field
  if o.Deprecated_PostgresType ≠ "" ∧ o.DBType ≠ "" then
    ⟨o, [Warning.postgresTypeDeprecated], some .dbTypeWithPostgresType⟩
  else
    -- validate deprecated null field
    let r := o.mapDeprecated.parseOptions
    ⟨r.1, o.deprecationWarnings, r.2⟩

end config

namespace catalog

/-- What the embedded code uses from packages `sqlerr`, `ast`, `rewrite` and
from the rest of package `compiler`: the error values (`Err`) the catalog
returns, the test `errors.Is(err, sqlerr.NotFound)` on them, the types
`ast.TypeName` and `rewrite.EmbedSet`, and the function `compiler.dataType`. -/
structure Ext where
  Err : Type
  TypeName : Type
  EmbedSet : Type
  IsNotFound : Err → Bool
  dataType : TypeName → String

/-- The type `catalog.Function`: the field the embedded code reads. -/
structure Function (X : Ext) where
  ReturnType : Option X.TypeName

/-- The type `catalog.Column`: the fields `ConvertColumn` reads (`Type_` is the
field `Type`). -/
structure Column (X : Ext) where
  Name : String
  Type_ : X.TypeName
  IsNotNull : Bool
  IsUnsigned : Bool
  IsArray : Bool
  Length : Option Int

/-- The type `catalog.Table`: the field `QueryCatalog.GetTable` reads. -/
structure Table (X : Ext) where
  Columns : List (Column X)

/-- The type `catalog.Catalog`, given by what its methods return. -/
structure Catalog (X : Ext) where
  /-- The call `c.ResolveFuncCall(call)`, a Go pair `(fun, err)`. -/
  ResolveFuncCall : ast.Node → Option (Function X) × Option X.Err
  /-- The call `c.GetTable(rel)`, a Go pair `(table, err)`. -/
  GetTable : ast.TableName → Table X × Option X.Err
  /-- The call `c.ListFuncsByName(rel)`, a Go pair `(funcs, err)`. -/
  ListFuncsByName : ast.FuncName → List (Function X) × Option X.Err

end catalog

namespace sqlerr

/-- The error values the validator handles: the result of
`sqlerr.FunctionNotFound(fun)`, a literal `&sqlerr.Error{Message, Location}`,
and an error returned by the catalog. -/
inductive Error (E : Type) where
  | FunctionNotFound (fn : String)
  | Positional (Message : String) (Location : Int)
  | Catalog (e : E)
  deriving DecidableEq, Repr

end sqlerr

namespace validate

open catalog

/-- The type `config.PackageSettings`: the field the validator reads. -/
structure PackageSettings where
  StrictFunctionChecks : Bool
  deriving DecidableEq, Repr

/-- The type `config.CombinedSettings`: the field the validator reads. -/
structure CombinedSettings where
  Package : PackageSettings
  deriving DecidableEq, Repr

/-- The struct `funcCallVisitor`. -/
structure funcCallVisitor (X : Ext) where
  catalog : Catalog X
  settings : CombinedSettings
  err : Option (sqlerr.Error X.Err)

/-- The outcome of one call of `Visit`: the visitor after the call, whether the
returned visitor is non-nil (the walk descends into the node), and the calls
handed to `catalog.ResolveFuncCall` during the call. -/
structure VisitOut (X : Ext) where
  v : funcCallVisitor X
  descend : Bool
  resolved : List ast.Node

/-- The method `funcCallVisitor.Visit(node)`. -/
def funcCallVisitor.Visit {X : Ext} (v : funcCallVisitor X) (node : ast.Node) : VisitOut X :=
  if v.err.isSome then ⟨v, false, []⟩
  else
    match node with
    | .FuncCall none _ _ => ⟨v, true, []⟩
    | .FuncCall (some fn) args loc =>
      if fn.Schema = "sqlc" then
        if !(fn.Name = "arg" || fn.Name = "narg" || fn.Name = "slice" || fn.Name = "embed") then
          ⟨{ v with err := some (.FunctionNotFound ("sqlc." ++ fn.Name)) }, false, []⟩
        else if args.length ≠ 1 then
          ⟨{ v with err := some (.Positional
              ("expected 1 parameter to sqlc." ++ fn.Name ++ "; got " ++ toString args.length)
              loc) }, false, []⟩
        else
          match args.head? with
          | some (.A_Const _) => ⟨v, false, []⟩
          | some (.ColumnRef _) => ⟨v, false, []⟩
          | some n =>
            ⟨{ v with err := some (.Positional
                ("expected parameter to sqlc." ++ fn.Name
                  ++ " to be string or reference; got " ++ n.goTypeName)
                loc) }, false, []⟩
          | none => ⟨v, false, []⟩
      else
        let r := v.catalog.ResolveFuncCall node
        if r.1.isSome then ⟨v, true, [node]⟩
        else if (match r.2 with
            | some e => X.IsNotFound e
            | none => false) && !v.settings.Package.StrictFunctionChecks then
          ⟨v, true, [node]⟩
        else ⟨{ v with err := r.2.map .Catalog }, false, [node]⟩
    | _ => ⟨v, true, []⟩

/-- The state of a walk: the visitor and the calls handed to
`catalog.ResolveFuncCall` so far. -/
structure WalkState (X : Ext) where
  v : funcCallVisitor X
  resolved : List ast.Node

mutual
/-- Modelled from the spec: `astutils.Walk(v, node)`, whose source is not part
of this development.  A single pass in depth-first order: the node is visited
first, and its children are walked, in order, only if the visit returned a
visitor.  The visitor is shared by the whole walk. -/
def Walk {X : Ext} (s : WalkState X) : ast.Node → WalkState X
  | .A_Const loc =>
    let r := s.v.Visit (.A_Const loc)
    ⟨r.v, s.resolved ++ r.resolved⟩
  | .ColumnRef loc =>
    let r := s.v.Visit (.ColumnRef loc)
    ⟨r.v, s.resolved ++ r.resolved⟩
  | .FuncCall fn args loc =>
    let r := s.v.Visit (.FuncCall fn args loc)
    if r.descend then walkList ⟨r.v, s.resolved ++ r.resolved⟩ args
    else ⟨r.v, s.resolved ++ r.resolved⟩
  | .Other t children =>
    let r := s.v.Visit (.Other t children)
    if r.descend then walkList ⟨r.v, s.resolved ++ r.resolved⟩ children
    else ⟨r.v, s.resolved ++ r.resolved⟩
/-- Modelled from the spec: the walk of a list of sibling nodes, in order, as
`astutils.Walk` does for the children of a node. -/
def walkList {X : Ext} (s : WalkState X) : List ast.Node → WalkState X
  | [] => s
  | n :: ns => walkList (Walk s n) ns
end

/-- The function `validate.FuncCall(c, cs, n)`. -/
def FuncCall {X : Ext} (c : Catalog X) (cs : CombinedSettings) (n : ast.Node) :
    Option (sqlerr.Error X.Err) :=
  (Walk ⟨⟨c, cs, none⟩, []⟩ n).v.err

end validate

namespace compiler

open catalog

/-- The type `compiler.Column`: the fields `ConvertColumn` sets (`Type_` is the
field `Type`). -/
structure Column (X : Ext) where
  Table : Option ast.TableName
  Name : String
  DataType : String
  NotNull : Bool
  Unsigned : Bool
  IsArray : Bool
  Type_ : Option X.TypeName
  Length : Option Int

/-- The type `compiler.Table`. -/
structure Table (X : Ext) where
  Rel : Option ast.TableName
  Columns : List (Column X)

/-- The struct `QueryCatalog`.  The map `ctes` is an association list read
with `List.lookup`. -/
structure QueryCatalog (X : Ext) where
  catalog : Catalog X
  ctes : List (String × Table X)
  embeds : X.EmbedSet

/-- The function `ConvertColumn(rel, c)`. -/
def ConvertColumn {X : Ext} (rel : ast.TableName) (c : catalog.Column X) : Column X :=
  { Table := some rel
    Name := c.Name
    DataType := X.dataType c.Type_
    NotNull := c.IsNotNull
    Unsigned := c.IsUnsigned
    IsArray := c.IsArray
    Type_ := some c.Type_
    Length := c.Length }

/-- The method `QueryCatalog.GetTable(rel)`, a Go pair `(table, err)`. -/
def QueryCatalog.GetTable {X : Ext} (qc : QueryCatalog X) (rel : ast.TableName) :
    Option (Table X) × Option X.Err :=
  match qc.ctes.lookup rel.Name with
  | some cte => (some cte, none)
  | none =>
    let r := qc.catalog.GetTable rel
    match r.2 with
    | some err => (none, some err)
    | none =>
      (some { Rel := some rel, Columns := r.1.Columns.map (ConvertColumn rel) }, none)

end compiler

/-! ## Instances used to evaluate the code -/

namespace pattern

/-- Modelled from the spec: a token of a compiled pattern of package
`pattern`: a character that stands for itself ("exact text"), or one of the
"wildcard tokens" `?` and `*`. -/
inductive Token where
  | lit (c : Char)
  | one
  | any
  deriving DecidableEq, Repr

/-- Modelled from the spec: the type `pattern.Match`, the compiled form of a
specifier part. -/
structure Match where
  tokens : List Token
  deriving DecidableEq, Repr

/-- Modelled from the spec: the tokens of a specifier part, character by
character. -/
def tokenize : List Char → List Token
  | [] => []
  | c :: cs => (if c = '*' then Token.any else if c = '?' then Token.one else Token.lit c)
      :: tokenize cs

/-- Modelled from the spec: whether a token list matches a whole text; `*`
stands for any text, `?` for any one character. -/
def matchTokens : List Token → List Char → Bool
  | [], s => s.isEmpty
  | .lit c :: ts, s =>
    match s with
    | [] => false
    | d :: s => c == d && matchTokens ts s
  | .one :: ts, s =>
    match s with
    | [] => false
    | _ :: s => matchTokens ts s
  | .any :: ts, s => s.tails.any (matchTokens ts)

/-- Modelled from the spec: `pattern.MatchCompile`, whose source is not part of
this development.  A part of a specifier "compiles to a glob-style matcher
(exact text or wildcard tokens)": `*` stands for any text, `?` for any one
character, every other character for itself.  Compilation always succeeds. -/
def MatchCompile (p : String) : Option Match × Option String :=
  (some ⟨tokenize p.data⟩, none)

/-- Modelled from the spec: `Match.MatchString`, whose source is not part of
this development: the compiled pattern matches the whole text. -/
def Match.MatchString (m : Match) (s : String) : Bool :=
  matchTokens m.tokens s.data

end pattern

namespace config

/-- Modelled from the spec: an instance of the code `override.go` depends on.
Patterns are the glob patterns of `pattern.MatchCompile`.  A Go type is given
by its name, "an invalid Go-type reference" (here the empty name) is an error,
and a struct tag parses to no tags. -/
@[reducible] def specDeps : Deps where
  Match := pattern.Match
  Err := String
  GoType := String
  GoStructTag := String
  Engine := String
  MatchCompile := pattern.MatchCompile
  MatchString := pattern.Match.MatchString
  GoTypeParse := fun t =>
    if t = "" then .error "invalid go type"
    else .ok { ImportPath := "", Package := "", TypeName := t, BasicType := true }
  GoStructTagParse := fun _ => .ok []

/-- An override as decoded from the configuration, before `Parse`: only the
configuration keys `column`, `db_type`, `postgres_type`, `null`, `nullable`
and `go_type` are filled in. -/
def specOverride (column dbType postgresType : String) (null nullable : Bool)
    (goType : String) : Override specDeps where
  GoType := goType
  GoStructTag := ""
  DBType := dbType
  Deprecated_PostgresType := postgresType
  Engine := ""
  Nullable := nullable
  Unsigned := false
  Deprecated_Null := null
  Column := column
  ColumnName := none
  TableCatalog := none
  TableSchema := none
  TableRel := none
  GoImportPath := ""
  GoPackage := ""
  GoTypeName := ""
  GoBasicType := false
  GoStructTags := []

end config

namespace catalog

/-- Modelled from the spec: the errors of the catalog, "`NotFound` (kind:
missing schema/table/function)", and one error of another kind, standing for
a lookup that fails for a reason other than absence. -/
inductive SpecErr where
  | NotFound (what : String)
  | Mismatch (what : String)
  deriving DecidableEq, Repr

/-- Modelled from the spec: an instance of the types the catalog and the
validator depend on.  A type is given by its name and is its own data type. -/
@[reducible] def specExt : Ext where
  Err := SpecErr
  TypeName := String
  EmbedSet := List String
  IsNotFound := fun e =>
    match e with
    | .NotFound _ => true
    | .Mismatch _ => false
  dataType := fun t => t

/-- Modelled from the spec: a catalog that answers every function call with
the pair `r`, has the tables `tables` (looked up by name) and no declared
function; a missing table is reported as `NotFound`. -/
def specCatalog (r : Option (Function specExt) × Option SpecErr)
    (tables : List (String × Table specExt)) : Catalog specExt where
  ResolveFuncCall := fun _ => r
  GetTable := fun rel =>
    match tables.lookup rel.Name with
    | some t => (t, none)
    | none => (⟨[]⟩, some (.NotFound rel.Name))
  ListFuncsByName := fun _ => ([], none)

end catalog

namespace validate

/-- The names of the marker functions of the namespace `sqlc`. -/
def isMarkerName (name : String) : Prop :=
  name = "arg" ∨ name = "narg" ∨ name = "slice" ∨ name = "embed"

instance (name : String) : Decidable (isMarkerName name) := by
  unfold isMarkerName
  exact inferInstance

/-- The node is a constant literal (`*ast.A_Const`) or a column reference
(`*ast.ColumnRef`). -/
def isConstOrColumnRef : ast.Node → Bool
  | .A_Const _ => true
  | .ColumnRef _ => true
  | _ => false

end validate

/-! ## Vocabulary of the properties -/

namespace config

/-- The pattern library compiles the specifier part `p` without error to a
matcher for exactly the text `p` (as it does for a part without wildcard
tokens). -/
def Deps.Literal (D : Deps) (p : String) : Prop :=
  ∃ m, D.MatchCompile p = (some m, none) ∧ ∀ s, D.MatchString m s = true ↔ s = p

/-- The schema against which `Override.Matches` tests the schema pattern: the
relation's schema when it is not empty, the default schema otherwise. -/
def effectiveSchema (n : ast.TableName) (defaultSchema : String) : String :=
  if n.Schema = "" then defaultSchema else n.Schema

/-- Each declared catalog, schema and table pattern of the override matches
the corresponding part of the relation, and a missing schema pattern goes with
an empty effective schema (the schema rule). -/
def Override.declaredPatternsMatch {D : Deps} (o : Override D) (n : ast.TableName)
    (defaultSchema : String) : Prop :=
  (∀ m, o.TableCatalog = some m → D.MatchString m n.Catalog = true) ∧
  (∀ m, o.TableSchema = some m → D.MatchString m (effectiveSchema n defaultSchema) = true) ∧
  (∀ m, o.TableRel = some m → D.MatchString m n.Name = true) ∧
  (o.TableSchema = none → effectiveSchema n defaultSchema = "")

/-- The override with the configuration key `postgres_type` set to `x`. -/
def Override.withPostgresType {D : Deps} (o : Override D) (x : String) : Override D :=
  { o with Deprecated_PostgresType := x }

/-- The override written with `db_type` = `x` and no `postgres_type`. -/
def Override.withDBTypeOnly {D : Deps} (o : Override D) (x : String) : Override D :=
  { o with DBType := x, Deprecated_PostgresType := "" }

end config

namespace config

end config

/-! ## The Go code generator: `internal/codegen/golang/result.go` and `query.go` -/

/-- Go `strings.Replace(s, old, new, -1)` for `old` and `new` of one character. -/
def stringsReplaceChar (s : String) (old new : Char) : String :=
  String.mk (s.data.map fun c => if c = old then new else c)

namespace metadata

/-- Modelled from the spec: the command kind "one-row" of package `metadata`,
whose source is not part of this development, written as in the query
annotation `:one`. -/
def CmdOne : String := ":one"

/-- Modelled from the spec: the command kind "many-rows", annotation `:many`. -/
def CmdMany : String := ":many"

/-- Modelled from the spec: the command kind "exec", annotation `:exec`. -/
def CmdExec : String := ":exec"

/-- Modelled from the spec: the command kind "batch-one", annotation `:batchone`. -/
def CmdBatchOne : String := ":batchone"

/-- Modelled from the spec: the command kind "batch-many", annotation `:batchmany`. -/
def CmdBatchMany : String := ":batchmany"

end metadata

namespace plugin

/-- The type `plugin.Identifier`. -/
structure Identifier where
  Catalog : String
  Schema : String
  Name : String
  deriving DecidableEq, Repr

/-- The type `plugin.Column`: the fields the embedded code reads (`Type_` is
the field `Type`). -/
structure Column where
  Name : String
  NotNull : Bool
  IsArray : Bool
  Comment : String
  IsNamedParam : Bool
  IsFuncCall : Bool
  Table : Option Identifier
  Type_ : Option Identifier
  IsSqlcSlice : Bool
  EmbedTable : Option Identifier
  deriving DecidableEq, Repr

/-- The type `plugin.Parameter`. -/
structure Parameter where
  Number : Int
  Column : Column
  deriving DecidableEq, Repr

/-- The type `plugin.Query`. -/
structure Query where
  Text : String
  Name : String
  Cmd : String
  Columns : List Column
  Params : List Parameter
  Comments : List String
  Filename : String
  InsertIntoTable : Option Identifier
  deriving DecidableEq, Repr

/-- The type `plugin.Enum`. -/
structure Enum where
  Name : String
  Vals : List String
  Comment : String
  deriving DecidableEq, Repr

/-- The type `plugin.Table`. -/
structure Table where
  Rel : Identifier
  Columns : List Column
  Comment : String
  deriving DecidableEq, Repr

/-- The type `plugin.Schema`: the fields `buildEnums` and `buildStructs` read. -/
structure Schema where
  Name : String
  Enums : List Enum
  Tables : List Table
  deriving DecidableEq, Repr

/-- The type `plugin.Catalog`: the fields the embedded code reads. -/
structure Catalog where
  DefaultSchema : String
  Schemas : List Schema
  deriving DecidableEq, Repr

/-- The type `plugin.GoCode`: the settings the embedded code reads.
`QueryParameterLimit` is the value the pointer of that name points to. -/
structure GoCode where
  EmitJsonTags : Bool
  EmitDbTags : Bool
  EmitExportedQueries : Bool
  EmitParamsStructPointers : Bool
  EmitResultStructPointers : Bool
  SqlPackage : String
  QueryParameterLimit : Int
  EmitExactTableNames : Bool
  InflectionExcludeTableNames : List String
  deriving DecidableEq, Repr

/-- The type `plugin.Settings`: the fields the embedded code reads. -/
structure Settings where
  Engine : String
  Go : GoCode
  deriving DecidableEq, Repr

/-- The type `plugin.CodeGenRequest`. -/
structure CodeGenRequest where
  Settings : Settings
  Catalog : Catalog
  Queries : List Query
  deriving DecidableEq, Repr

end plugin

namespace golang

/-- What `result.go` uses from code outside it: the functions `goType`,
`StructName`, `JSONTagName`, `SetCaseStyle`, `addExtraGoStructTags`,
`parseDriver` and `EnumReplace` of package `golang`, `Title`, `LowerTitle` and
`SameTableName` of package `sdk`, `Singular` of package `inflection` (applied
to the name and the exclusions), and `strings.ToLower` and `strings.Title` of
the Go library.  A map of struct tags is an association list, and
`addExtraGoStructTags` returns the map it leaves.  The type `SQLDriver` is a
string. -/
structure Deps where
  goType : plugin.CodeGenRequest → plugin.Column → String
  StructName : String → plugin.Settings → String
  JSONTagName : String → plugin.Settings → String
  SetCaseStyle : String → String → String
  addExtraGoStructTags :
    List (String × String) → plugin.CodeGenRequest → plugin.Column → List (String × String)
  parseDriver : String → String
  EnumReplace : String → String
  Title : String → String
  LowerTitle : String → String
  SameTableName : Option plugin.Identifier → Option plugin.Identifier → String → Bool
  ToLower : String → String
  stringsTitle : String → String
  Singular : String → List String → String

/-- The type `Constant` (`Type_` is the field `Type`). -/
structure Constant where
  Name : String
  Type_ : String
  Value : String
  deriving DecidableEq, Repr

/-- The type `Enum`. -/
structure Enum where
  Name : String
  Comment : String
  Constants : List Constant
  NameTags : List (String × String)
  ValidTags : List (String × String)
  deriving DecidableEq, Repr

/-- The type `Field` (`Type_` is the field `Type`). -/
structure Field where
  Name : String
  DBName : String
  Type_ : String
  Tags : List (String × String)
  Comment : String
  Column : Option plugin.Column
  EmbedFields : List String
  deriving DecidableEq, Repr

/-- The type `Struct`. -/
structure Struct where
  Table : Option plugin.Identifier
  Name : String
  Fields : List Field
  Comment : String
  deriving DecidableEq, Repr

/-- The type `QueryValue`. -/
structure QueryValue where
  Emit : Bool
  EmitPointer : Bool
  Name : String
  DBName : String
  Struct : Option Struct
  Typ : String
  SQLDriver : String
  Column : Option plugin.Column
  deriving DecidableEq, Repr

/-- The zero value `QueryValue{}`. -/
def QueryValue.zero : QueryValue :=
  { Emit := false, EmitPointer := false, Name := "", DBName := "", Struct := none,
    Typ := "", SQLDriver := "", Column := none }

/-- The method `QueryValue.isEmpty()`. -/
def QueryValue.isEmpty (v : QueryValue) : Bool :=
  v.Typ == "" && v.Name == "" && v.Struct.isNone

/-- The type `Query`. -/
structure Query where
  Cmd : String
  Comments : List String
  MethodName : String
  FieldName : String
  ConstantName : String
  SQL : String
  SourceName : String
  Ret : QueryValue
  Arg : QueryValue
  Table : Option plugin.Identifier
  deriving DecidableEq, Repr

/-- The method `Query.hasRetType()`. -/
def Query.hasRetType (q : Query) : Bool :=
  let scanned := q.Cmd == metadata.CmdOne || q.Cmd == metadata.CmdMany ||
    q.Cmd == metadata.CmdBatchMany || q.Cmd == metadata.CmdBatchOne
  scanned && !q.Ret.isEmpty

/-- The loop over `enum.Vals` in `buildEnums` (lines 39-51): the constants
built so far, the set `seen`, the index `i` and the values still to visit. -/
def enumConstants (G : Deps) (req : plugin.CodeGenRequest) (enumName eName : String) :
    List Constant → List String → Nat → List String → List Constant
  | constants, _, _, [] => constants
  | constants, seen, i, v :: vs =>
    let value := G.EnumReplace v
    let value := if seen.contains value || value == "" then "value_" ++ toString i else value
    enumConstants G req enumName eName
      (constants ++ [{ Name := G.StructName (enumName ++ "_" ++ value) req.Settings,
                       Value := v, Type_ := eName }])
      (value :: seen) (i + 1) vs

/-- The body of the loop over `schema.Enums` in `buildEnums` (lines 21-52):
the enum built for one catalog enum. -/
def buildEnum (G : Deps) (req : plugin.CodeGenRequest) (schema : plugin.Schema)
    (enum : plugin.Enum) : Enum :=
  let enumName :=
    if schema.Name = req.Catalog.DefaultSchema then enum.Name
    else schema.Name ++ "_" ++ enum.Name
  let eName := G.StructName enumName req.Settings
  { Name := eName
    Comment := enum.Comment
    NameTags :=
      if req.Settings.Go.EmitJsonTags then [("json", G.JSONTagName enumName req.Settings)]
      else []
    ValidTags :=
      if req.Settings.Go.EmitJsonTags then [("json", G.JSONTagName "valid" req.Settings)]
      else []
    Constants := enumConstants G req enumName eName [] [] 0 enum.Vals }

/-- The function `buildEnums(req)`.  The call of `sort.Slice` is an insertion
sort by `Name`, the order `<` of Go strings being the lexicographic order of
their characters; `sort.Slice` leaves the order of enums of equal name open,
and no property below depends on it. -/
def buildEnums (G : Deps) (req : plugin.CodeGenRequest) : List Enum :=
  let enums := ((req.Catalog.Schemas.filter fun schema =>
      !(schema.Name == "pg_catalog" || schema.Name == "information_schema")).map
    fun schema => schema.Enums.map (buildEnum G req schema)).flatten
  enums.insertionSort fun a b => ¬ (b.Name.data < a.Name.data)

/-- The loop over `table.Columns` in `buildStructs` (lines 86-101): the field
built for one column. -/
def buildStructField (G : Deps) (req : plugin.CodeGenRequest) (column : plugin.Column) : Field :=
  let tags : List (String × String) := []
  let tags := if req.Settings.Go.EmitDbTags then ("db", column.Name) :: tags else tags
  let tags :=
    if req.Settings.Go.EmitJsonTags then ("json", G.JSONTagName column.Name req.Settings) :: tags
    else tags
  let tags := G.addExtraGoStructTags tags req column
  { Name := G.StructName column.Name req.Settings
    DBName := ""
    Type_ := G.goType req column
    Tags := tags
    Comment := column.Comment
    Column := none
    EmbedFields := [] }

/-- The body of the loop over `schema.Tables` in `buildStructs` (lines
68-102): the struct built for one table. -/
def buildStruct (G : Deps) (req : plugin.CodeGenRequest) (schema : plugin.Schema)
    (table : plugin.Table) : Struct :=
  let tableName :=
    if schema.Name = req.Catalog.DefaultSchema then table.Rel.Name
    else schema.Name ++ "_" ++ table.Rel.Name
  let structName :=
    if !req.Settings.Go.EmitExactTableNames then
      G.Singular tableName req.Settings.Go.InflectionExcludeTableNames
    else tableName
  { Table := some { Catalog := "", Schema := schema.Name, Name := table.Rel.Name }
    Name := G.StructName structName req.Settings
    Comment := table.Comment
    Fields := table.Columns.map (buildStructField G req) }

/-- The function `buildStructs(req)`.  The call of `sort.Slice` is an
insertion sort by `Name`, the order `<` of Go strings being the lexicographic
order of their characters; `sort.Slice` leaves the order of structs of equal
name open, and no property below depends on it. -/
def buildStructs (G : Deps) (req : plugin.CodeGenRequest) : List Struct :=
  let structs := ((req.Catalog.Schemas.filter fun schema =>
      !(schema.Name == "pg_catalog" || schema.Name == "information_schema")).map
    fun schema => schema.Tables.map (buildStruct G req schema)).flatten
  structs.insertionSort fun a b => ¬ (b.Name.data < a.Name.data)

/-- The struct `goEmbed`. -/
structure goEmbed where
  modelType : String
  modelName : String
  fields : List String
  deriving DecidableEq, Repr

/-- The struct `goColumn`. -/
structure goColumn where
  id : Int
  Column : plugin.Column
  embed : Option goEmbed
  deriving DecidableEq, Repr

/-- The ways `buildQueries` fails: the error of `checkIncompatibleFieldTypes`
with its message, and the run-time panic of `newGoEmbed` on a struct whose
`Table` is nil. -/
inductive BuildError where
  | incompatibleTypes (msg : String)
  | nilTable
  deriving DecidableEq, Repr

/-- The loop of `newGoEmbed` over the structs (lines 130-151). -/
def newGoEmbedLoop (embed : plugin.Identifier) (defaultSchema : String) :
    List Struct → Except BuildError (Option goEmbed)
  | [] => .ok none
  | s :: structs =>
    let embedSchema := if embed.Schema ≠ "" then embed.Schema else defaultSchema
    match s.Table with
    | none => .error .nilTable
    | some table =>
      if embed.Catalog ≠ table.Catalog ∨ embed.Name ≠ table.Name ∨ embedSchema ≠ table.Schema
      then newGoEmbedLoop embed defaultSchema structs
      else .ok (some { modelType := s.Name, modelName := s.Name,
                       fields := s.Fields.map fun f => f.Name })

/-- The function `newGoEmbed(embed, structs, defaultSchema)`. -/
def newGoEmbed (embed : Option plugin.Identifier) (structs : List Struct)
    (defaultSchema : String) : Except BuildError (Option goEmbed) :=
  match embed with
  | none => .ok none
  | some embed => newGoEmbedLoop embed defaultSchema structs

/-- The function `columnName(c, pos)`. -/
def columnName (c : plugin.Column) (pos : Nat) : String :=
  if c.Name ≠ "" then c.Name else "column_" ++ toString (pos + 1)

/-- The loop of `argName` over the parts of the name. -/
def argNameLoop (G : Deps) : String → Nat → List String → String
  | out, _, [] => out
  | out, i, p :: ps =>
    argNameLoop G
      (if i = 0 then out ++ G.ToLower p
       else if p = "id" then out ++ "ID"
       else out ++ G.stringsTitle p)
      (i + 1) ps

/-- The function `argName(name)`. -/
def argName (G : Deps) (name : String) : String :=
  argNameLoop G "" 0 (stringsSplit name '_')

/-- The function `paramName(p)`. -/
def paramName (G : Deps) (p : plugin.Parameter) : String :=
  if p.Column.Name ≠ "" then argName G p.Column.Name
  else "dollar_" ++ toString p.Number

/-- The function `putOutColumns(query)`. -/
def putOutColumns (query : plugin.Query) : Bool :=
  if query.Columns.length > 0 then true
  else [metadata.CmdMany, metadata.CmdOne, metadata.CmdBatchMany].any fun allowed =>
    query.Cmd == allowed

/-- The function `checkIncompatibleFieldTypes(fields)`, as a loop that
carries the map `fieldTypes`. -/
def checkIncompatibleFieldTypesLoop : List (String × String) → List Field → Option BuildError
  | _, [] => none
  | fieldTypes, field :: fields =>
    match fieldTypes.lookup field.Name with
    | none => checkIncompatibleFieldTypesLoop ((field.Name, field.Type_) :: fieldTypes) fields
    | some fieldType =>
      if field.Type_ ≠ fieldType then
        some (.incompatibleTypes ("named param " ++ field.Name ++ " has incompatible types: "
          ++ field.Type_ ++ ", " ++ fieldType))
      else checkIncompatibleFieldTypesLoop fieldTypes fields

/-- The function `checkIncompatibleFieldTypes(fields)`. -/
def checkIncompatibleFieldTypes (fields : List Field) : Option BuildError :=
  checkIncompatibleFieldTypesLoop [] fields

/-- The variables of the first loop of `columnsToStruct`: `gs.Fields` and the
maps `seen` and `suffixes`, as association lists whose first pair with a key
is the entry of the key. -/
structure StructState where
  fields : List Field
  seen : List (String × List Nat)
  suffixes : List (Int × Nat)
  deriving DecidableEq, Repr

/-- One turn of the first loop of `columnsToStruct` (lines 343-393), for the
column `c` at index `i`. -/
def columnStep (G : Deps) (req : plugin.CodeGenRequest) (useID : Bool) (st : StructState)
    (i : Nat) (c : goColumn) : StructState :=
  let colName := columnName c.Column i
  let tagName := colName
  -- override col/tag with expected model name
  let colName := match c.embed with
    | some e => e.modelName
    | none => colName
  let tagName := match c.embed with
    | some _ => G.SetCaseStyle colName "snake"
    | none => tagName
  let fieldName := G.StructName colName req.Settings
  let baseFieldName := fieldName
  let suffix : Nat :=
    match st.suffixes.lookup c.id with
    | some o =>
      if useID then o
      else if ((st.seen.lookup fieldName).getD []).length > 0 && !c.Column.IsNamedParam then
        ((st.seen.lookup fieldName).getD []).length + 1
      else 0
    | none =>
      if ((st.seen.lookup fieldName).getD []).length > 0 && !c.Column.IsNamedParam then
        ((st.seen.lookup fieldName).getD []).length + 1
      else 0
  let suffixes := (c.id, suffix) :: st.suffixes
  let tagName := if suffix > 0 then tagName ++ "_" ++ toString suffix else tagName
  let fieldName := if suffix > 0 then fieldName ++ "_" ++ toString suffix else fieldName
  let tags : List (String × String) := []
  let tags := if req.Settings.Go.EmitDbTags then ("db", tagName) :: tags else tags
  let tags :=
    if req.Settings.Go.EmitJsonTags then ("json", G.JSONTagName tagName req.Settings) :: tags
    else tags
  let tags := G.addExtraGoStructTags tags req c.Column
  let f : Field :=
    { Name := fieldName
      DBName := colName
      Tags := tags
      Comment := ""
      Column := some c.Column
      Type_ := match c.embed with
        | none => G.goType req c.Column
        | some e => e.modelType
      EmbedFields := match c.embed with
        | none => []
        | some e => e.fields }
  let seen :=
    match st.seen.lookup baseFieldName with
    | none => (baseFieldName, [i]) :: st.seen
    | some l => (baseFieldName, l ++ [i]) :: st.seen
  { fields := st.fields ++ [f], seen := seen, suffixes := suffixes }

/-- The first loop of `columnsToStruct`, from index `i` on. -/
def columnsLoop (G : Deps) (req : plugin.CodeGenRequest) (useID : Bool) :
    StructState → Nat → List goColumn → StructState
  | st, _, [] => st
  | st, i, c :: cs => columnsLoop G req useID (columnStep G req useID st i c) (i + 1) cs

/-- The inner loop of the second loop of `columnsToStruct` (lines 401-410),
for the field at index `i`: `gs.Fields` and the variable `field` after the
indices `js`.  An index outside `gs.Fields`, which the first loop never
records, is passed over. -/
def backfillInner (i : Nat) : List Field → Field → List Nat → List Field × Field
  | fields, field, [] => (fields, field)
  | fields, field, j :: js =>
    if i = j then backfillInner i fields field js
    else
      match fields.get? j with
      | none => backfillInner i fields field js
      | some otherField =>
        let field := if otherField.Type_ ≠ field.Type_ then
          { field with Type_ := otherField.Type_ } else field
        backfillInner i (fields.set i field) field js

/-- The second loop of `columnsToStruct` (lines 399-412) over the indices
`i`, `i + 1`, ... (`n` of them): `gs.Fields` after it. -/
def backfillLoop (seen : List (String × List Nat)) : List Field → Nat → Nat → List Field
  | fields, _, 0 => fields
  | fields, i, n + 1 =>
    match fields.get? i with
    | none => fields
    | some field =>
      if ((seen.lookup field.Name).getD []).length > 1 && field.Type_ == "interface\x7b\x7d" then
        backfillLoop seen (backfillInner i fields field ((seen.lookup field.Name).getD [])).1
          (i + 1) n
      else backfillLoop seen fields (i + 1) n

/-- The function `columnsToStruct(req, name, columns, useID)`. -/
def columnsToStruct (G : Deps) (req : plugin.CodeGenRequest) (name : String)
    (columns : List goColumn) (useID : Bool) : Except BuildError Struct :=
  let st := columnsLoop G req useID { fields := [], seen := [], suffixes := [] } 0 columns
  let fields := backfillLoop st.seen st.fields 0 st.fields.length
  match checkIncompatibleFieldTypes fields with
  | some err => .error err
  | none => .ok { Table := none, Name := name, Fields := fields, Comment := "" }

/-- The loop over `s.Fields` in `buildQueries` (lines 270-278): whether every
field of the struct `s`, from index `i` on, has the name, the type and the
table of the query column at its index. -/
def sameFields (G : Deps) (req : plugin.CodeGenRequest) (s : Struct) :
    Nat → List Field → List plugin.Column → Bool
  | _, [], _ => true
  | _, _ :: _, [] => false
  | i, f :: fs, c :: cs =>
    let sameName := f.Name == G.StructName (columnName c i) req.Settings
    let sameType := f.Type_ == G.goType req c
    let sameTable := G.SameTableName c.Table s.Table req.Catalog.DefaultSchema
    (sameName && sameType && sameTable) && sameFields G req s (i + 1) fs cs

/-- The loop over `structs` in `buildQueries` (lines 265-283): the first
struct with as many fields as the query has columns and the same fields. -/
def findStruct (G : Deps) (req : plugin.CodeGenRequest) (structs : List Struct)
    (query : plugin.Query) : Option Struct :=
  structs.find? fun s =>
    s.Fields.length == query.Columns.length && sameFields G req s 0 s.Fields query.Columns

/-- The loop over `query.Columns` in `buildQueries` (lines 287-293), from
index `i` on. -/
def retColumns (req : plugin.CodeGenRequest) (structs : List Struct) :
    Nat → List plugin.Column → Except BuildError (List goColumn)
  | _, [] => .ok []
  | i, c :: cs =>
    match newGoEmbed c.EmbedTable structs req.Catalog.DefaultSchema with
    | .error e => .error e
    | .ok embed =>
      match retColumns req structs (i + 1) cs with
      | .error e => .error e
      | .ok columns => .ok ({ id := (i : Int), Column := c, embed := embed } :: columns)

/-- The branch of `buildQueries` that makes `gq.Arg` a struct (lines 225-246). -/
def argStruct (G : Deps) (req : plugin.CodeGenRequest) (query : plugin.Query) :
    Except BuildError QueryValue :=
  let cols := query.Params.map fun p =>
    ({ id := p.Number, Column := p.Column, embed := none } : goColumn)
  match columnsToStruct G req (query.Name ++ "Params") cols false with
  | .error err => .error err
  | .ok s =>
    .ok { QueryValue.zero with
      Emit := !decide ((query.Params.length : Int) ≤ req.Settings.Go.QueryParameterLimit)
      Name := "arg"
      Struct := some s
      SQLDriver := G.parseDriver req.Settings.Go.SqlPackage
      EmitPointer := req.Settings.Go.EmitParamsStructPointers }

/-- The part of the body of the loop of `buildQueries` that sets `gq.Arg`
(lines 211-247). -/
def buildArg (G : Deps) (req : plugin.CodeGenRequest) (query : plugin.Query) :
    Except BuildError QueryValue :=
  match query.Params with
  | [] => .ok QueryValue.zero
  | [p] =>
    if req.Settings.Go.QueryParameterLimit ≠ 0 then
      .ok { QueryValue.zero with
        Name := paramName G p
        DBName := p.Column.Name
        Typ := G.goType req p.Column
        SQLDriver := G.parseDriver req.Settings.Go.SqlPackage
        Column := some p.Column }
    else argStruct G req query
  | _ :: _ :: _ => argStruct G req query

/-- The branch of `buildQueries` that makes `gq.Ret` a struct (lines 261-308). -/
def retStruct (G : Deps) (req : plugin.CodeGenRequest) (structs : List Struct)
    (query : plugin.Query) : Except BuildError QueryValue :=
  if putOutColumns query then
    match findStruct G req structs query with
    | some gs =>
      .ok { QueryValue.zero with
        Emit := false
        Name := "i"
        Struct := some gs
        SQLDriver := G.parseDriver req.Settings.Go.SqlPackage
        EmitPointer := req.Settings.Go.EmitResultStructPointers }
    | none =>
      match retColumns req structs 0 query.Columns with
      | .error e => .error e
      | .ok columns =>
        match columnsToStruct G req (query.Name ++ "Row") columns true with
        | .error err => .error err
        | .ok gs =>
          .ok { QueryValue.zero with
            Emit := true
            Name := "i"
            Struct := some gs
            SQLDriver := G.parseDriver req.Settings.Go.SqlPackage
            EmitPointer := req.Settings.Go.EmitResultStructPointers }
  else .ok QueryValue.zero

/-- The part of the body of the loop of `buildQueries` that sets `gq.Ret`
(lines 249-308). -/
def buildRet (G : Deps) (req : plugin.CodeGenRequest) (structs : List Struct)
    (query : plugin.Query) : Except BuildError QueryValue :=
  match query.Columns with
  | [c] =>
    if c.EmbedTable.isNone then
      let name := columnName c 0
      let name := if c.IsFuncCall then stringsReplaceChar name '$' '_' else name
      .ok { QueryValue.zero with
        Name := name
        DBName := name
        Typ := G.goType req c
        SQLDriver := G.parseDriver req.Settings.Go.SqlPackage }
    else retStruct G req structs query
  | _ => retStruct G req structs query

/-- The body of the loop of `buildQueries` for a query with a name and a
command (lines 194-310): the query appended to `qs`, or the failure. -/
def buildQuery (G : Deps) (req : plugin.CodeGenRequest) (structs : List Struct)
    (query : plugin.Query) : Except BuildError Query :=
  let constantName :=
    if req.Settings.Go.EmitExportedQueries then
      G.Title query.Name ++ G.Title req.Settings.Engine
    else G.LowerTitle query.Name ++ G.Title req.Settings.Engine
  match buildArg G req query with
  | .error err => .error err
  | .ok arg =>
    match buildRet G req structs query with
    | .error err => .error err
    | .ok ret =>
      .ok { Cmd := query.Cmd
            ConstantName := constantName
            FieldName := G.LowerTitle query.Name ++ "Stmt"
            MethodName := query.Name
            SourceName := query.Filename
            SQL := query.Text
            Comments := query.Comments
            Table := query.InsertIntoTable
            Arg := arg
            Ret := ret }

/-- The loop of `buildQueries` over `req.Queries` (lines 186-311): the slice
`qs` after it, or the failure of the first query that fails. -/
def buildQueriesLoop (G : Deps) (req : plugin.CodeGenRequest) (structs : List Struct) :
    List plugin.Query → Except BuildError (List Query)
  | [] => .ok []
  | query :: queries =>
    if query.Name = "" then buildQueriesLoop G req structs queries
    else if query.Cmd = "" then buildQueriesLoop G req structs queries
    else
      match buildQuery G req structs query with
      | .error err => .error err
      | .ok gq =>
        match buildQueriesLoop G req structs queries with
        | .error err => .error err
        | .ok qs => .ok (gq :: qs)

/-- The function `buildQueries(req, structs)`.  The call of `sort.Slice` is an
insertion sort by `MethodName`, the order `<` of Go strings being the
lexicographic order of their characters; `sort.Slice` leaves the order of
queries of equal name open, and no property below depends on it. -/
def buildQueries (G : Deps) (req : plugin.CodeGenRequest) (structs : List Struct) :
    Except BuildError (List Query) :=
  match buildQueriesLoop G req structs req.Queries with
  | .error err => .error err
  | .ok qs => .ok (qs.insertionSort fun a b => ¬ (b.MethodName.data < a.MethodName.data))

/-! ### An instance of the code generator's dependencies -/

/-- The text with its first character in ASCII upper case. -/
def upperFirst (s : String) : String :=
  match s.data with
  | [] => ""
  | c :: cs => String.mk (c.toUpper :: cs)

/-- The text with its first character in ASCII lower case. -/
def lowerFirst (s : String) : String :=
  match s.data with
  | [] => ""
  | c :: cs => String.mk (c.toLower :: cs)

/-- Modelled from the spec: an instance of the functions `result.go` depends
on.  A native type maps to a Go type as in the spec's end-to-end example
(`bigint` to an integer, `text` to a string, nullable when the column is), an
unknown type to `interface`; a struct or field name is the name with each
part between underscores capitalised and `id` written `ID` (`id` gives `ID`,
`email` gives `Email`); an enum value keeps its letters, digits and
underscores, with `-`, `:` and `/` turned into underscores; two tables are
the same when catalog, name and schema, the schema defaulted, are equal; the
singular of a table name drops a final `s` (`accounts` gives `Account`). -/
def specGo : Deps where
  goType := fun _ c =>
    match c.Type_ with
    | none => "interface\x7b\x7d"
    | some t =>
      if t.Name = "bigint" then (if c.NotNull then "int64" else "sql.NullInt64")
      else if t.Name = "text" then (if c.NotNull then "string" else "sql.NullString")
      else "interface\x7b\x7d"
  StructName := fun name _ =>
    String.join ((stringsSplit name '_').map fun p => if p = "id" then "ID" else upperFirst p)
  JSONTagName := fun name _ => name
  SetCaseStyle := fun name _ => name
  addExtraGoStructTags := fun tags _ _ => tags
  parseDriver := fun pkg => pkg
  EnumReplace := fun v =>
    String.mk (v.data.filterMap fun c =>
      if c = '-' ∨ c = ':' ∨ c = '/' then some '_'
      else if c.isAlphanum ∨ c = '_' then some c
      else none)
  Title := upperFirst
  LowerTitle := lowerFirst
  SameTableName := fun n f defaultSchema =>
    match n, f with
    | some n, some f =>
      n.Catalog == f.Catalog && n.Name == f.Name &&
        (if n.Schema = "" then defaultSchema else n.Schema) == f.Schema
    | _, _ => false
  ToLower := fun s => String.mk (s.data.map Char.toLower)
  stringsTitle := upperFirst
  Singular := fun name exclusions =>
    if exclusions.contains name then name
    else
      match name.data.reverse with
      | 's' :: cs => String.mk cs.reverse
      | _ => name

/-- A column of the given name and native type, not null, of no table. -/
def specColumn (name type : String) : plugin.Column :=
  { Name := name, NotNull := true, IsArray := false, Comment := "", IsNamedParam := false,
    IsFuncCall := false, Table := none, Type_ := some ⟨"", "", type⟩, IsSqlcSlice := false,
    EmbedTable := none }

/-- A query of the given name and command with the given parameters and
columns. -/
def specQuery (name cmd : String) (params : List plugin.Parameter)
    (columns : List plugin.Column) : plugin.Query :=
  { Text := "", Name := name, Cmd := cmd, Columns := columns, Params := params,
    Comments := [], Filename := "query.sql", InsertIntoTable := none }

/-- A request with the given query-parameter limit, catalog enums (in the
default schema `public`) and queries. -/
def specRequest (limit : Int) (enums : List plugin.Enum) (queries : List plugin.Query) :
    plugin.CodeGenRequest :=
  { Settings :=
      { Engine := "postgresql"
        Go := { EmitJsonTags := false, EmitDbTags := false, EmitExportedQueries := false,
                EmitParamsStructPointers := false, EmitResultStructPointers := false,
                SqlPackage := "", QueryParameterLimit := limit,
                EmitExactTableNames := false, InflectionExcludeTableNames := [] } }
    Catalog :=
      { DefaultSchema := "public",
        Schemas := [{ Name := "public", Enums := enums, Tables := [] }] }
    Queries := queries }

end golang

namespace golang

/-- The labels of the constants of an enum as the deduplication rule words
them, for the values `vs` at the positions `i`, `i + 1`, ... after the labels
`earlier`: the label of a value is `value_<position>` when `EnumReplace` of the
value is empty or is a label assigned earlier, and `EnumReplace` of the value
otherwise. -/
def enumLabelsFrom (enumReplace : String → String) : List String → Nat → List String → List String
  | _, _, [] => []
  | earlier, i, v :: vs =>
    let label :=
      if enumReplace v = "" ∨ enumReplace v ∈ earlier then "value_" ++ toString i
      else enumReplace v
    label :: enumLabelsFrom enumReplace (earlier ++ [label]) (i + 1) vs

/-- The labels of the constants of an enum with the values `vs`. -/
def enumLabels (enumReplace : String → String) (vs : List String) : List String :=
  enumLabelsFrom enumReplace [] 0 vs

/-- The name `buildEnums` qualifies the constants of an enum with: the enum's
name, preceded by the schema's name outside the default schema. -/
def enumQualifiedName (req : plugin.CodeGenRequest) (schema : plugin.Schema)
    (enum : plugin.Enum) : String :=
  if schema.Name = req.Catalog.DefaultSchema then enum.Name
  else schema.Name ++ "_" ++ enum.Name

/-- A field without its type. -/
def Field.eraseType (f : Field) : Field :=
  { f with Type_ := "" }

end golang

namespace compiler

open catalog

/-- The type `compiler.Function`. -/
structure Function (X : Ext) where
  Rel : Option ast.FuncName
  ReturnType : Option X.TypeName

/-- The errors `QueryCatalog.GetFunc` returns: an error of the catalog, or the
error `fmt.Errorf("function not found: %s", rel.Name)` with its message. -/
inductive FuncError (E : Type) where
  | Catalog (e : E)
  | NotFound (msg : String)
  deriving DecidableEq, Repr

/-- The method `QueryCatalog.GetFunc(rel)`, a Go pair `(function, err)`. -/
def QueryCatalog.GetFunc {X : Ext} (qc : QueryCatalog X) (rel : ast.FuncName) :
    Option (Function X) × Option (FuncError X.Err) :=
  let r := qc.catalog.ListFuncsByName rel
  match r.2 with
  | some err => (none, some (.Catalog err))
  | none =>
    match r.1 with
    | [] => (none, some (.NotFound ("function not found: " ++ rel.Name)))
    | f :: _ => (some { Rel := some rel, ReturnType := f.ReturnType }, none)

end compiler

namespace validate

open catalog

/-- The error `Visit` latches on a node when the visitor holds no error: the
error of the call, if the call is rejected. -/
def rejection {X : Ext} (c : Catalog X) (cs : CombinedSettings) (node : ast.Node) :
    Option (sqlerr.Error X.Err) :=
  ((funcCallVisitor.mk c cs none).Visit node).v.err

mutual
/-- The nodes a walk without a latched error visits below and at `node`, in
traversal order: the node, then, when `Visit` returns a visitor for it, the
nodes of its children. -/
def traversal {X : Ext} (c : Catalog X) (cs : CombinedSettings) : ast.Node → List ast.Node
  | .A_Const loc => [.A_Const loc]
  | .ColumnRef loc => [.ColumnRef loc]
  | .FuncCall fn args loc =>
    .FuncCall fn args loc ::
      (if ((funcCallVisitor.mk c cs none).Visit (.FuncCall fn args loc)).descend then
        traversalList c cs args else [])
  | .Other t children =>
    .Other t children ::
      (if ((funcCallVisitor.mk c cs none).Visit (.Other t children)).descend then
        traversalList c cs children else [])
/-- The nodes a walk without a latched error visits in a list of siblings. -/
def traversalList {X : Ext} (c : Catalog X) (cs : CombinedSettings) :
    List ast.Node → List ast.Node
  | [] => []
  | n :: ns => traversal c cs n ++ traversalList c cs ns
end

end validate

namespace golang

/-- The first field of the list with the given name. -/
def firstNamed (fields : List Field) (name : String) : Option Field :=
  fields.find? fun g => g.Name == name

/-- Every group of fields of the same name agrees on one type. -/
def typesAgree (fields : List Field) : Prop :=
  ∀ f ∈ fields, ∀ g ∈ fields, f.Name = g.Name → f.Type_ = g.Type_

end golang

namespace golang

/-- The fields `columnsToStruct` hands to `checkIncompatibleFieldTypes`: those
of the first loop after the second loop. -/
def structFields (G : Deps) (req : plugin.CodeGenRequest) (columns : List goColumn)
    (useID : Bool) : List Field :=
  backfillLoop
    (columnsLoop G req useID { fields := [], seen := [], suffixes := [] } 0 columns).seen
    (columnsLoop G req useID { fields := [], seen := [], suffixes := [] } 0 columns).fields 0
    (columnsLoop G req useID { fields := [], seen := [], suffixes := [] } 0 columns).fields.length

/-- The struct comes from the table the embed target names: same catalog,
same name, and the schema of the target, or the default schema when the
target has none. -/
def embedMatches (embed : plugin.Identifier) (defaultSchema : String) (s : Struct) : Prop :=
  ∃ table, s.Table = some table ∧ embed.Catalog = table.Catalog ∧ embed.Name = table.Name ∧
    (if embed.Schema ≠ "" then embed.Schema else defaultSchema) = table.Schema

end golang

namespace golang

/-- The struct has as many fields as the query has columns and, at every
position, the field name (`StructName` of the column's name, or of
`column_<position + 1>`), the Go type and the table of the column. -/
def structMatches (G : Deps) (req : plugin.CodeGenRequest) (query : plugin.Query)
    (s : Struct) : Prop :=
  s.Fields.length = query.Columns.length ∧
  ∀ (i : Nat) (f : Field) (c : plugin.Column),
    s.Fields[i]? = some f → query.Columns[i]? = some c →
    f.Name = G.StructName (columnName c i) req.Settings ∧ f.Type_ = G.goType req c ∧
      G.SameTableName c.Table s.Table req.Catalog.DefaultSchema = true

/-- The result of the query goes through the struct path of `buildQueries`:
two or more columns, or one column that is an embed target. -/
def structPath (query : plugin.Query) : Prop :=
  2 ≤ query.Columns.length ∨ ∃ c, query.Columns = [c] ∧ c.EmbedTable ≠ none

end golang

namespace golang

/-- The columns `id` and `name` of the table `users`, as a query projects them. -/
def specUserColumns : List plugin.Column :=
  [{ specColumn "id" "bigint" with Table := some ⟨"", "", "users"⟩ },
   { specColumn "name" "text" with Table := some ⟨"", "", "users"⟩ }]

/-- The struct `User` of the table `public.users` with the fields `ID` and
`Name`, as `buildStructs` builds it. -/
def specUserStruct : Struct :=
  { Table := some ⟨"", "public", "users"⟩
    Name := "User"
    Comment := ""
    Fields :=
      [{ Name := "ID", DBName := "", Type_ := "int64", Tags := [], Comment := "",
         Column := none, EmbedFields := [] },
       { Name := "Name", DBName := "", Type_ := "string", Tags := [], Comment := "",
         Column := none, EmbedFields := [] }] }

end golang

namespace golang

/-- The base field name `columnsToStruct` derives for the column `c` at index
`i`, before any suffix: `StructName` of the embed's model name, or of the
column's name or `column_<i + 1>`. -/
def colBaseName (G : Deps) (req : plugin.CodeGenRequest) (i : Nat) (c : goColumn) : String :=
  G.StructName
    (match c.embed with
     | some e => e.modelName
     | none => columnName c.Column i) req.Settings

/-- The tag name `columnsToStruct` derives for the column `c` at index `i`,
before any suffix. -/
def colTagName (G : Deps) (i : Nat) (c : goColumn) : String :=
  match c.embed with
  | some e => G.SetCaseStyle e.modelName "snake"
  | none => columnName c.Column i

/-- The base field names of the columns at the indices `i`, `i + 1`, ... -/
def baseNamesFrom (G : Deps) (req : plugin.CodeGenRequest) : Nat → List goColumn → List String
  | _, [] => []
  | i, c :: cs => colBaseName G req i c :: baseNamesFrom G req (i + 1) cs

/-- The struct tags `columnsToStruct` gives a field of the tag name `tagName`:
the `db` tag holds the tag name when `db` tags are emitted. -/
def fieldTags (G : Deps) (req : plugin.CodeGenRequest) (tagName : String)
    (column : plugin.Column) : List (String × String) :=
  G.addExtraGoStructTags
    (if req.Settings.Go.EmitJsonTags then
      ("json", G.JSONTagName tagName req.Settings) ::
        (if req.Settings.Go.EmitDbTags then [("db", tagName)] else [])
     else (if req.Settings.Go.EmitDbTags then [("db", tagName)] else []))
    req column

end golang

namespace golang

/-- Whether `buildQueries` keeps the query: its name and its command are both
non-empty (lines 187-192). -/
def hasNameAndCmd (query : plugin.Query) : Bool :=
  query.Name != "" && query.Cmd != ""

end golang

namespace golang

/-- A column that is a named parameter of the given name and type. -/
def specNamedParam (name type : String) : plugin.Column :=
  { specColumn name type with IsNamedParam := true }

end golang

/-! ## The Go code generator: `filterUnusedStructs` of `gen.go` -/

namespace golang

/-- The method `QueryValue.IsStruct()`. -/
def QueryValue.IsStruct (v : QueryValue) : Bool :=
  v.Struct.isSome

/-- The method `QueryValue.Type()`; `none` is the panic
`no type for QueryValue`. -/
def QueryValue.Type_ (v : QueryValue) : Option String :=
  if v.Typ ≠ "" then some v.Typ
  else
    match v.Struct with
    | some s => some s.Name
    | none => none

/-- The loop over the fields of a struct in `filterUnusedStructs` (lines
314-316 and 322-324): the set `keepTypes`, as the list of its keys, with the
types of the fields added. -/
def keepFields : List String → List Field → List String
  | keepTypes, [] => keepTypes
  | keepTypes, field :: fields => keepFields (field.Type_ :: keepTypes) fields

/-- The statements of `filterUnusedStructs` for one value `query.Arg` or
`query.Ret` (lines 312-317 and 320-325): `keepTypes` with the type of the
value and, for a struct, the types of its fields; `none` is the panic of
`Type()`. -/
def keepValue (keepTypes : List String) (v : QueryValue) : Option (List String) :=
  match v.Type_ with
  | none => none
  | some t =>
    if v.IsStruct then
      match v.Struct with
      | some s => some (keepFields (t :: keepTypes) s.Fields)
      | none => some (t :: keepTypes)
    else some (t :: keepTypes)

/-- The first loop of `filterUnusedStructs` (lines 310-327): the set
`keepTypes` after the queries. -/
def keepTypesLoop : List String → List Query → Option (List String)
  | keepTypes, [] => some keepTypes
  | keepTypes, query :: queries =>
    match (if !query.Arg.isEmpty then keepValue keepTypes query.Arg else some keepTypes) with
    | none => none
    | some keepTypes =>
      match (if query.hasRetType then keepValue keepTypes query.Ret else some keepTypes) with
      | none => none
      | some keepTypes => keepTypesLoop keepTypes queries

/-- The second loop of `filterUnusedStructs` (lines 329-337): the slice
`keepEnums` after the enums. -/
def keepEnumsLoop (keepTypes : List String) : List Enum → List Enum → List Enum
  | keepEnums, [] => keepEnums
  | keepEnums, enum :: enums =>
    let keepEnums := if enum.Name ∈ keepTypes then keepEnums ++ [enum] else keepEnums
    let keepEnums := if "Null" ++ enum.Name ∈ keepTypes then keepEnums ++ [enum] else keepEnums
    keepEnumsLoop keepTypes keepEnums enums

/-- The third loop of `filterUnusedStructs` (lines 339-344): the slice
`keepStructs` after the structs. -/
def keepStructsLoop (keepTypes : List String) : List Struct → List Struct → List Struct
  | keepStructs, [] => keepStructs
  | keepStructs, st :: structs =>
    keepStructsLoop keepTypes
      (if st.Name ∈ keepTypes then keepStructs ++ [st] else keepStructs) structs

/-- The function `filterUnusedStructs(enums, structs, queries)`; `none` is the
panic of `Type()` on a value with a name and neither a type nor a struct. -/
def filterUnusedStructs (enums : List Enum) (structs : List Struct) (queries : List Query) :
    Option (List Enum × List Struct) :=
  match keepTypesLoop [] queries with
  | none => none
  | some keepTypes =>
    some (keepEnumsLoop keepTypes [] enums, keepStructsLoop keepTypes [] structs)

/-- The types `filterUnusedStructs` counts as used by a value: the type of
the value and, for a struct, the types of its fields. -/
def usedBy (v : QueryValue) (t : String) : Prop :=
  v.Type_ = some t ∨ ∃ s, v.Struct = some s ∧ ∃ f ∈ s.Fields, f.Type_ = t

/-- The types used by the queries: by a non-empty argument or by the result
of a query that has a result type. -/
def usedType (queries : List Query) (t : String) : Prop :=
  ∃ q ∈ queries, (q.Arg.isEmpty = false ∧ usedBy q.Arg t) ∨
    (q.hasRetType = true ∧ usedBy q.Ret t)

/-- An enum of the given name without constants. -/
def specEnum (name : String) : Enum :=
  { Name := name, Comment := "", Constants := [], NameTags := [], ValidTags := [] }

/-- A field of the given name and type. -/
def specField (name type : String) : Field :=
  { Name := name, DBName := "", Type_ := type, Tags := [], Comment := "", Column := none,
    EmbedFields := [] }

/-- A built query of the command `:exec` whose argument is a struct of the
given name and fields. -/
def specBuiltQuery (name : String) (fields : List Field) : Query :=
  { Cmd := metadata.CmdExec, Comments := [], MethodName := name, FieldName := "",
    ConstantName := "", SQL := "", SourceName := "", Ret := QueryValue.zero,
    Arg := { QueryValue.zero with
      Name := "arg", Emit := true,
      Struct := some { Table := none, Name := name ++ "Params", Fields := fields,
                       Comment := "" } },
    Table := none }

end golang

/-! ## The query catalog: `buildQueryCatalog` of `query_catalog.go` -/

namespace ast

/-- The type `ast.CommonTableExpr`: the fields `buildQueryCatalog` reads.
`Ctename` is the text the pointer of the Go field points to. -/
structure CommonTableExpr where
  Ctename : String
  Ctequery : Node

/-- An item of the list `with.Ctes.Items`, by the type assertion
`item.(*ast.CommonTableExpr)`: a common table expression, or a node of another
type. -/
inductive CteItem where
  | Cte (cte : CommonTableExpr)
  | Other (node : Node)

/-- The type `ast.WithClause`: the items of its list `Ctes`. -/
structure WithClause where
  Ctes : List CteItem

/-- The node handed to `buildQueryCatalog`, by the cases of its type switch:
the four statement types with their field `WithClause`, nil or not, and every
other node. -/
inductive Stmt where
  | DeleteStmt (WithClause : Option WithClause)
  | InsertStmt (WithClause : Option WithClause)
  | UpdateStmt (WithClause : Option WithClause)
  | SelectStmt (WithClause : Option WithClause)
  | Other (node : Node)

end ast

namespace compiler

open catalog

/-- The type switch of `buildQueryCatalog` (lines 18-30): the variable `with`. -/
def withClauseOf : ast.Stmt → Option ast.WithClause
  | .DeleteStmt w => w
  | .InsertStmt w => w
  | .UpdateStmt w => w
  | .SelectStmt w => w
  | .Other _ => none

/-- The loop of `buildQueryCatalog` over `with.Ctes.Items` (lines 33-48), from
the query catalog `qc` on: a Go pair `(qc, err)`.  The argument
`outputColumns` is the method `comp.outputColumns`, whose source is not part
of the repository: a Go pair `(cols, err)`. -/
def buildCtes {X : Ext}
    (outputColumns : QueryCatalog X → ast.Node → List (Column X) × Option X.Err) :
    QueryCatalog X → List ast.CteItem → Option (QueryCatalog X) × Option X.Err
  | qc, [] => (some qc, none)
  | qc, .Other _ :: items => buildCtes outputColumns qc items
  | qc, .Cte cte :: items =>
    let r := outputColumns qc cte.Ctequery
    match r.2 with
    | some err => (none, some err)
    | none =>
      let rel : ast.TableName := { Catalog := "", Schema := "", Name := cte.Ctename }
      let cols := r.1.map fun col => { col with Table := some rel }
      buildCtes outputColumns
        { qc with ctes := (cte.Ctename, { Rel := some rel, Columns := cols }) :: qc.ctes }
        items

/-- The method `Compiler.buildQueryCatalog(c, node, embeds)`, a Go pair
`(qc, err)`. -/
def buildQueryCatalog {X : Ext}
    (outputColumns : QueryCatalog X → ast.Node → List (Column X) × Option X.Err)
    (c : Catalog X) (node : ast.Stmt) (embeds : X.EmbedSet) :
    Option (QueryCatalog X) × Option X.Err :=
  let qc : QueryCatalog X := { catalog := c, ctes := [], embeds := embeds }
  match withClauseOf node with
  | some w => buildCtes outputColumns qc w.Ctes
  | none => (some qc, none)

/-- The names of the common table expressions among the items, in order. -/
def cteNames : List ast.CteItem → List String
  | [] => []
  | .Other _ :: items => cteNames items
  | .Cte cte :: items => cte.Ctename :: cteNames items

/-- The table `buildQueryCatalog` registers for a common table expression of
the name `name` whose body has the output columns `cols`: every column is
tagged with the relation of that name, without schema and catalog. -/
def cteTable {X : Ext} (name : String) (cols : List (Column X)) : Table X :=
  { Rel := some { Catalog := "", Schema := "", Name := name }
    Columns := cols.map fun col =>
      { col with Table := some { Catalog := "", Schema := "", Name := name } } }

/-- Modelled from the spec: an instance of `outputColumns`.  The body
`ColumnRef` fails to resolve; every other body has one column for each common
table expression visible in the query catalog, named after it, and the column
`x`. -/
def specOutputColumns (qc : QueryCatalog specExt) (node : ast.Node) :
    List (Column specExt) × Option SpecErr :=
  match node with
  | .ColumnRef _ => ([], some (.NotFound "body"))
  | _ =>
    ((qc.ctes.map fun p => p.1) ++ ["x"] |>.map fun name =>
      { Table := none, Name := name, DataType := "text", NotNull := true, Unsigned := false,
        IsArray := false, Type_ := some "text", Length := none }, none)

end compiler

namespace golang

/-- The base field names of the parameters at the indices `i`, `i + 1`, ...:
`StructName` of the parameter's column name, or of `column_<i + 1>`.  The
placeholder numbers play no part. -/
def paramBaseNames (G : Deps) (req : plugin.CodeGenRequest) :
    Nat → List plugin.Parameter → List String
  | _, [] => []
  | i, p :: ps => G.StructName (columnName p.Column i) req.Settings :: paramBaseNames G req (i + 1) ps

end golang

/-! ## Properties of `Override.Parse`: the sections of the method -/

namespace config

theorem stringsSplit_empty (sep : Char) : stringsSplit "" sep = [""] := rfl

theorem parseGo_patterns {D : Deps} (o : Override D) :
    o.parseGo.1.ColumnName = o.ColumnName ∧ o.parseGo.1.TableRel = o.TableRel ∧
    o.parseGo.1.TableSchema = o.TableSchema ∧ o.parseGo.1.TableCatalog = o.TableCatalog := by
  unfold Override.parseGo
  cases D.GoTypeParse o.GoType with
  | error e => simp
  | ok parsed =>
    simp only []
    cases D.GoStructTagParse o.GoStructTag <;> simp

theorem mapDeprecated_fields {D : Deps} (o : Override D) :
    o.mapDeprecated.Column = o.Column ∧
    o.mapDeprecated.ColumnName = o.ColumnName ∧ o.mapDeprecated.TableRel = o.TableRel ∧
    o.mapDeprecated.TableSchema = o.TableSchema ∧
    o.mapDeprecated.TableCatalog = o.TableCatalog := by
  unfold Override.mapDeprecated
  by_cases h1 : o.Deprecated_PostgresType = "" <;> by_cases h2 : o.Deprecated_Null = true <;>
    simp [h1, h2]

theorem parseOptions_ok {D : Deps} (o : Override D) (hok : o.parseOptions.2 = none) :
    o.parseColumn.2 = none ∧ o.parseOptions.1 = o.parseColumn.1.parseGo.1 := by
  unfold Override.parseOptions at hok ⊢
  by_cases h1 : o.Column ≠ "" ∧ o.DBType ≠ ""
  · rw [if_pos h1] at hok
    simp at hok
  · rw [if_neg h1] at hok ⊢
    by_cases h2 : o.Column = "" ∧ o.DBType = ""
    · rw [if_pos h2] at hok
      simp at hok
    · rw [if_neg h2] at hok ⊢
      rcases hpc : o.parseColumn with ⟨o1, _ | e⟩
      · simp
      · rw [hpc] at hok
        simp at hok

theorem Parse_ok {D : Deps} (o : Override D) (hok : o.Parse.err = none) :
    o.mapDeprecated.parseColumn.2 = none ∧
    o.Parse.o = o.mapDeprecated.parseColumn.1.parseGo.1 := by
  unfold Override.Parse at hok ⊢
  split at hok
  · simp at hok
  · rename_i h1
    rw [if_neg h1]
    exact parseOptions_ok _ hok

theorem parseColumn_two_parts {D : Deps} (o : Override D) (p0 p1 : String)
    (hsplit : stringsSplit o.Column '.' = [p0, p1]) (hok : o.parseColumn.2 = none) :
    o.parseColumn.1.ColumnName = (D.MatchCompile p1).1 ∧
    o.parseColumn.1.TableRel = (D.MatchCompile p0).1 ∧
    o.parseColumn.1.TableSchema = (D.MatchCompile "public").1 ∧
    o.parseColumn.1.TableCatalog = o.TableCatalog := by
  have hne : o.Column ≠ "" := by
    intro h
    rw [h, stringsSplit_empty] at hsplit
    simp at hsplit
  unfold Override.parseColumn at hok ⊢
  rw [if_neg hne] at hok ⊢
  rw [hsplit] at hok ⊢
  simp only [] at hok ⊢
  cases h1 : (D.MatchCompile p1).2 <;> rw [h1] at hok <;> simp only [] at hok
  · cases h2 : (D.MatchCompile p0).2 <;> rw [h2] at hok <;> simp only [] at hok
    · cases h3 : (D.MatchCompile "public").2 <;> rw [h3] at hok <;> simp only [] at hok
      · simp [h1, h2, h3]
      · simp at hok
    · simp at hok
  · simp at hok

/-- The result of `Override.Parse` on a two-part `column` specifier. -/
theorem Parse_two_parts {D : Deps} (o : Override D) (p0 p1 : String)
    (hsplit : stringsSplit o.Column '.' = [p0, p1]) (hok : o.Parse.err = none) :
    o.Parse.o.ColumnName = (D.MatchCompile p1).1 ∧
    o.Parse.o.TableRel = (D.MatchCompile p0).1 ∧
    o.Parse.o.TableSchema = (D.MatchCompile "public").1 ∧
    o.Parse.o.TableCatalog = o.TableCatalog := by
  obtain ⟨hc, ho⟩ := Parse_ok o hok
  obtain ⟨f0, f1, f2, f3, f4⟩ := mapDeprecated_fields o
  obtain ⟨g1, g2, g3, g4⟩ := parseGo_patterns o.mapDeprecated.parseColumn.1
  obtain ⟨c1, c2, c3, c4⟩ :=
    parseColumn_two_parts o.mapDeprecated p0 p1 (by rw [f0]; exact hsplit) hc
  rw [ho, g1, g2, g3, g4, c1, c2, c3, c4, f4]
  exact ⟨rfl, rfl, rfl, rfl⟩

end config

/-! ## Properties of `Override.Matches` -/

namespace pattern

theorem matchTokens_literal (p : List Char) (hp : ∀ c ∈ p, c ≠ '*' ∧ c ≠ '?') (s : List Char) :
    matchTokens (tokenize p) s = true ↔ s = p := by
  induction p generalizing s with
  | nil => cases s <;> simp [tokenize, matchTokens]
  | cons c cs ih =>
    have hc := hp c (List.mem_cons_self c cs)
    have hcs : ∀ d ∈ cs, d ≠ '*' ∧ d ≠ '?' := fun d hd => hp d (List.mem_cons_of_mem c hd)
    cases s with
    | nil => simp [tokenize, matchTokens, hc.1, hc.2]
    | cons d ds =>
      simp only [tokenize, hc.1, hc.2, if_false, matchTokens, Bool.and_eq_true, beq_iff_eq,
        List.cons.injEq, ih hcs ds]
      constructor
      · rintro ⟨h1, h2⟩
        exact ⟨h1.symm, h2⟩
      · rintro ⟨h1, h2⟩
        exact ⟨h1.symm, h2⟩

end pattern

namespace config

/-- The pattern library modelled from the spec compiles a part without
wildcard tokens to a matcher for exactly that text. -/
theorem specDeps_Literal (p : String) (hp : ∀ c ∈ p.data, c ≠ '*' ∧ c ≠ '?') :
    specDeps.Literal p := by
  refine ⟨⟨pattern.tokenize p.data⟩, rfl, fun s => ?_⟩
  show pattern.matchTokens (pattern.tokenize p.data) s.data = true ↔ s = p
  rw [pattern.matchTokens_literal p.data hp s.data]
  constructor
  · intro h
    exact String.ext h
  · intro h
    rw [h]

theorem Matches_eq_true_iff {D : Deps} (o : Override D) (n : ast.TableName) (ds : String) :
    o.Matches (some n) ds = true ↔
      o.declaredPatternsMatch n ds ∧ (o.TableRel = none → n.Name = "") := by
  unfold Override.Matches Override.declaredPatternsMatch effectiveSchema
  cases hc : o.TableCatalog <;> cases hs : o.TableSchema <;> cases hr : o.TableRel <;>
    simp <;> tauto

/-- C2: an override without a schema pattern does not match a relation whose
effective schema is not empty, whatever its other patterns are. -/
theorem C2_no_schema_pattern_no_match {D : Deps} (o : Override D) (n : ast.TableName)
    (defaultSchema : String) (hs : o.TableSchema = none)
    (he : (if n.Schema = "" then defaultSchema else n.Schema) ≠ "") :
    o.Matches (some n) defaultSchema = false := by
  unfold Override.Matches
  cases hc : o.TableCatalog <;> simp [hs, he]

/-- C2 at a parsed `db_type` override and the relation `public.users`. -/
theorem C2_no_schema_pattern_no_match_witness :
    (specOverride "" "text" "" false false "int64").Parse.o.TableSchema = none ∧
    (if (ast.TableName.mk "" "" "users").Schema = "" then "public"
      else (ast.TableName.mk "" "" "users").Schema) ≠ "" ∧
    (specOverride "" "text" "" false false "int64").Parse.o.Matches
      (some (ast.TableName.mk "" "" "users")) "public" = false :=
  ⟨by decide, by decide,
    C2_no_schema_pattern_no_match (specOverride "" "text" "" false false "int64").Parse.o
      (ast.TableName.mk "" "" "users") "public" (by decide) (by decide)⟩

/-- C3, as stated, fails: the override parsed from `db_type: text` declares no
pattern, the relation `users` with an empty effective schema meets every
declared pattern and the schema rule, and `Matches` is false. -/
theorem C3_undeclared_table_counterexample :
    (specOverride "" "text" "" false false "int64").Parse.err = none ∧
    (specOverride "" "text" "" false false "int64").Parse.o.TableRel = none ∧
    (specOverride "" "text" "" false false "int64").Parse.o.declaredPatternsMatch
      (ast.TableName.mk "" "" "users") "" ∧
    (specOverride "" "text" "" false false "int64").Parse.o.Matches
      (some (ast.TableName.mk "" "" "users")) "" = false := by
  have hc : (specOverride "" "text" "" false false "int64").Parse.o.TableCatalog = none := by
    decide
  have hs : (specOverride "" "text" "" false false "int64").Parse.o.TableSchema = none := by
    decide
  have hr : (specOverride "" "text" "" false false "int64").Parse.o.TableRel = none := by
    decide
  refine ⟨by decide, hr, ⟨?_, ?_, ?_, ?_⟩, by decide⟩
  · intro m hm
    rw [hc] at hm
    exact Option.noConfusion hm
  · intro m hm
    rw [hs] at hm
    exact Option.noConfusion hm
  · intro m hm
    rw [hr] at hm
    exact Option.noConfusion hm
  · intro _
    decide

/-- C3, amended: `Matches` is true exactly when each declared catalog, schema
and table pattern matches its part of the relation, the schema rule holds (no
schema pattern requires an empty effective schema) and the table rule holds
(no table pattern requires an empty `Name`). -/
theorem C3_undeclared_levels {D : Deps} (o : Override D) (n : ast.TableName)
    (defaultSchema : String) :
    o.Matches (some n) defaultSchema = true ↔
      o.declaredPatternsMatch n defaultSchema ∧ (o.TableRel = none → n.Name = "") :=
  Matches_eq_true_iff o n defaultSchema

/-- C1: the override parsed from the two-part specifier `users.id` matches a
relation named `users` exactly when the relation's effective schema is
`public`, and so never the relation `app.users`.  The pattern library is any
one that compiles the texts `users` and `public` to matchers of exactly these
texts; the override comes from the configuration, with no catalog matcher. -/
theorem C1_two_part_column_targets_public {D : Deps} (hu : D.Literal "users")
    (hp : D.Literal "public") (o : Override D) (hcol : o.Column = "users.id")
    (hcat : o.TableCatalog = none) (hok : o.Parse.err = none)
    (n : ast.TableName) (hn : n.Name = "users") (defaultSchema : String) :
    (o.Parse.o.Matches (some n) defaultSchema = true ↔
      (if n.Schema = "" then defaultSchema else n.Schema) = "public") ∧
    (n.Schema = "app" → o.Parse.o.Matches (some n) defaultSchema = false) := by
  have hsplit : stringsSplit o.Column '.' = ["users", "id"] := by
    rw [hcol]
    decide
  obtain ⟨-, hrel, hsch, hc⟩ := Parse_two_parts o "users" "id" hsplit hok
  obtain ⟨mu, hmu, hmu'⟩ := hu
  obtain ⟨mp, hmp, hmp'⟩ := hp
  rw [hmu] at hrel
  rw [hmp] at hsch
  rw [hcat] at hc
  have key : o.Parse.o.Matches (some n) defaultSchema = true ↔
      (if n.Schema = "" then defaultSchema else n.Schema) = "public" := by
    unfold Override.Matches
    rw [hrel, hsch, hc]
    simp only [Option.isNone_some, Bool.false_and, Bool.false_eq_true, if_false]
    have h1 : D.MatchString mu n.Name = true := (hmu' n.Name).2 hn
    rw [← hmp' (if n.Schema = "" then defaultSchema else n.Schema)]
    simp [h1]
  refine ⟨key, fun happ => ?_⟩
  have hne : ¬ o.Parse.o.Matches (some n) defaultSchema = true := by
    rw [key, happ]
    simp
  simpa using hne

/-- C1 at the glob patterns modelled from the spec, the override
`column: users.id` and the relation `app.users`. -/
theorem C1_two_part_column_targets_public_witness :
    ((specOverride "users.id" "" "" false false "int64").Parse.o.Matches
        (some (ast.TableName.mk "" "app" "users")) "public" = true ↔
      (if (ast.TableName.mk "" "app" "users").Schema = "" then "public"
        else (ast.TableName.mk "" "app" "users").Schema) = "public") ∧
    ((ast.TableName.mk "" "app" "users").Schema = "app" →
      (specOverride "users.id" "" "" false false "int64").Parse.o.Matches
        (some (ast.TableName.mk "" "app" "users")) "public" = false) :=
  C1_two_part_column_targets_public (specDeps_Literal "users" (by decide))
    (specDeps_Literal "public" (by decide))
    (specOverride "users.id" "" "" false false "int64") rfl rfl (by decide)
    (ast.TableName.mk "" "app" "users") rfl "public"

end config

/-! ## Properties of `Override.Parse`: option combinations and deprecated fields -/

namespace config

theorem parseGo_withPostgresType {D : Deps} (o : Override D) (x : String) :
    (o.withPostgresType x).parseGo = (o.parseGo.1.withPostgresType x, o.parseGo.2) := by
  unfold Override.parseGo Override.withPostgresType
  cases D.GoTypeParse o.GoType with
  | error e => rfl
  | ok parsed =>
    simp only []
    cases D.GoStructTagParse o.GoStructTag <;> rfl

theorem parseColumn_withPostgresType {D : Deps} (o : Override D) (x : String) :
    (o.withPostgresType x).parseColumn =
      (o.parseColumn.1.withPostgresType x, o.parseColumn.2) := by
  unfold Override.parseColumn Override.withPostgresType
  simp only []
  split
  · rfl
  · split
    · cases (D.MatchCompile _).2 <;> simp only []
      cases (D.MatchCompile _).2 <;> simp only []
      cases (D.MatchCompile _).2 <;> simp only []
    · cases (D.MatchCompile _).2 <;> simp only []
      cases (D.MatchCompile _).2 <;> simp only []
      cases (D.MatchCompile _).2 <;> simp only []
    · cases (D.MatchCompile _).2 <;> simp only []
      cases (D.MatchCompile _).2 <;> simp only []
      cases (D.MatchCompile _).2 <;> simp only []
      cases (D.MatchCompile _).2 <;> simp only []
    · rfl

theorem parseOptions_withPostgresType {D : Deps} (o : Override D) (x : String) :
    (o.withPostgresType x).parseOptions =
      (o.parseOptions.1.withPostgresType x, o.parseOptions.2) := by
  unfold Override.parseOptions
  rw [parseColumn_withPostgresType]
  have hc : (o.withPostgresType x).Column = o.Column := rfl
  have hd : (o.withPostgresType x).DBType = o.DBType := rfl
  rw [hc, hd]
  by_cases h1 : o.Column ≠ "" ∧ o.DBType ≠ ""
  · rw [if_pos h1, if_pos h1]
  · rw [if_neg h1, if_neg h1]
    by_cases h2 : o.Column = "" ∧ o.DBType = ""
    · rw [if_pos h2, if_pos h2]
    · rw [if_neg h2, if_neg h2]
      rcases hpc : o.parseColumn with ⟨o1, _ | e⟩
      · simp only []
        exact parseGo_withPostgresType o1 x
      · rfl

theorem parseOptions_error_patterns {D : Deps} (o : Override D)
    (h : (o.Column ≠ "" ∧ o.DBType ≠ "") ∨ (o.Column = "" ∧ o.DBType = "")) :
    o.parseOptions.2 ≠ none ∧ o.parseOptions.1 = o := by
  unfold Override.parseOptions
  by_cases h1 : o.Column ≠ "" ∧ o.DBType ≠ ""
  · rw [if_pos h1]
    simp
  · rw [if_neg h1]
    have h2 : o.Column = "" ∧ o.DBType = "" := h.resolve_left h1
    rw [if_pos h2]
    simp

/-- C9: when `column` and `db_type` (after `postgres_type` has been mapped
into it) are both given or both missing, `Override.Parse` returns an error and
leaves the four pattern matchers as they were. -/
theorem C9_exactly_one_of_column_db_type {D : Deps} (o : Override D)
    (h : (o.Column ≠ "" ∧ o.mapDeprecated.DBType ≠ "") ∨
      (o.Column = "" ∧ o.mapDeprecated.DBType = "")) :
    o.Parse.err ≠ none ∧
    o.Parse.o.ColumnName = o.ColumnName ∧ o.Parse.o.TableRel = o.TableRel ∧
    o.Parse.o.TableSchema = o.TableSchema ∧ o.Parse.o.TableCatalog = o.TableCatalog := by
  unfold Override.Parse
  by_cases h1 : o.Deprecated_PostgresType ≠ "" ∧ o.DBType ≠ ""
  · rw [if_pos h1]
    simp
  · rw [if_neg h1]
    obtain ⟨f0, f1, f2, f3, f4⟩ := mapDeprecated_fields o
    obtain ⟨he, ho⟩ := parseOptions_error_patterns o.mapDeprecated (by rw [f0]; exact h)
    simp only []
    rw [ho]
    exact ⟨he, f1, f2, f3, f4⟩

/-- C9 at an override with both `column` and `db_type`. -/
theorem C9_exactly_one_of_column_db_type_witness :
    (specOverride "users.id" "text" "" false false "int64").Parse.err ≠ none ∧
    (specOverride "users.id" "text" "" false false "int64").Parse.o.ColumnName = none ∧
    (specOverride "users.id" "text" "" false false "int64").Parse.o.TableRel = none ∧
    (specOverride "users.id" "text" "" false false "int64").Parse.o.TableSchema = none ∧
    (specOverride "users.id" "text" "" false false "int64").Parse.o.TableCatalog = none :=
  C9_exactly_one_of_column_db_type (specOverride "users.id" "text" "" false false "int64")
    (Or.inl (by decide))

theorem parseOptions_DBType {D : Deps} (o : Override D) :
    o.parseOptions.1.DBType = o.DBType := by
  have hgo : ∀ o1 : Override D, o1.parseGo.1.DBType = o1.DBType := by
    intro o1
    unfold Override.parseGo
    cases D.GoTypeParse o1.GoType with
    | error e => rfl
    | ok parsed =>
      simp only []
      cases D.GoStructTagParse o1.GoStructTag <;> rfl
  have hcol : o.parseColumn.1.DBType = o.DBType := by
    unfold Override.parseColumn
    split
    · rfl
    · split <;> simp only [] <;> (repeat' split) <;> rfl
  unfold Override.parseOptions
  by_cases h1 : o.Column ≠ "" ∧ o.DBType ≠ ""
  · rw [if_pos h1]
  · rw [if_neg h1]
    by_cases h2 : o.Column = "" ∧ o.DBType = ""
    · rw [if_pos h2]
    · rw [if_neg h2]
      rcases hpc : o.parseColumn with ⟨o1, _ | e⟩
      · rw [hpc] at hcol
        simp only [] at hcol ⊢
        rw [hgo o1, hcol]
      · rw [hpc] at hcol
        exact hcol

theorem mapDeprecated_withDBTypeOnly {D : Deps} (o : Override D) (x : String)
    (hx : x ≠ "") (hp : o.Deprecated_PostgresType = x) :
    o.mapDeprecated = ((o.withDBTypeOnly x).mapDeprecated).withPostgresType x := by
  cases o
  simp only at hp
  subst hp
  unfold Override.mapDeprecated Override.withDBTypeOnly Override.withPostgresType
  simp only [ne_eq, hx, not_false_eq_true, if_true, not_true_eq_false, if_false]
  split <;> rfl

/-- C10: with `postgres_type` = `x` not empty, `Override.Parse` fails when
`db_type` is given too; otherwise it sets `DBType` to `x` and ends as it does
on the override written with `db_type` = `x`: same error, same receiver up to
the field `postgres_type` itself, one more warning. -/
theorem C10_postgres_type_is_db_type {D : Deps} (o : Override D) (x : String)
    (hx : x ≠ "") (hp : o.Deprecated_PostgresType = x) :
    (o.DBType ≠ "" → o.Parse.err = some .dbTypeWithPostgresType) ∧
    (o.DBType = "" →
      o.Parse.o.DBType = x ∧
      o.Parse.err = (o.withDBTypeOnly x).Parse.err ∧
      o.Parse.o = (o.withDBTypeOnly x).Parse.o.withPostgresType x ∧
      o.Parse.stderr = Warning.postgresTypeDeprecated :: (o.withDBTypeOnly x).Parse.stderr) := by
  constructor
  · intro hd
    unfold Override.Parse
    rw [if_pos ⟨by rw [hp]; exact hx, hd⟩]
  · intro hd
    have h1 : ¬(o.Deprecated_PostgresType ≠ "" ∧ o.DBType ≠ "") := fun h => h.2 hd
    have h2 : ¬((o.withDBTypeOnly x).Deprecated_PostgresType ≠ "" ∧
        (o.withDBTypeOnly x).DBType ≠ "") := fun h => h.1 rfl
    have hm : o.mapDeprecated.DBType = x := by
      rw [mapDeprecated_withDBTypeOnly o x hx hp]
      unfold Override.mapDeprecated Override.withDBTypeOnly Override.withPostgresType
      simp only [ne_eq, not_true_eq_false, if_false]
      split <;> rfl
    have hw : o.deprecationWarnings =
        Warning.postgresTypeDeprecated :: (o.withDBTypeOnly x).deprecationWarnings := by
      unfold Override.deprecationWarnings Override.withDBTypeOnly
      simp only [hp, ne_eq, hx, not_false_eq_true, if_true, not_true_eq_false, if_false]
      rfl
    unfold Override.Parse
    rw [if_neg h1, if_neg h2]
    simp only []
    refine ⟨?_, ?_, ?_, hw⟩
    · rw [parseOptions_DBType, hm]
    · rw [mapDeprecated_withDBTypeOnly o x hx hp, parseOptions_withPostgresType]
    · rw [mapDeprecated_withDBTypeOnly o x hx hp, parseOptions_withPostgresType]

/-- C10 at the override `postgres_type: text`. -/
theorem C10_postgres_type_is_db_type_witness :
    ("text" ≠ "" ∧ (specOverride "" "" "text" false true "int64").Deprecated_PostgresType = "text") ∧
    (((specOverride "" "" "text" false true "int64").DBType ≠ "" →
      (specOverride "" "" "text" false true "int64").Parse.err = some .dbTypeWithPostgresType) ∧
    ((specOverride "" "" "text" false true "int64").DBType = "" →
      (specOverride "" "" "text" false true "int64").Parse.o.DBType = "text" ∧
      (specOverride "" "" "text" false true "int64").Parse.err =
        ((specOverride "" "" "text" false true "int64").withDBTypeOnly "text").Parse.err ∧
      (specOverride "" "" "text" false true "int64").Parse.o =
        (((specOverride "" "" "text" false true "int64").withDBTypeOnly "text").Parse.o).withPostgresType
          "text" ∧
      (specOverride "" "" "text" false true "int64").Parse.stderr =
        Warning.postgresTypeDeprecated ::
          ((specOverride "" "" "text" false true "int64").withDBTypeOnly "text").Parse.stderr)) :=
  ⟨⟨by decide, rfl⟩,
    C10_postgres_type_is_db_type (specOverride "" "" "text" false true "int64") "text"
      (by decide) rfl⟩

end config

/-! ## Properties of the function-call validator -/

namespace validate

open catalog

theorem Walk_FuncCall {X : Ext} (s : WalkState X) (fn : Option ast.FuncName)
    (args : List ast.Node) (loc : Int) :
    Walk s (.FuncCall fn args loc) =
      if (s.v.Visit (.FuncCall fn args loc)).descend then
        walkList ⟨(s.v.Visit (.FuncCall fn args loc)).v,
          s.resolved ++ (s.v.Visit (.FuncCall fn args loc)).resolved⟩ args
      else ⟨(s.v.Visit (.FuncCall fn args loc)).v,
        s.resolved ++ (s.v.Visit (.FuncCall fn args loc)).resolved⟩ := by
  rw [Walk]

/-- When `Visit` returns no visitor for the root call, `FuncCall` returns the
error `Visit` latched. -/
theorem FuncCall_of_not_descend {X : Ext} (c : Catalog X) (cs : CombinedSettings)
    (fn : Option ast.FuncName) (args : List ast.Node) (loc : Int)
    (h : ((funcCallVisitor.mk c cs none).Visit (.FuncCall fn args loc)).descend = false) :
    FuncCall c cs (.FuncCall fn args loc) =
      ((funcCallVisitor.mk c cs none).Visit (.FuncCall fn args loc)).v.err ∧
    (Walk ⟨⟨c, cs, none⟩, []⟩ (.FuncCall fn args loc)).resolved =
      ((funcCallVisitor.mk c cs none).Visit (.FuncCall fn args loc)).resolved := by
  unfold FuncCall
  rw [Walk_FuncCall]
  simp only [h, Bool.false_eq_true, if_false, List.nil_append, and_self]

theorem Visit_unknown_marker {X : Ext} (v : funcCallVisitor X) (hv : v.err = none)
    (fn : ast.FuncName) (args : List ast.Node) (loc : Int)
    (hs : fn.Schema = "sqlc") (hn : ¬ isMarkerName fn.Name) :
    v.Visit (.FuncCall (some fn) args loc) =
      ⟨{ v with err := some (.FunctionNotFound ("sqlc." ++ fn.Name)) }, false, []⟩ := by
  unfold isMarkerName at hn
  simp only [not_or] at hn
  unfold funcCallVisitor.Visit
  simp [hv, hs, hn.1, hn.2.1, hn.2.2.1, hn.2.2.2]

/-- C4: a call `sqlc.<name>` whose name is not `arg`, `narg`, `slice` or
`embed` makes `validate.FuncCall` return the error
`FunctionNotFound("sqlc.<name>")`, whatever the arguments, the catalog and the
settings are; the visit latches that error, returns no visitor and hands no
call to the catalog. -/
theorem C4_unknown_marker_function_not_found {X : Ext} (c : Catalog X)
    (cs : CombinedSettings) (fn : ast.FuncName) (args : List ast.Node) (loc : Int)
    (hs : fn.Schema = "sqlc") (hn : ¬ isMarkerName fn.Name) :
    FuncCall c cs (.FuncCall (some fn) args loc) =
      some (.FunctionNotFound ("sqlc." ++ fn.Name)) ∧
    (funcCallVisitor.mk c cs none).Visit (.FuncCall (some fn) args loc) =
      ⟨⟨c, cs, some (.FunctionNotFound ("sqlc." ++ fn.Name))⟩, false, []⟩ := by
  have hv := Visit_unknown_marker ⟨c, cs, none⟩ rfl fn args loc hs hn
  rw [(FuncCall_of_not_descend c cs (some fn) args loc (by rw [hv])).1, hv]
  exact ⟨rfl, rfl⟩

/-- C4 at the call `sqlc.bogus(x)`. -/
theorem C4_unknown_marker_function_not_found_witness :
    FuncCall (specCatalog (none, none) []) ⟨⟨false⟩⟩
      (.FuncCall (some ⟨"", "sqlc", "bogus"⟩) [.ColumnRef 11] 0) =
      some (.FunctionNotFound "sqlc.bogus") :=
  (C4_unknown_marker_function_not_found (specCatalog (none, none) []) ⟨⟨false⟩⟩
    ⟨"", "sqlc", "bogus"⟩ [.ColumnRef 11] 0 rfl (by decide)).1

theorem Visit_marker_arity {X : Ext} (v : funcCallVisitor X) (hv : v.err = none)
    (fn : ast.FuncName) (args : List ast.Node) (loc : Int)
    (hs : fn.Schema = "sqlc") (hn : isMarkerName fn.Name) (hlen : args.length ≠ 1) :
    v.Visit (.FuncCall (some fn) args loc) =
      ⟨{ v with err := some (.Positional
        ("expected 1 parameter to sqlc." ++ fn.Name ++ "; got " ++ toString args.length) loc) },
        false, []⟩ := by
  unfold isMarkerName at hn
  unfold funcCallVisitor.Visit
  rcases hn with h | h | h | h <;> simp [hv, hs, h, hlen]

/-- C5: a call `sqlc.<name>` of a marker function with a number of arguments
other than one latches the error with the message
`expected 1 parameter to sqlc.<name>; got <n>` and the position of the call;
the walk stops there, no call is handed to the catalog, and the error is the
result of `validate.FuncCall`. -/
theorem C5_marker_arity_error {X : Ext} (v : funcCallVisitor X) (hv : v.err = none)
    (fn : ast.FuncName) (args : List ast.Node) (loc : Int)
    (hs : fn.Schema = "sqlc") (hn : isMarkerName fn.Name) (hlen : args.length ≠ 1) :
    (v.Visit (.FuncCall (some fn) args loc)).v.err = some (.Positional
      ("expected 1 parameter to sqlc." ++ fn.Name ++ "; got " ++ toString args.length) loc) ∧
    (v.Visit (.FuncCall (some fn) args loc)).descend = false ∧
    (v.Visit (.FuncCall (some fn) args loc)).resolved = [] ∧
    FuncCall v.catalog v.settings (.FuncCall (some fn) args loc) = some (.Positional
      ("expected 1 parameter to sqlc." ++ fn.Name ++ "; got " ++ toString args.length) loc) ∧
    (Walk ⟨⟨v.catalog, v.settings, none⟩, []⟩ (.FuncCall (some fn) args loc)).resolved = [] := by
  have h1 := Visit_marker_arity v hv fn args loc hs hn hlen
  have h2 := Visit_marker_arity ⟨v.catalog, v.settings, none⟩ rfl fn args loc hs hn hlen
  obtain ⟨h3, h4⟩ := FuncCall_of_not_descend v.catalog v.settings (some fn) args loc (by rw [h2])
  rw [h3, h4, h1, h2]
  exact ⟨rfl, rfl, rfl, rfl, rfl⟩

/-- C5 at the call `sqlc.arg(1, 2)` at position 7. -/
theorem C5_marker_arity_error_witness :
    ((funcCallVisitor.mk (specCatalog (none, none) []) ⟨⟨true⟩⟩ none).Visit
      (.FuncCall (some ⟨"", "sqlc", "arg"⟩) [.A_Const 16, .A_Const 19] 7)).v.err =
      some (.Positional "expected 1 parameter to sqlc.arg; got 2" 7) ∧
    ((funcCallVisitor.mk (specCatalog (none, none) []) ⟨⟨true⟩⟩ none).Visit
      (.FuncCall (some ⟨"", "sqlc", "arg"⟩) [.A_Const 16, .A_Const 19] 7)).descend = false ∧
    ((funcCallVisitor.mk (specCatalog (none, none) []) ⟨⟨true⟩⟩ none).Visit
      (.FuncCall (some ⟨"", "sqlc", "arg"⟩) [.A_Const 16, .A_Const 19] 7)).resolved = [] ∧
    FuncCall (specCatalog (none, none) []) ⟨⟨true⟩⟩
      (.FuncCall (some ⟨"", "sqlc", "arg"⟩) [.A_Const 16, .A_Const 19] 7) =
      some (.Positional "expected 1 parameter to sqlc.arg; got 2" 7) ∧
    (Walk ⟨⟨specCatalog (none, none) [], ⟨⟨true⟩⟩, none⟩, []⟩
      (.FuncCall (some ⟨"", "sqlc", "arg"⟩) [.A_Const 16, .A_Const 19] 7)).resolved = [] :=
  C5_marker_arity_error (funcCallVisitor.mk (specCatalog (none, none) []) ⟨⟨true⟩⟩ none) rfl
    ⟨"", "sqlc", "arg"⟩ [.A_Const 16, .A_Const 19] 7 rfl (by decide) (by decide)

theorem Visit_marker_one_arg {X : Ext} (v : funcCallVisitor X) (hv : v.err = none)
    (fn : ast.FuncName) (a : ast.Node) (loc : Int)
    (hs : fn.Schema = "sqlc") (hn : isMarkerName fn.Name) :
    v.Visit (.FuncCall (some fn) [a] loc) =
      if isConstOrColumnRef a then ⟨v, false, []⟩
      else ⟨{ v with err := some (.Positional
        ("expected parameter to sqlc." ++ fn.Name ++ " to be string or reference; got "
          ++ a.goTypeName) loc) }, false, []⟩ := by
  unfold isMarkerName at hn
  unfold funcCallVisitor.Visit
  rcases hn with h | h | h | h <;> cases a <;> simp [hv, hs, h, isConstOrColumnRef]

/-- C6: for a call `sqlc.<name>` of a marker function with one argument, the
visitor latches an error exactly when the argument is neither a constant nor a
column reference.  In every case the visit hands no call to the catalog, does
not descend into the call, and gives the same error, for any catalog and any
settings; when the argument is a constant or a column reference the visitor is
left unchanged and `validate.FuncCall` returns no error. -/
theorem C6_marker_argument_shape {X : Ext} (v : funcCallVisitor X) (hv : v.err = none)
    (fn : ast.FuncName) (a : ast.Node) (loc : Int)
    (hs : fn.Schema = "sqlc") (hn : isMarkerName fn.Name) :
    ((v.Visit (.FuncCall (some fn) [a] loc)).v.err ≠ none ↔ isConstOrColumnRef a = false) ∧
    (v.Visit (.FuncCall (some fn) [a] loc)).resolved = [] ∧
    (v.Visit (.FuncCall (some fn) [a] loc)).descend = false ∧
    (∀ (c : Catalog X) (cs : CombinedSettings),
      ((funcCallVisitor.mk c cs none).Visit (.FuncCall (some fn) [a] loc)).v.err =
        (v.Visit (.FuncCall (some fn) [a] loc)).v.err ∧
      FuncCall c cs (.FuncCall (some fn) [a] loc) =
        (v.Visit (.FuncCall (some fn) [a] loc)).v.err ∧
      (Walk ⟨⟨c, cs, none⟩, []⟩ (.FuncCall (some fn) [a] loc)).resolved = []) ∧
    (isConstOrColumnRef a = true →
      (v.Visit (.FuncCall (some fn) [a] loc)).v = v ∧
      FuncCall v.catalog v.settings (.FuncCall (some fn) [a] loc) = none) := by
  have h1 := Visit_marker_one_arg v hv fn a loc hs hn
  have h2 : ∀ (c : Catalog X) (cs : CombinedSettings),
      ((funcCallVisitor.mk c cs none).Visit (.FuncCall (some fn) [a] loc)).v.err =
        (v.Visit (.FuncCall (some fn) [a] loc)).v.err ∧
      FuncCall c cs (.FuncCall (some fn) [a] loc) =
        (v.Visit (.FuncCall (some fn) [a] loc)).v.err ∧
      (Walk ⟨⟨c, cs, none⟩, []⟩ (.FuncCall (some fn) [a] loc)).resolved = [] := by
    intro c cs
    have h3 := Visit_marker_one_arg ⟨c, cs, none⟩ rfl fn a loc hs hn
    obtain ⟨h4, h5⟩ := FuncCall_of_not_descend c cs (some fn) [a] loc
      (by rw [h3]; split <;> rfl)
    rw [h4, h5, h3, h1]
    cases isConstOrColumnRef a <;> simp [hv]
  refine ⟨?_, ?_, ?_, h2, ?_⟩
  · rw [h1]
    cases isConstOrColumnRef a <;> simp [hv]
  · rw [h1]
    split <;> rfl
  · rw [h1]
    split <;> rfl
  · intro ha
    have h3 := (h2 v.catalog v.settings).2.1
    rw [h3, h1, ha]
    exact ⟨rfl, hv⟩

/-- C6 at the call `sqlc.arg(name)` with a column reference `name`, in strict
mode and with a catalog that resolves no function. -/
theorem C6_marker_argument_shape_witness :
    FuncCall (specCatalog (none, some (.NotFound "arg")) []) ⟨⟨true⟩⟩
      (.FuncCall (some ⟨"", "sqlc", "arg"⟩) [.ColumnRef 9] 0) = none ∧
    (Walk ⟨⟨specCatalog (none, some (.NotFound "arg")) [], ⟨⟨true⟩⟩, none⟩, []⟩
      (.FuncCall (some ⟨"", "sqlc", "arg"⟩) [.ColumnRef 9] 0)).resolved = [] :=
  ⟨((C6_marker_argument_shape
      (funcCallVisitor.mk (specCatalog (none, some (.NotFound "arg")) []) ⟨⟨true⟩⟩ none) rfl
      ⟨"", "sqlc", "arg"⟩ (.ColumnRef 9) 0 rfl (by decide)).2.2.2.2 rfl).2,
    ((C6_marker_argument_shape
      (funcCallVisitor.mk (specCatalog (none, some (.NotFound "arg")) []) ⟨⟨true⟩⟩ none) rfl
      ⟨"", "sqlc", "arg"⟩ (.ColumnRef 9) 0 rfl (by decide)).2.2.2.1
      (specCatalog (none, some (.NotFound "arg")) []) ⟨⟨true⟩⟩).2.2⟩

theorem Visit_ordinary {X : Ext} (v : funcCallVisitor X) (hv : v.err = none)
    (fn : ast.FuncName) (args : List ast.Node) (loc : Int) (hs : fn.Schema ≠ "sqlc") :
    v.Visit (.FuncCall (some fn) args loc) =
      if (v.catalog.ResolveFuncCall (.FuncCall (some fn) args loc)).1.isSome then
        ⟨v, true, [.FuncCall (some fn) args loc]⟩
      else if (match (v.catalog.ResolveFuncCall (.FuncCall (some fn) args loc)).2 with
          | some e => X.IsNotFound e
          | none => false) && !v.settings.Package.StrictFunctionChecks then
        ⟨v, true, [.FuncCall (some fn) args loc]⟩
      else ⟨{ v with err :=
          (v.catalog.ResolveFuncCall (.FuncCall (some fn) args loc)).2.map .Catalog },
        false, [.FuncCall (some fn) args loc]⟩ := by
  unfold funcCallVisitor.Visit
  simp only [hv, Option.isSome_none, Bool.false_eq_true, if_false, hs]

/-- C7: for an ordinary call that the catalog answers with no function and an
error `e`, the visitor latches nothing and goes on exactly when `e` is a
`NotFound` error and strict function checking is off; otherwise `e` is latched,
the walk stops and `e` is the result of `validate.FuncCall`.  When the catalog
answers with a function, nothing is latched and the walk goes on. -/
theorem C7_lenient_mode_only_toggle {X : Ext} (v : funcCallVisitor X) (hv : v.err = none)
    (fn : ast.FuncName) (args : List ast.Node) (loc : Int) (hs : fn.Schema ≠ "sqlc") :
    (∀ e : X.Err, v.catalog.ResolveFuncCall (.FuncCall (some fn) args loc) = (none, some e) →
      (((v.Visit (.FuncCall (some fn) args loc)).v.err = none ∧
          (v.Visit (.FuncCall (some fn) args loc)).descend = true) ↔
        (X.IsNotFound e = true ∧ v.settings.Package.StrictFunctionChecks = false)) ∧
      (¬ (X.IsNotFound e = true ∧ v.settings.Package.StrictFunctionChecks = false) →
        (v.Visit (.FuncCall (some fn) args loc)).v.err = some (.Catalog e) ∧
        (v.Visit (.FuncCall (some fn) args loc)).descend = false ∧
        FuncCall v.catalog v.settings (.FuncCall (some fn) args loc) = some (.Catalog e))) ∧
    (∀ f : Function X,
      (v.catalog.ResolveFuncCall (.FuncCall (some fn) args loc)).1 = some f →
      (v.Visit (.FuncCall (some fn) args loc)).v.err = none ∧
      (v.Visit (.FuncCall (some fn) args loc)).descend = true) := by
  have h1 := Visit_ordinary v hv fn args loc hs
  constructor
  · intro e he
    rw [he] at h1
    simp only [Option.isSome_none, Bool.false_eq_true, if_false, Option.map_some'] at h1
    constructor
    · rw [h1]
      cases hnf : X.IsNotFound e <;> cases hst : v.settings.Package.StrictFunctionChecks <;>
        simp [hv]
    · intro hno
      have h2 := Visit_ordinary ⟨v.catalog, v.settings, none⟩ rfl fn args loc hs
      simp only [he, Option.isSome_none, Bool.false_eq_true, if_false, Option.map_some'] at h2
      have hcond : ((X.IsNotFound e && !v.settings.Package.StrictFunctionChecks) = true) ↔
          (X.IsNotFound e = true ∧ v.settings.Package.StrictFunctionChecks = false) := by
        cases X.IsNotFound e <;> cases v.settings.Package.StrictFunctionChecks <;> simp
      have hc : ¬ ((X.IsNotFound e && !v.settings.Package.StrictFunctionChecks) = true) :=
        fun h => hno (hcond.1 h)
      rw [if_neg hc] at h1 h2
      obtain ⟨h3, -⟩ := FuncCall_of_not_descend v.catalog v.settings (some fn) args loc
        (by rw [h2])
      rw [h3, h1, h2]
      exact ⟨rfl, rfl, rfl⟩
  · intro f hf
    rw [h1, hf]
    exact ⟨hv, rfl⟩

/-- C7 at the call `now()` that the catalog answers with an error that is not
`NotFound`, strict function checking being off. -/
theorem C7_lenient_mode_only_toggle_witness :
    FuncCall (specCatalog (none, some (.Mismatch "now")) []) ⟨⟨false⟩⟩
      (.FuncCall (some ⟨"", "", "now"⟩) [] 3) = some (.Catalog (.Mismatch "now")) :=
  (((C7_lenient_mode_only_toggle
    (funcCallVisitor.mk (specCatalog (none, some (.Mismatch "now")) []) ⟨⟨false⟩⟩ none) rfl
    ⟨"", "", "now"⟩ [] 3 (by decide)).1 (.Mismatch "now") rfl).2 (by decide)).2.2

end validate

/-! ## Properties of the query catalog -/

namespace compiler

open catalog

/-- C8: a relation whose bare name is the name of a registered CTE resolves to
the registered table, without error, for any underlying catalog and any schema
and catalog qualifier of the relation. -/
theorem C8_cte_shadows_catalog {X : Ext} (qc : QueryCatalog X) (name : String)
    (cte : Table X) (hreg : qc.ctes.lookup name = some cte)
    (c : Catalog X) (rel : ast.TableName) (hrel : rel.Name = name) :
    ({ qc with catalog := c }).GetTable rel = (some cte, none) := by
  unfold QueryCatalog.GetTable
  simp only [hrel, hreg]

/-- C8 at the CTE `recent`, with a catalog that has a table `recent` of its
own and with a catalog that has no table at all. -/
theorem C8_cte_shadows_catalog_witness :
    (QueryCatalog.mk (specCatalog (none, none) [("recent", ⟨[⟨"id", "int8", true, false, false, none⟩]⟩)])
        [("recent", (⟨some ⟨"", "", "recent"⟩, []⟩ : Table specExt))] []).GetTable
      ⟨"db", "public", "recent"⟩ = (some ⟨some ⟨"", "", "recent"⟩, []⟩, none) ∧
    (QueryCatalog.mk (specCatalog (none, none) [])
        [("recent", (⟨some ⟨"", "", "recent"⟩, []⟩ : Table specExt))] []).GetTable
      ⟨"db", "public", "recent"⟩ = (some ⟨some ⟨"", "", "recent"⟩, []⟩, none) :=
  ⟨C8_cte_shadows_catalog
      (QueryCatalog.mk (specCatalog (none, none) [])
        [("recent", (⟨some ⟨"", "", "recent"⟩, []⟩ : Table specExt))] [])
      "recent" ⟨some ⟨"", "", "recent"⟩, []⟩ rfl
      (specCatalog (none, none) [("recent", ⟨[⟨"id", "int8", true, false, false, none⟩]⟩)])
      ⟨"db", "public", "recent"⟩ rfl,
    C8_cte_shadows_catalog
      (QueryCatalog.mk (specCatalog (none, none) [])
        [("recent", (⟨some ⟨"", "", "recent"⟩, []⟩ : Table specExt))] [])
      "recent" ⟨some ⟨"", "", "recent"⟩, []⟩ rfl
      (specCatalog (none, none) []) ⟨"db", "public", "recent"⟩ rfl⟩

end compiler

/-! ## Properties of `Override.Parse`: the deprecated `null` flag and the column specifier -/

namespace config

theorem parseColumn_three_parts {D : Deps} (o : Override D) (p0 p1 p2 : String)
    (hsplit : stringsSplit o.Column '.' = [p0, p1, p2]) (hok : o.parseColumn.2 = none) :
    o.parseColumn.1.ColumnName = (D.MatchCompile p2).1 ∧
    o.parseColumn.1.TableRel = (D.MatchCompile p1).1 ∧
    o.parseColumn.1.TableSchema = (D.MatchCompile p0).1 ∧
    o.parseColumn.1.TableCatalog = o.TableCatalog := by
  have hne : o.Column ≠ "" := by
    intro h
    rw [h, stringsSplit_empty] at hsplit
    simp at hsplit
  unfold Override.parseColumn at hok ⊢
  rw [if_neg hne] at hok ⊢
  rw [hsplit] at hok ⊢
  simp only [] at hok ⊢
  cases h1 : (D.MatchCompile p2).2 <;> rw [h1] at hok <;> simp only [] at hok
  · cases h2 : (D.MatchCompile p1).2 <;> rw [h2] at hok <;> simp only [] at hok
    · cases h3 : (D.MatchCompile p0).2 <;> rw [h3] at hok <;> simp only [] at hok
      · simp [h1, h2, h3]
      · simp at hok
    · simp at hok
  · simp at hok

theorem parseColumn_four_parts {D : Deps} (o : Override D) (p0 p1 p2 p3 : String)
    (hsplit : stringsSplit o.Column '.' = [p0, p1, p2, p3]) (hok : o.parseColumn.2 = none) :
    o.parseColumn.1.ColumnName = (D.MatchCompile p3).1 ∧
    o.parseColumn.1.TableRel = (D.MatchCompile p2).1 ∧
    o.parseColumn.1.TableSchema = (D.MatchCompile p1).1 ∧
    o.parseColumn.1.TableCatalog = (D.MatchCompile p0).1 := by
  have hne : o.Column ≠ "" := by
    intro h
    rw [h, stringsSplit_empty] at hsplit
    simp at hsplit
  unfold Override.parseColumn at hok ⊢
  rw [if_neg hne] at hok ⊢
  rw [hsplit] at hok ⊢
  simp only [] at hok ⊢
  cases h1 : (D.MatchCompile p3).2 <;> rw [h1] at hok <;> simp only [] at hok
  · cases h2 : (D.MatchCompile p2).2 <;> rw [h2] at hok <;> simp only [] at hok
    · cases h3 : (D.MatchCompile p1).2 <;> rw [h3] at hok <;> simp only [] at hok
      · cases h4 : (D.MatchCompile p0).2 <;> rw [h4] at hok <;> simp only [] at hok
        · simp [h1, h2, h3, h4]
        · simp at hok
      · simp at hok
    · simp at hok
  · simp at hok

/-- The matchers after a successful `Override.Parse` are those after its
section "validate Column". -/
theorem Parse_ok_patterns {D : Deps} (o : Override D) (hok : o.Parse.err = none) :
    o.mapDeprecated.parseColumn.2 = none ∧
    o.Parse.o.ColumnName = o.mapDeprecated.parseColumn.1.ColumnName ∧
    o.Parse.o.TableRel = o.mapDeprecated.parseColumn.1.TableRel ∧
    o.Parse.o.TableSchema = o.mapDeprecated.parseColumn.1.TableSchema ∧
    o.Parse.o.TableCatalog = o.mapDeprecated.parseColumn.1.TableCatalog := by
  obtain ⟨hc, ho⟩ := Parse_ok o hok
  obtain ⟨g1, g2, g3, g4⟩ := parseGo_patterns o.mapDeprecated.parseColumn.1
  rw [ho]
  exact ⟨hc, g1, g2, g3, g4⟩

/-- C12: in an override from the configuration (no catalog matcher before
`Parse`) that `Override.Parse` accepts, a `column` specifier of two, three or
four parts is read from the right: the column pattern is compiled from the
last part, the table pattern from the part before it, the schema pattern from
the part before that or from `public` when there are two parts, and the
catalog pattern from the first of four parts and left nil otherwise. -/
theorem C12_column_specifier_right_aligned {D : Deps} (o : Override D)
    (hcat : o.TableCatalog = none) (hok : o.Parse.err = none) :
    (∀ p1 p2 : String, stringsSplit o.Column '.' = [p1, p2] →
      o.Parse.o.ColumnName = (D.MatchCompile p2).1 ∧
      o.Parse.o.TableRel = (D.MatchCompile p1).1 ∧
      o.Parse.o.TableSchema = (D.MatchCompile "public").1 ∧
      o.Parse.o.TableCatalog = none) ∧
    (∀ p1 p2 p3 : String, stringsSplit o.Column '.' = [p1, p2, p3] →
      o.Parse.o.ColumnName = (D.MatchCompile p3).1 ∧
      o.Parse.o.TableRel = (D.MatchCompile p2).1 ∧
      o.Parse.o.TableSchema = (D.MatchCompile p1).1 ∧
      o.Parse.o.TableCatalog = none) ∧
    (∀ p1 p2 p3 p4 : String, stringsSplit o.Column '.' = [p1, p2, p3, p4] →
      o.Parse.o.ColumnName = (D.MatchCompile p4).1 ∧
      o.Parse.o.TableRel = (D.MatchCompile p3).1 ∧
      o.Parse.o.TableSchema = (D.MatchCompile p2).1 ∧
      o.Parse.o.TableCatalog = (D.MatchCompile p1).1) := by
  obtain ⟨hc, e1, e2, e3, e4⟩ := Parse_ok_patterns o hok
  obtain ⟨f0, -, -, -, f4⟩ := mapDeprecated_fields o
  rw [e1, e2, e3, e4]
  refine ⟨?_, ?_, ?_⟩
  · intro p1 p2 hs
    obtain ⟨c1, c2, c3, c4⟩ :=
      parseColumn_two_parts o.mapDeprecated p1 p2 (by rw [f0]; exact hs) hc
    exact ⟨c1, c2, c3, by rw [c4, f4, hcat]⟩
  · intro p1 p2 p3 hs
    obtain ⟨c1, c2, c3, c4⟩ :=
      parseColumn_three_parts o.mapDeprecated p1 p2 p3 (by rw [f0]; exact hs) hc
    exact ⟨c1, c2, c3, by rw [c4, f4, hcat]⟩
  · intro p1 p2 p3 p4 hs
    exact parseColumn_four_parts o.mapDeprecated p1 p2 p3 p4 (by rw [f0]; exact hs) hc

/-- C12 at the specifiers `db.app.users.id` and `app.users.id`. -/
theorem C12_column_specifier_right_aligned_witness :
    ((specOverride "db.app.users.id" "" "" false false "int64").Parse.o.ColumnName =
        (specDeps.MatchCompile "id").1 ∧
      (specOverride "db.app.users.id" "" "" false false "int64").Parse.o.TableRel =
        (specDeps.MatchCompile "users").1 ∧
      (specOverride "db.app.users.id" "" "" false false "int64").Parse.o.TableSchema =
        (specDeps.MatchCompile "app").1 ∧
      (specOverride "db.app.users.id" "" "" false false "int64").Parse.o.TableCatalog =
        (specDeps.MatchCompile "db").1) ∧
    ((specOverride "app.users.id" "" "" false false "int64").Parse.o.ColumnName =
        (specDeps.MatchCompile "id").1 ∧
      (specOverride "app.users.id" "" "" false false "int64").Parse.o.TableRel =
        (specDeps.MatchCompile "users").1 ∧
      (specOverride "app.users.id" "" "" false false "int64").Parse.o.TableSchema =
        (specDeps.MatchCompile "app").1 ∧
      (specOverride "app.users.id" "" "" false false "int64").Parse.o.TableCatalog = none) :=
  ⟨(C12_column_specifier_right_aligned
      (specOverride "db.app.users.id" "" "" false false "int64") rfl (by decide)).2.2
      "db" "app" "users" "id" (by decide),
    (C12_column_specifier_right_aligned
      (specOverride "app.users.id" "" "" false false "int64") rfl (by decide)).2.1
      "app" "users" "id" (by decide)⟩

end config

/-! ## Properties of `buildEnums` -/

namespace golang

theorem enumConstants_cons (G : Deps) (req : plugin.CodeGenRequest) (enumName eName : String)
    (constants : List Constant) (seen earlier : List String) (i : Nat) (v : String)
    (vs : List String) (hse : ∀ x, x ∈ seen ↔ x ∈ earlier) :
    enumConstants G req enumName eName constants seen i (v :: vs) =
      enumConstants G req enumName eName
        (constants ++ [{ Name := G.StructName (enumName ++ "_" ++
            (if G.EnumReplace v = "" ∨ G.EnumReplace v ∈ earlier then "value_" ++ toString i
             else G.EnumReplace v)) req.Settings, Value := v, Type_ := eName }])
        ((if G.EnumReplace v = "" ∨ G.EnumReplace v ∈ earlier then "value_" ++ toString i
          else G.EnumReplace v) :: seen) (i + 1) vs := by
  have hcond : (seen.contains (G.EnumReplace v) || G.EnumReplace v == "") = true ↔
      (G.EnumReplace v = "" ∨ G.EnumReplace v ∈ earlier) := by
    simp [hse]
    exact Or.comm
  by_cases hc : G.EnumReplace v = "" ∨ G.EnumReplace v ∈ earlier
  · rw [enumConstants]
    simp only [hcond.2 hc, if_pos hc, if_true]
  · have hb : (seen.contains (G.EnumReplace v) || G.EnumReplace v == "") = false := by
      cases h : (seen.contains (G.EnumReplace v) || G.EnumReplace v == "")
      · rfl
      · exact absurd (hcond.1 h) hc
    rw [enumConstants]
    simp only [hb, if_neg hc, Bool.false_eq_true, if_false]

theorem enumConstants_eq (G : Deps) (req : plugin.CodeGenRequest) (enumName eName : String)
    (vs : List String) :
    ∀ (constants : List Constant) (seen earlier : List String) (i : Nat),
      (∀ x, x ∈ seen ↔ x ∈ earlier) →
      enumConstants G req enumName eName constants seen i vs =
        constants ++ List.zipWith
          (fun v label => ({ Name := G.StructName (enumName ++ "_" ++ label) req.Settings,
                             Type_ := eName, Value := v } : Constant))
          vs (enumLabelsFrom G.EnumReplace earlier i vs) := by
  induction vs with
  | nil =>
    intro constants seen earlier i _
    simp [enumConstants, enumLabelsFrom]
  | cons v vs ih =>
    intro constants seen earlier i hse
    rw [enumConstants_cons G req enumName eName constants seen earlier i v vs hse]
    rw [ih _ _ (earlier ++ [if G.EnumReplace v = "" ∨ G.EnumReplace v ∈ earlier
        then "value_" ++ toString i else G.EnumReplace v]) (i + 1)
      (by intro x; simp [hse]; exact Or.comm)]
    simp [enumLabelsFrom]

theorem enumLabelsFrom_length (R : String → String) (vs : List String) :
    ∀ (earlier : List String) (i : Nat), (enumLabelsFrom R earlier i vs).length = vs.length := by
  induction vs with
  | nil => intro earlier i; rfl
  | cons v vs ih =>
    intro earlier i
    simp only [enumLabelsFrom, List.length_cons, ih]

theorem enumLabelsFrom_get (R : String → String) (vs : List String) :
    ∀ (earlier : List String) (i k : Nat) (v : String), vs[k]? = some v →
      (enumLabelsFrom R earlier i vs)[k]? = some
        (if R v = "" ∨ R v ∈ earlier ++ (enumLabelsFrom R earlier i vs).take k
         then "value_" ++ toString (i + k) else R v) := by
  induction vs with
  | nil => intro earlier i k v h; simp at h
  | cons w vs ih =>
    intro earlier i k v h
    cases k with
    | zero =>
      simp only [List.getElem?_cons_zero, Option.some.injEq] at h
      subst h
      simp [enumLabelsFrom]
    | succ k =>
      simp only [List.getElem?_cons_succ] at h
      have := ih (earlier ++ [if R w = "" ∨ R w ∈ earlier then "value_" ++ toString i else R w])
        (i + 1) k v h
      simp only [enumLabelsFrom, List.getElem?_cons_succ, List.take_succ_cons]
      rw [this]
      simp only [List.append_assoc, List.singleton_append, Nat.add_assoc, Nat.add_comm 1 k]

theorem mem_buildEnums (G : Deps) (req : plugin.CodeGenRequest) (e : Enum) :
    e ∈ buildEnums G req ↔
      ∃ schema ∈ req.Catalog.Schemas,
        (schema.Name ≠ "pg_catalog" ∧ schema.Name ≠ "information_schema") ∧
        ∃ enum ∈ schema.Enums, e = buildEnum G req schema enum := by
  unfold buildEnums
  rw [(List.perm_insertionSort _ _).mem_iff]
  simp only [List.mem_flatten, List.mem_map, List.mem_filter]
  constructor
  · rintro ⟨l, ⟨schema, ⟨hs, hf⟩, rfl⟩, he⟩
    obtain ⟨enum, hen, rfl⟩ := List.mem_map.1 he
    refine ⟨schema, hs, ?_, enum, hen, rfl⟩
    simpa using hf
  · rintro ⟨schema, hs, hf, enum, hen, rfl⟩
    refine ⟨_, ⟨schema, ⟨hs, ?_⟩, rfl⟩, List.mem_map.2 ⟨enum, hen, rfl⟩⟩
    simpa using hf

/-- C14: for every catalog enum, the enum `buildEnums` builds has one constant
per value, in order, with the value unchanged, the enum's name as type, and a
name made from the label of the value; the label at position `k` is
`value_<k>` when `EnumReplace` of the value is empty or is the label of an
earlier constant, and `EnumReplace` of the value otherwise.  The enums
`buildEnums` returns are the enums so built from the schemas it does not skip.
For the values `""`, `a`, `""` the labels are `value_0`, `a`, `value_2`. -/
theorem C14_enum_label_deduplication (G : Deps) (req : plugin.CodeGenRequest)
    (schema : plugin.Schema) (enum : plugin.Enum) :
    (buildEnum G req schema enum).Constants =
      List.zipWith
        (fun v label =>
          ({ Name := G.StructName (enumQualifiedName req schema enum ++ "_" ++ label) req.Settings,
             Type_ := (buildEnum G req schema enum).Name, Value := v } : Constant))
        enum.Vals (enumLabels G.EnumReplace enum.Vals) ∧
    (buildEnum G req schema enum).Constants.length = enum.Vals.length ∧
    (enumLabels G.EnumReplace enum.Vals).length = enum.Vals.length ∧
    (∀ (k : Nat) (v : String), enum.Vals[k]? = some v →
      (enumLabels G.EnumReplace enum.Vals)[k]? = some
        (if G.EnumReplace v = "" ∨
            G.EnumReplace v ∈ (enumLabels G.EnumReplace enum.Vals).take k
         then "value_" ++ toString k else G.EnumReplace v)) ∧
    (∀ e, e ∈ buildEnums G req ↔
      ∃ schema ∈ req.Catalog.Schemas,
        (schema.Name ≠ "pg_catalog" ∧ schema.Name ≠ "information_schema") ∧
        ∃ enum ∈ schema.Enums, e = buildEnum G req schema enum) ∧
    (G.EnumReplace "" = "" → G.EnumReplace "a" = "a" →
      enumLabels G.EnumReplace ["", "a", ""] = ["value_0", "a", "value_2"]) := by
  have h1 : (buildEnum G req schema enum).Constants =
      List.zipWith
        (fun v label =>
          ({ Name := G.StructName (enumQualifiedName req schema enum ++ "_" ++ label) req.Settings,
             Type_ := (buildEnum G req schema enum).Name, Value := v } : Constant))
        enum.Vals (enumLabels G.EnumReplace enum.Vals) := by
    have := enumConstants_eq G req (enumQualifiedName req schema enum)
      (buildEnum G req schema enum).Name enum.Vals [] [] [] 0 (fun x => Iff.rfl)
    simpa [buildEnum, enumQualifiedName, enumLabels] using this
  have h2 := enumLabelsFrom_length G.EnumReplace enum.Vals [] 0
  refine ⟨h1, ?_, h2, ?_, mem_buildEnums G req, ?_⟩
  · rw [h1, List.length_zipWith]
    unfold enumLabels
    rw [h2, Nat.min_self]
  · intro k v hk
    have := enumLabelsFrom_get G.EnumReplace enum.Vals [] 0 k v hk
    simpa [enumLabels] using this
  · intro he ha
    have hne : ¬ ("a" = "" ∨ "a" ∈ ["value_" ++ toString 0]) := by decide
    simp only [enumLabels, enumLabelsFrom, he, ha, true_or, if_true, List.nil_append, hne,
      if_false]
    decide

end golang

namespace golang

/-- C13 fails on the code: for the values `value_1`, `""` (and an
`EnumReplace` that keeps both) the second label, replaced by `value_1`
because it is empty, is the first label again, and the two constants get the
same name. -/
theorem C13_enum_labels_collide (G : Deps) (req : plugin.CodeGenRequest)
    (schema : plugin.Schema) (enum : plugin.Enum) (hv : enum.Vals = ["value_1", ""])
    (h1 : G.EnumReplace "value_1" = "value_1") (h2 : G.EnumReplace "" = "") :
    enumLabels G.EnumReplace enum.Vals = ["value_1", "value_1"] ∧
    (buildEnum G req schema enum).Constants.map (fun c => c.Name) =
      [G.StructName (enumQualifiedName req schema enum ++ "_" ++ "value_1") req.Settings,
       G.StructName (enumQualifiedName req schema enum ++ "_" ++ "value_1") req.Settings] := by
  have hl : enumLabels G.EnumReplace enum.Vals = ["value_1", "value_1"] := by
    have hne : ¬ ("value_1" = "" ∨ "value_1" ∈ ([] : List String)) := by decide
    rw [hv]
    simp only [enumLabels, enumLabelsFrom, h1, h2, hne, if_false, true_or, if_true]
    decide
  refine ⟨hl, ?_⟩
  have := enumConstants_eq G req (enumQualifiedName req schema enum)
    (buildEnum G req schema enum).Name enum.Vals [] [] [] 0 (fun x => Iff.rfl)
  have hc : (buildEnum G req schema enum).Constants =
      enumConstants G req (enumQualifiedName req schema enum)
        (buildEnum G req schema enum).Name [] [] 0 enum.Vals := rfl
  rw [hc, this]
  have hl' : enumLabelsFrom G.EnumReplace [] 0 enum.Vals = ["value_1", "value_1"] := hl
  rw [hl', hv]
  rfl

/-- C13 on the code at the enum `mood` with the values `value_1`, `""`: both
constants are named `MoodValue1`. -/
theorem C13_enum_labels_collide_witness :
    enumLabels specGo.EnumReplace ["value_1", ""] = ["value_1", "value_1"] ∧
    (buildEnums specGo (specRequest 1 [⟨"mood", ["value_1", ""], ""⟩] [])).map
      (fun e => e.Constants.map fun c => c.Name) = [["MoodValue1", "MoodValue1"]] :=
  ⟨(C13_enum_labels_collide specGo (specRequest 1 [⟨"mood", ["value_1", ""], ""⟩] [])
      ⟨"public", [⟨"mood", ["value_1", ""], ""⟩], []⟩ ⟨"mood", ["value_1", ""], ""⟩ rfl
      (by decide) (by decide)).1,
    by decide⟩

end golang

/-! ## Properties of `columnsToStruct` -/

namespace golang

theorem columnsLoop_columns (G : Deps) (req : plugin.CodeGenRequest) (useID : Bool)
    (cols : List goColumn) :
    ∀ (st : StructState) (i : Nat),
      (columnsLoop G req useID st i cols).fields.map (fun f => f.Column) =
        st.fields.map (fun f => f.Column) ++ cols.map (fun c => some c.Column) := by
  induction cols with
  | nil => intro st i; simp [columnsLoop]
  | cons c cs ih =>
    intro st i
    rw [columnsLoop, ih]
    simp [columnStep]

theorem set_of_get? {α : Type} (l : List α) (i : Nat) (a : α) (h : l.get? i = some a) :
    l.set i a = l := by
  induction l generalizing i with
  | nil => rfl
  | cons b l ih =>
    cases i with
    | zero =>
      simp only [List.get?_cons_zero, Option.some.injEq] at h
      rw [h]
      rfl
    | succ i =>
      simp only [List.get?_cons_succ] at h
      simp only [List.set_cons_succ, ih i h]

theorem eraseType_set_type (f : Field) (t : String) :
    ({ f with Type_ := t } : Field).eraseType = f.eraseType := rfl

theorem backfillInner_eraseType (i : Nat) (js : List Nat) :
    ∀ (fields : List Field) (field : Field),
      (∀ f0, fields.get? i = some f0 → f0.eraseType = field.eraseType) →
      (backfillInner i fields field js).1.map Field.eraseType = fields.map Field.eraseType := by
  induction js with
  | nil => intro fields field _; rfl
  | cons j js ih =>
    intro fields field h
    rw [backfillInner]
    by_cases hij : i = j
    · rw [if_pos hij]
      exact ih fields field h
    · rw [if_neg hij]
      cases hj : fields.get? j with
      | none => exact ih fields field h
      | some otherField =>
        simp only []
        have he : (if otherField.Type_ ≠ field.Type_ then
            ({ field with Type_ := otherField.Type_ } : Field) else field).eraseType =
            field.eraseType := by
          split <;> rfl
        rw [ih]
        · rw [List.map_set, he]
          cases hi : fields.get? i with
          | none =>
            have hlen : fields.length ≤ i := by
              rw [List.get?_eq_none] at hi
              exact hi
            rw [List.set_eq_of_length_le (by simpa using hlen)]
          | some f0 =>
            apply set_of_get?
            rw [List.get?_eq_getElem?, List.getElem?_map, ← List.get?_eq_getElem?, hi,
              Option.map_some', h f0 hi]
        · intro f0 hf0
          by_cases hlt : i < fields.length
          · rw [List.get?_eq_getElem?, List.getElem?_set_self (by simpa using hlt)] at hf0
            simp only [Option.some.injEq] at hf0
            rw [← hf0]
          · rw [List.set_eq_of_length_le (by omega)] at hf0
            rw [h f0 hf0, he]

theorem backfillLoop_eraseType (seen : List (String × List Nat)) (n : Nat) :
    ∀ (fields : List Field) (i : Nat),
      (backfillLoop seen fields i n).map Field.eraseType = fields.map Field.eraseType := by
  induction n with
  | zero => intro fields i; rfl
  | succ n ih =>
    intro fields i
    rw [backfillLoop]
    cases hi : fields.get? i with
    | none => rfl
    | some field =>
      simp only []
      split
      · rw [ih, backfillInner_eraseType]
        intro f0 hf0
        rw [hi] at hf0
        simp only [Option.some.injEq] at hf0
        rw [hf0]
      · exact ih fields (i + 1)

theorem map_Column_eraseType (l : List Field) :
    (l.map Field.eraseType).map (fun f => f.Column) = l.map (fun f => f.Column) := by
  rw [List.map_map]
  rfl

theorem checkLoop_error_form (fields : List Field) :
    ∀ (fieldTypes : List (String × String)) (e : BuildError),
      checkIncompatibleFieldTypesLoop fieldTypes fields = some e →
      ∃ msg, e = .incompatibleTypes msg := by
  induction fields with
  | nil => intro ft e h; simp [checkIncompatibleFieldTypesLoop] at h
  | cons f fs ih =>
    intro ft e h
    rw [checkIncompatibleFieldTypesLoop] at h
    cases hl : ft.lookup f.Name with
    | none =>
      rw [hl] at h
      exact ih _ e h
    | some t =>
      rw [hl] at h
      simp only [] at h
      split at h
      · simp only [Option.some.injEq] at h
        exact ⟨_, h.symm⟩
      · exact ih _ e h

/-- What `columnsToStruct` returns: a struct of the given name with one field
per column, in order, or the error of `checkIncompatibleFieldTypes`. -/
theorem columnsToStruct_spec (G : Deps) (req : plugin.CodeGenRequest) (name : String)
    (cols : List goColumn) (useID : Bool) :
    (∃ msg, columnsToStruct G req name cols useID = .error (.incompatibleTypes msg)) ∨
    (∃ s, columnsToStruct G req name cols useID = .ok s ∧ s.Name = name ∧ s.Table = none ∧
      s.Fields.map (fun f => f.Column) = cols.map (fun c => some c.Column)) := by
  unfold columnsToStruct
  simp only []
  cases hc : checkIncompatibleFieldTypes _ with
  | some e =>
    obtain ⟨msg, rfl⟩ := checkLoop_error_form _ _ _ hc
    exact Or.inl ⟨msg, rfl⟩
  | none =>
    refine Or.inr ⟨_, rfl, rfl, rfl, ?_⟩
    simp only []
    rw [← map_Column_eraseType, backfillLoop_eraseType, map_Column_eraseType,
      columnsLoop_columns]
    rfl

theorem columnsToStruct_single (G : Deps) (req : plugin.CodeGenRequest) (name : String)
    (c : goColumn) (useID : Bool) :
    ∃ s, columnsToStruct G req name [c] useID = .ok s ∧ s.Name = name ∧
      s.Fields.map (fun f => f.Column) = [some c.Column] := by
  rcases columnsToStruct_spec G req name [c] useID with ⟨msg, h⟩ | ⟨s, h1, h2, -, h3⟩
  · exfalso
    unfold columnsToStruct at h
    simp only [] at h
    have hlen : (backfillLoop
        (columnsLoop G req useID { fields := [], seen := [], suffixes := [] } 0 [c]).seen
        (columnsLoop G req useID { fields := [], seen := [], suffixes := [] } 0 [c]).fields 0
        (columnsLoop G req useID { fields := [], seen := [], suffixes := [] } 0
          [c]).fields.length).length = 1 := by
      have := congrArg List.length (backfillLoop_eraseType
        (columnsLoop G req useID { fields := [], seen := [], suffixes := [] } 0 [c]).seen
        (columnsLoop G req useID { fields := [], seen := [], suffixes := [] } 0
          [c]).fields.length
        (columnsLoop G req useID { fields := [], seen := [], suffixes := [] } 0 [c]).fields 0)
      have h2 := congrArg List.length (columnsLoop_columns G req useID [c]
        { fields := [], seen := [], suffixes := [] } 0)
      simp only [List.length_map] at this h2
      rw [this, h2]
      rfl
    match hb : backfillLoop _ _ 0 _, hlen with
    | [f], _ =>
      rw [hb] at h
      simp [checkIncompatibleFieldTypes, checkIncompatibleFieldTypesLoop] at h
  · exact ⟨s, h1, h2, h3⟩

end golang

/-! ## Properties of `buildQueries`: parameters -/

namespace golang

theorem buildQuery_ok (G : Deps) (req : plugin.CodeGenRequest) (structs : List Struct)
    (query : plugin.Query) (gq : Query) (h : buildQuery G req structs query = .ok gq) :
    gq.MethodName = query.Name ∧ gq.Cmd = query.Cmd ∧
    buildArg G req query = .ok gq.Arg ∧ buildRet G req structs query = .ok gq.Ret := by
  unfold buildQuery at h
  simp only [] at h
  cases ha : buildArg G req query with
  | error e => rw [ha] at h; simp at h
  | ok arg =>
    cases hr : buildRet G req structs query with
    | error e => rw [ha, hr] at h; simp at h
    | ok ret =>
      rw [ha, hr] at h
      simp only [Except.ok.injEq] at h
      subst h
      exact ⟨rfl, rfl, rfl, rfl⟩

theorem buildQueriesLoop_mem (G : Deps) (req : plugin.CodeGenRequest) (structs : List Struct)
    (query : plugin.Query) (hname : query.Name ≠ "") (hcmd : query.Cmd ≠ "")
    (queries : List plugin.Query) :
    ∀ qs, buildQueriesLoop G req structs queries = .ok qs → query ∈ queries →
      ∃ gq ∈ qs, buildQuery G req structs query = .ok gq := by
  induction queries with
  | nil => intro qs _ hm; simp at hm
  | cons q queries ih =>
    intro qs h hm
    rw [buildQueriesLoop] at h
    by_cases h1 : q.Name = ""
    · rw [if_pos h1] at h
      rcases List.mem_cons.1 hm with rfl | hm
      · exact absurd h1 hname
      · exact ih qs h hm
    · rw [if_neg h1] at h
      by_cases h2 : q.Cmd = ""
      · rw [if_pos h2] at h
        rcases List.mem_cons.1 hm with rfl | hm
        · exact absurd h2 hcmd
        · exact ih qs h hm
      · rw [if_neg h2] at h
        cases hq : buildQuery G req structs q with
        | error e => rw [hq] at h; simp at h
        | ok gq =>
          cases hl : buildQueriesLoop G req structs queries with
          | error e => rw [hq, hl] at h; simp at h
          | ok qs' =>
            rw [hq, hl] at h
            simp only [Except.ok.injEq] at h
            subst h
            rcases List.mem_cons.1 hm with rfl | hm
            · exact ⟨gq, List.mem_cons_self _ _, hq⟩
            · obtain ⟨gq', hg, hb⟩ := ih qs' hl hm
              exact ⟨gq', List.mem_cons_of_mem _ hg, hb⟩

/-- Every query of the request with a name and a command has its built query
in the result of `buildQueries`. -/
theorem buildQueries_mem (G : Deps) (req : plugin.CodeGenRequest) (structs : List Struct)
    (query : plugin.Query) (hname : query.Name ≠ "") (hcmd : query.Cmd ≠ "")
    (hmem : query ∈ req.Queries) (qs : List Query)
    (h : buildQueries G req structs = .ok qs) :
    ∃ gq ∈ qs, gq.MethodName = query.Name ∧ gq.Cmd = query.Cmd ∧
      buildArg G req query = .ok gq.Arg ∧ buildRet G req structs query = .ok gq.Ret := by
  unfold buildQueries at h
  cases hl : buildQueriesLoop G req structs req.Queries with
  | error e => rw [hl] at h; simp at h
  | ok qs' =>
    rw [hl] at h
    simp only [Except.ok.injEq] at h
    subst h
    obtain ⟨gq, hg, hb⟩ := buildQueriesLoop_mem G req structs query hname hcmd _ qs' hl hmem
    exact ⟨gq, (List.perm_insertionSort _ _).mem_iff.2 hg, buildQuery_ok G req structs query gq hb⟩

/-- What the struct branch of `gq.Arg` returns. -/
theorem argStruct_spec (G : Deps) (req : plugin.CodeGenRequest) (query : plugin.Query) :
    (∃ msg, argStruct G req query = .error (.incompatibleTypes msg)) ∨
    (∃ a s, argStruct G req query = .ok a ∧ a.Struct = some s ∧
      s.Name = query.Name ++ "Params" ∧
      s.Fields.map (fun f => f.Column) = query.Params.map (fun p => some p.Column) ∧
      a.Name = "arg" ∧
      a.Emit = !decide ((query.Params.length : Int) ≤ req.Settings.Go.QueryParameterLimit)) := by
  unfold argStruct
  simp only []
  rcases columnsToStruct_spec G req (query.Name ++ "Params")
    (query.Params.map fun p => ({ id := p.Number, Column := p.Column, embed := none } : goColumn))
    false with ⟨msg, h⟩ | ⟨s, h1, h2, -, h3⟩
  · rw [h]
    exact Or.inl ⟨msg, rfl⟩
  · rw [h1]
    refine Or.inr ⟨_, s, rfl, rfl, h2, ?_, rfl, rfl⟩
    rw [h3, List.map_map]
    rfl

theorem buildArg_two_or_more (G : Deps) (req : plugin.CodeGenRequest) (query : plugin.Query)
    (hlen : 2 ≤ query.Params.length) : buildArg G req query = argStruct G req query := by
  unfold buildArg
  match hp : query.Params with
  | [] => rw [hp] at hlen; simp at hlen
  | [p] => rw [hp] at hlen; simp at hlen
  | _ :: _ :: _ => rfl

/-- C15: for a query with a name, a command and two or more parameters, under
a query-parameter limit of 0, the argument is built as the struct
`<QueryName>Params` with one field per parameter in parameter order and
`Emit` true, unless `checkIncompatibleFieldTypes` fails; whenever
`buildQueries` succeeds, the built query has this argument. -/
theorem C15_params_struct_at_limit_zero (G : Deps) (req : plugin.CodeGenRequest)
    (structs : List Struct) (query : plugin.Query)
    (hname : query.Name ≠ "") (hcmd : query.Cmd ≠ "") (hmem : query ∈ req.Queries)
    (hlen : 2 ≤ query.Params.length) (hqpl : req.Settings.Go.QueryParameterLimit = 0) :
    ((∃ msg, buildArg G req query = .error (.incompatibleTypes msg)) ∨
      (∃ a s, buildArg G req query = .ok a ∧ a.Struct = some s ∧
        s.Name = query.Name ++ "Params" ∧
        s.Fields.map (fun f => f.Column) = query.Params.map (fun p => some p.Column) ∧
        a.Emit = true)) ∧
    (∀ qs, buildQueries G req structs = .ok qs →
      ∃ gq ∈ qs, gq.MethodName = query.Name ∧
        ∃ s, gq.Arg.Struct = some s ∧ s.Name = query.Name ++ "Params" ∧
          s.Fields.map (fun f => f.Column) = query.Params.map (fun p => some p.Column) ∧
          gq.Arg.Emit = true) := by
  have hemit : (!decide ((query.Params.length : Int) ≤ req.Settings.Go.QueryParameterLimit))
      = true := by
    rw [hqpl]
    simp only [Bool.not_eq_true', decide_eq_false_iff_not]
    omega
  have hspec : (∃ msg, buildArg G req query = .error (.incompatibleTypes msg)) ∨
      (∃ a s, buildArg G req query = .ok a ∧ a.Struct = some s ∧
        s.Name = query.Name ++ "Params" ∧
        s.Fields.map (fun f => f.Column) = query.Params.map (fun p => some p.Column) ∧
        a.Emit = true) := by
    rw [buildArg_two_or_more G req query hlen]
    rcases argStruct_spec G req query with h | ⟨a, s, h1, h2, h3, h4, -, h6⟩
    · exact Or.inl h
    · exact Or.inr ⟨a, s, h1, h2, h3, h4, by rw [h6, hemit]⟩
  refine ⟨hspec, ?_⟩
  intro qs hqs
  obtain ⟨gq, hg, hn, -, ha, -⟩ := buildQueries_mem G req structs query hname hcmd hmem qs hqs
  refine ⟨gq, hg, hn, ?_⟩
  rcases hspec with ⟨msg, he⟩ | ⟨a, s, h1, h2, h3, h4, h5⟩
  · rw [he] at ha
    simp at ha
  · rw [h1] at ha
    simp only [Except.ok.injEq] at ha
    subst ha
    exact ⟨s, h2, h3, h4, h5⟩

/-- C15 at the query `Find` with the parameters `id` and `name` under the
limit 0: the built query has the argument struct `FindParams`. -/
theorem C15_params_struct_at_limit_zero_witness :
    ∃ gq ∈ ((buildQueries specGo (specRequest 0 []
        [specQuery "Find" ":one" [⟨1, specColumn "id" "bigint"⟩, ⟨2, specColumn "name" "text"⟩]
          [specColumn "id" "bigint"]]) []).toOption.getD []),
      gq.MethodName = "Find" ∧
        ∃ s, gq.Arg.Struct = some s ∧ s.Name = "Find" ++ "Params" ∧
          s.Fields.map (fun f => f.Column) =
            [some (specColumn "id" "bigint"), some (specColumn "name" "text")] ∧
          gq.Arg.Emit = true :=
  (C15_params_struct_at_limit_zero specGo (specRequest 0 []
      [specQuery "Find" ":one" [⟨1, specColumn "id" "bigint"⟩, ⟨2, specColumn "name" "text"⟩]
        [specColumn "id" "bigint"]]) []
    (specQuery "Find" ":one" [⟨1, specColumn "id" "bigint"⟩, ⟨2, specColumn "name" "text"⟩]
      [specColumn "id" "bigint"])
    (by decide) (by decide) (by decide) (by decide) rfl).2 _ rfl

/-- C16, as stated, fails: with two parameters and a limit of 2 the number of
parameters is not less than the limit, and `Arg.Emit` is false. -/
theorem C16_emit_at_limit_counterexample :
    ((buildQueries specGo (specRequest 2 []
        [specQuery "Find" ":one" [⟨1, specColumn "id" "bigint"⟩, ⟨2, specColumn "name" "text"⟩]
          []]) []).toOption.getD []).map (fun gq => (gq.MethodName, gq.Arg.Emit)) =
      [("Find", false)] ∧
    ¬ (((specQuery "Find" ":one"
        [⟨1, specColumn "id" "bigint"⟩, ⟨2, specColumn "name" "text"⟩] []).Params.length : Int) <
      (specRequest 2 [] []).Settings.Go.QueryParameterLimit) := by
  decide

/-- C16, amended: for a query with two or more parameters the argument is the
struct `<QueryName>Params`, and `Arg.Emit` is false exactly when the number of
parameters is less than or equal to the query-parameter limit. -/
theorem C16_emit_unless_within_limit (G : Deps) (req : plugin.CodeGenRequest)
    (structs : List Struct) (query : plugin.Query)
    (hname : query.Name ≠ "") (hcmd : query.Cmd ≠ "") (hmem : query ∈ req.Queries)
    (hlen : 2 ≤ query.Params.length) :
    ((∃ msg, buildArg G req query = .error (.incompatibleTypes msg)) ∨
      (∃ a s, buildArg G req query = .ok a ∧ a.Struct = some s ∧
        s.Name = query.Name ++ "Params" ∧
        (a.Emit = false ↔
          (query.Params.length : Int) ≤ req.Settings.Go.QueryParameterLimit))) ∧
    (∀ qs, buildQueries G req structs = .ok qs →
      ∃ gq ∈ qs, gq.MethodName = query.Name ∧
        (∃ s, gq.Arg.Struct = some s ∧ s.Name = query.Name ++ "Params") ∧
        (gq.Arg.Emit = false ↔
          (query.Params.length : Int) ≤ req.Settings.Go.QueryParameterLimit)) := by
  have hspec : (∃ msg, buildArg G req query = .error (.incompatibleTypes msg)) ∨
      (∃ a s, buildArg G req query = .ok a ∧ a.Struct = some s ∧
        s.Name = query.Name ++ "Params" ∧
        (a.Emit = false ↔
          (query.Params.length : Int) ≤ req.Settings.Go.QueryParameterLimit)) := by
    rw [buildArg_two_or_more G req query hlen]
    rcases argStruct_spec G req query with h | ⟨a, s, h1, h2, h3, -, -, h6⟩
    · exact Or.inl h
    · refine Or.inr ⟨a, s, h1, h2, h3, ?_⟩
      rw [h6]
      simp
  refine ⟨hspec, ?_⟩
  intro qs hqs
  obtain ⟨gq, hg, hn, -, ha, -⟩ := buildQueries_mem G req structs query hname hcmd hmem qs hqs
  refine ⟨gq, hg, hn, ?_⟩
  rcases hspec with ⟨msg, he⟩ | ⟨a, s, h1, h2, h3, h4⟩
  · rw [he] at ha
    simp at ha
  · rw [h1] at ha
    simp only [Except.ok.injEq] at ha
    subst ha
    exact ⟨⟨s, h2, h3⟩, h4⟩

/-- C16, amended, at the query `Find` with two parameters under the limit 2. -/
theorem C16_emit_unless_within_limit_witness :
    ∃ gq ∈ ((buildQueries specGo (specRequest 2 []
        [specQuery "Find" ":one" [⟨1, specColumn "id" "bigint"⟩, ⟨2, specColumn "name" "text"⟩]
          []]) []).toOption.getD []),
      gq.MethodName = "Find" ∧
        (∃ s, gq.Arg.Struct = some s ∧ s.Name = "Find" ++ "Params") ∧
        (gq.Arg.Emit = false ↔ ((2 : Nat) : Int) ≤ 2) :=
  (C16_emit_unless_within_limit specGo (specRequest 2 []
      [specQuery "Find" ":one" [⟨1, specColumn "id" "bigint"⟩, ⟨2, specColumn "name" "text"⟩]
        []]) []
    (specQuery "Find" ":one" [⟨1, specColumn "id" "bigint"⟩, ⟨2, specColumn "name" "text"⟩] [])
    (by decide) (by decide) (by decide) (by decide)).2 _ rfl

/-- C17: for a query with exactly one parameter, under a limit other than 0
the argument is a scalar value (no struct, `Emit` false) named by `argName`
from the bound column's name, or `dollar_<n>` when the column has no name;
under the limit 0 the argument is the struct `<QueryName>Params`, emitted,
with the parameter as its one field.  Whenever `buildQueries` succeeds, the
built query has this argument. -/
theorem C17_single_parameter (G : Deps) (req : plugin.CodeGenRequest)
    (structs : List Struct) (query : plugin.Query) (p : plugin.Parameter)
    (hname : query.Name ≠ "") (hcmd : query.Cmd ≠ "") (hmem : query ∈ req.Queries)
    (hp : query.Params = [p]) :
    (req.Settings.Go.QueryParameterLimit ≠ 0 →
      ∃ a, buildArg G req query = .ok a ∧ a.Struct = none ∧ a.Emit = false ∧
        a.Name = (if p.Column.Name ≠ "" then argName G p.Column.Name
          else "dollar_" ++ toString p.Number) ∧
        a.DBName = p.Column.Name ∧ a.Typ = G.goType req p.Column ∧
        a.Column = some p.Column) ∧
    (req.Settings.Go.QueryParameterLimit = 0 →
      ∃ a s, buildArg G req query = .ok a ∧ a.Struct = some s ∧
        s.Name = query.Name ++ "Params" ∧
        s.Fields.map (fun f => f.Column) = [some p.Column] ∧ a.Emit = true) ∧
    (∀ qs, buildQueries G req structs = .ok qs →
      ∃ gq ∈ qs, gq.MethodName = query.Name ∧ buildArg G req query = .ok gq.Arg) := by
  refine ⟨?_, ?_, ?_⟩
  · intro hq
    unfold buildArg
    rw [hp]
    simp only [hq, ne_eq, not_false_eq_true, if_true]
    exact ⟨_, rfl, rfl, rfl, rfl, rfl, rfl, rfl⟩
  · intro hq
    unfold buildArg
    rw [hp]
    simp only [hq, ne_eq, not_true_eq_false, if_false]
    unfold argStruct
    simp only [hp, List.map_cons, List.map_nil]
    obtain ⟨s, h1, h2, h3⟩ := columnsToStruct_single G req (query.Name ++ "Params")
      ({ id := p.Number, Column := p.Column, embed := none } : goColumn) false
    rw [h1]
    refine ⟨_, s, rfl, rfl, h2, h3, ?_⟩
    simp [hq]
  · intro qs hqs
    obtain ⟨gq, hg, hn, -, ha, -⟩ := buildQueries_mem G req structs query hname hcmd hmem qs hqs
    exact ⟨gq, hg, hn, ha⟩

/-- C17 at the query `Get` with the one parameter `user_id`, under the limit 1. -/
theorem C17_single_parameter_witness :
    ∃ a, buildArg specGo (specRequest 1 []
        [specQuery "Get" ":one" [⟨1, specColumn "user_id" "bigint"⟩] []])
        (specQuery "Get" ":one" [⟨1, specColumn "user_id" "bigint"⟩] []) = .ok a ∧
      a.Struct = none ∧ a.Emit = false ∧
      a.Name = (if (specColumn "user_id" "bigint").Name ≠ "" then
          argName specGo (specColumn "user_id" "bigint").Name
        else "dollar_" ++ toString (1 : Int)) ∧
      a.DBName = "user_id" ∧
      a.Typ = specGo.goType (specRequest 1 []
        [specQuery "Get" ":one" [⟨1, specColumn "user_id" "bigint"⟩] []])
        (specColumn "user_id" "bigint") ∧
      a.Column = some (specColumn "user_id" "bigint") :=
  (C17_single_parameter specGo (specRequest 1 []
      [specQuery "Get" ":one" [⟨1, specColumn "user_id" "bigint"⟩] []]) []
    (specQuery "Get" ":one" [⟨1, specColumn "user_id" "bigint"⟩] [])
    ⟨1, specColumn "user_id" "bigint"⟩
    (by decide) (by decide) (by decide) rfl).1 (by decide)

end golang

/-! ## Properties of `buildQueries`: output columns -/

namespace golang

theorem stringsReplaceChar_data (s : String) (old new : Char) :
    (stringsReplaceChar s old new).data = s.data.map fun ch => if ch = old then new else ch :=
  rfl

theorem stringsReplaceChar_not_mem (s : String) (old new : Char) (h : old ≠ new) :
    old ∉ (stringsReplaceChar s old new).data := by
  rw [stringsReplaceChar_data]
  intro hm
  obtain ⟨ch, -, hch⟩ := List.mem_map.1 hm
  by_cases hc : ch = old
  · rw [if_pos hc] at hch
    exact h hch.symm
  · rw [if_neg hc] at hch
    exact hc hch

/-- C18: for a query with exactly one output column that is not an embed
target, the output value is a scalar: no struct, `Emit` false, and `Name` and
`DBName` both the column's name, or `column_1` when the column has no name,
with every `$` turned into `_` when the column comes from a function call:
the name then has the characters of the column's name in order, each `$`
replaced by `_` and every other character kept, and holds no `$`.  Whenever
`buildQueries` succeeds, the built query has this output value. -/
theorem C18_single_output_column (G : Deps) (req : plugin.CodeGenRequest)
    (structs : List Struct) (query : plugin.Query) (c : plugin.Column)
    (hname : query.Name ≠ "") (hcmd : query.Cmd ≠ "") (hmem : query ∈ req.Queries)
    (hc : query.Columns = [c]) (he : c.EmbedTable = none) :
    (∃ r, buildRet G req structs query = .ok r ∧ r.Struct = none ∧ r.Emit = false ∧
      r.Name = (if c.IsFuncCall then
          stringsReplaceChar (if c.Name ≠ "" then c.Name else "column_1") '$' '_'
        else (if c.Name ≠ "" then c.Name else "column_1")) ∧
      r.DBName = r.Name ∧ r.Typ = G.goType req c ∧
      (c.IsFuncCall = true →
        r.Name.data = (if c.Name ≠ "" then c.Name else "column_1").data.map
          (fun ch => if ch = '$' then '_' else ch) ∧
        '$' ∉ r.Name.data) ∧
      (c.IsFuncCall = false → r.Name = (if c.Name ≠ "" then c.Name else "column_1"))) ∧
    (∀ qs, buildQueries G req structs = .ok qs →
      ∃ gq ∈ qs, gq.MethodName = query.Name ∧ gq.Ret.Struct = none ∧ gq.Ret.Emit = false ∧
        gq.Ret.Name = (if c.IsFuncCall then
            stringsReplaceChar (if c.Name ≠ "" then c.Name else "column_1") '$' '_'
          else (if c.Name ≠ "" then c.Name else "column_1")) ∧
        gq.Ret.DBName = gq.Ret.Name ∧ gq.Ret.Typ = G.goType req c ∧
        (c.IsFuncCall = true →
          gq.Ret.Name.data = (if c.Name ≠ "" then c.Name else "column_1").data.map
            (fun ch => if ch = '$' then '_' else ch) ∧
          '$' ∉ gq.Ret.Name.data) ∧
        (c.IsFuncCall = false →
          gq.Ret.Name = (if c.Name ≠ "" then c.Name else "column_1"))) := by
  have hcol : columnName c 0 = (if c.Name ≠ "" then c.Name else "column_1") := by
    unfold columnName
    split
    · rfl
    · decide
  have hrepl : ∀ name : String,
      name = (if c.IsFuncCall then
          stringsReplaceChar (if c.Name ≠ "" then c.Name else "column_1") '$' '_'
        else (if c.Name ≠ "" then c.Name else "column_1")) →
      (c.IsFuncCall = true →
        name.data = (if c.Name ≠ "" then c.Name else "column_1").data.map
          (fun ch => if ch = '$' then '_' else ch) ∧
        '$' ∉ name.data) ∧
      (c.IsFuncCall = false → name = (if c.Name ≠ "" then c.Name else "column_1")) := by
    intro name hn
    constructor
    · intro hf
      rw [hf, if_pos rfl] at hn
      rw [hn]
      exact ⟨stringsReplaceChar_data _ _ _, stringsReplaceChar_not_mem _ _ _ (by decide)⟩
    · intro hf
      rw [hf] at hn
      exact hn
  have hspec : ∃ r, buildRet G req structs query = .ok r ∧ r.Struct = none ∧ r.Emit = false ∧
      r.Name = (if c.IsFuncCall then
          stringsReplaceChar (if c.Name ≠ "" then c.Name else "column_1") '$' '_'
        else (if c.Name ≠ "" then c.Name else "column_1")) ∧
      r.DBName = r.Name ∧ r.Typ = G.goType req c := by
    unfold buildRet
    rw [hc]
    simp only [he, Option.isNone_none, if_true, hcol]
    exact ⟨_, rfl, rfl, rfl, rfl, rfl, rfl⟩
  obtain ⟨r, h1, h2, h3, h4, h5, h6⟩ := hspec
  refine ⟨⟨r, h1, h2, h3, h4, h5, h6, hrepl _ h4⟩, ?_⟩
  intro qs hqs
  obtain ⟨gq, hg, hn, -, -, hr⟩ := buildQueries_mem G req structs query hname hcmd hmem qs hqs
  rw [h1] at hr
  simp only [Except.ok.injEq] at hr
  rw [hr] at h2 h3 h4 h5 h6
  exact ⟨gq, hg, hn, h2, h3, h4, h5, h6, hrepl _ h4⟩

/-- C18 at the query `Total` with the one column `a$b$` of a function call:
the output value is named `a_b_`. -/
theorem C18_single_output_column_witness :
    (((buildQueries specGo (specRequest 1 []
        [specQuery "Total" ":one" []
          [{ specColumn "a$b$" "bigint" with IsFuncCall := true }]]) []).toOption.getD []).map
      fun gq => (gq.MethodName, gq.Ret.Name, gq.Ret.DBName, gq.Ret.Typ, gq.Ret.Struct.isNone,
        gq.Ret.Emit)) = [("Total", "a_b_", "a_b_", "int64", true, false)] ∧
    ∃ gq ∈ ((buildQueries specGo (specRequest 1 []
        [specQuery "Total" ":one" []
          [{ specColumn "a$b$" "bigint" with IsFuncCall := true }]]) []).toOption.getD []),
      gq.MethodName = "Total" ∧ gq.Ret.Struct = none ∧ gq.Ret.Emit = false ∧
        gq.Ret.Name = (if ({ specColumn "a$b$" "bigint" with IsFuncCall := true }).IsFuncCall then
            stringsReplaceChar
              (if ({ specColumn "a$b$" "bigint" with IsFuncCall := true }).Name ≠ "" then
                ({ specColumn "a$b$" "bigint" with IsFuncCall := true }).Name
                else "column_1") '$' '_'
          else (if ({ specColumn "a$b$" "bigint" with IsFuncCall := true }).Name ≠ "" then
            ({ specColumn "a$b$" "bigint" with IsFuncCall := true }).Name else "column_1")) ∧
        gq.Ret.DBName = gq.Ret.Name ∧
        gq.Ret.Typ = specGo.goType (specRequest 1 []
          [specQuery "Total" ":one" []
            [{ specColumn "a$b$" "bigint" with IsFuncCall := true }]])
          { specColumn "a$b$" "bigint" with IsFuncCall := true } ∧
        (({ specColumn "a$b$" "bigint" with IsFuncCall := true }).IsFuncCall = true →
          gq.Ret.Name.data =
            (if ({ specColumn "a$b$" "bigint" with IsFuncCall := true }).Name ≠ "" then
              ({ specColumn "a$b$" "bigint" with IsFuncCall := true }).Name
              else "column_1").data.map (fun ch => if ch = '$' then '_' else ch) ∧
          '$' ∉ gq.Ret.Name.data) ∧
        (({ specColumn "a$b$" "bigint" with IsFuncCall := true }).IsFuncCall = false →
          gq.Ret.Name =
            (if ({ specColumn "a$b$" "bigint" with IsFuncCall := true }).Name ≠ "" then
              ({ specColumn "a$b$" "bigint" with IsFuncCall := true }).Name
              else "column_1")) :=
  ⟨by decide,
    (C18_single_output_column specGo (specRequest 1 []
        [specQuery "Total" ":one" [] [{ specColumn "a$b$" "bigint" with IsFuncCall := true }]])
      []
      (specQuery "Total" ":one" [] [{ specColumn "a$b$" "bigint" with IsFuncCall := true }])
      { specColumn "a$b$" "bigint" with IsFuncCall := true }
      (by decide) (by decide) (by decide) rfl rfl).2 _ rfl⟩

/-- C19 fails on the code: for the command kind `:batchone` and no projected
column `putOutColumns` returns false, although `hasRetType` counts the kind
among the scanned ones; for `:one`, `:many` and `:batchmany`, and for every
query with a projected column, it returns true. -/
theorem C19_batchone_not_allowed :
    putOutColumns (specQuery "Next" metadata.CmdBatchOne [] []) = false ∧
    (∀ gq : Query, gq.Cmd = metadata.CmdBatchOne → gq.hasRetType = !gq.Ret.isEmpty) ∧
    (∀ query : plugin.Query,
      query.Cmd = metadata.CmdOne ∨ query.Cmd = metadata.CmdMany ∨
        query.Cmd = metadata.CmdBatchMany → putOutColumns query = true) ∧
    (∀ query : plugin.Query, query.Columns ≠ [] → putOutColumns query = true) := by
  refine ⟨by decide, ?_, ?_, ?_⟩
  · intro gq h
    unfold Query.hasRetType
    simp [h]
  · intro query h
    unfold putOutColumns
    rcases h with h | h | h <;> simp [h]
  · intro query h
    unfold putOutColumns
    have : query.Columns.length > 0 := List.length_pos.2 h
    simp [this]

theorem putOutColumns_exec_no_columns (query : plugin.Query) (hcmd : query.Cmd = metadata.CmdExec)
    (hcols : query.Columns = []) : putOutColumns query = false := by
  unfold putOutColumns
  rw [hcols, hcmd]
  decide

/-- C20, as stated, fails: the `:exec` query `Touch` with the projected column
`id` is built with the output value named `id`, which is not empty. -/
theorem C20_exec_with_column_counterexample :
    ((buildQueries specGo (specRequest 1 []
        [specQuery "Touch" metadata.CmdExec [] [specColumn "id" "bigint"]]) []).toOption.getD
      []).map (fun gq => (gq.Cmd, gq.Ret.Name, gq.Ret.Typ, gq.Ret.isEmpty)) =
      [(":exec", "id", "int64", false)] := by
  decide

theorem putOutColumns_of_columns (query : plugin.Query) (h : query.Columns ≠ []) :
    putOutColumns query = true := by
  unfold putOutColumns
  have : query.Columns.length > 0 := List.length_pos.2 h
  simp [this]

/-- With a projected column, the output value is built from the name and the
columns of the query alone: the command kind plays no part. -/
theorem buildRet_of_columns (G : Deps) (req : plugin.CodeGenRequest) (structs : List Struct)
    (query other : plugin.Query) (hn : other.Name = query.Name)
    (hc : other.Columns = query.Columns) (hne : query.Columns ≠ []) :
    buildRet G req structs other = buildRet G req structs query := by
  have hret : retStruct G req structs other = retStruct G req structs query := by
    unfold retStruct findStruct
    rw [putOutColumns_of_columns query hne, putOutColumns_of_columns other (by rw [hc]; exact hne),
      hc, hn]
  unfold buildRet
  rw [hc, hret]

/-- C20, amended: for a query whose command kind is `:exec` and whose
projected column list is empty, the output value is the empty value (no name,
no type, no struct); with projected columns the output value is the one built
for any query of the same name and columns, whatever its command kind.
Whenever `buildQueries` succeeds, the built query has this output value, and
for every `:exec` query, whatever its columns, the built query has no return
type (`hasRetType` is false). -/
theorem C20_exec_without_columns_empty (G : Deps) (req : plugin.CodeGenRequest)
    (structs : List Struct) (query : plugin.Query)
    (hname : query.Name ≠ "") (hmem : query ∈ req.Queries)
    (hcmd : query.Cmd = metadata.CmdExec) :
    (query.Columns = [] → buildRet G req structs query = .ok QueryValue.zero) ∧
    (query.Columns ≠ [] → ∀ other : plugin.Query, other.Name = query.Name →
      other.Columns = query.Columns →
      buildRet G req structs query = buildRet G req structs other) ∧
    (∀ qs, buildQueries G req structs = .ok qs →
      ∃ gq ∈ qs, gq.MethodName = query.Name ∧ gq.Cmd = metadata.CmdExec ∧
        gq.hasRetType = false ∧
        (query.Columns = [] →
          gq.Ret = QueryValue.zero ∧ gq.Ret.Name = "" ∧ gq.Ret.Typ = "" ∧
            gq.Ret.Struct = none) ∧
        (query.Columns ≠ [] → ∀ other : plugin.Query, other.Name = query.Name →
          other.Columns = query.Columns →
          buildRet G req structs other = .ok gq.Ret)) := by
  have hzero : query.Columns = [] → buildRet G req structs query = .ok QueryValue.zero := by
    intro hcols
    unfold buildRet
    rw [hcols]
    simp only []
    unfold retStruct
    rw [putOutColumns_exec_no_columns query hcmd hcols]
    rfl
  refine ⟨hzero, ?_, ?_⟩
  · intro hne other hn hc
    exact (buildRet_of_columns G req structs query other hn hc hne).symm
  intro qs hqs
  have hcmd' : query.Cmd ≠ "" := by
    rw [hcmd]
    decide
  obtain ⟨gq, hg, hn, hc, -, hr⟩ := buildQueries_mem G req structs query hname hcmd' hmem qs hqs
  refine ⟨gq, hg, hn, by rw [hc, hcmd], ?_, ?_, ?_⟩
  · unfold Query.hasRetType
    rw [hc, hcmd]
    have h1 : (metadata.CmdExec == metadata.CmdOne) = false := by decide
    have h2 : (metadata.CmdExec == metadata.CmdMany) = false := by decide
    have h3 : (metadata.CmdExec == metadata.CmdBatchMany) = false := by decide
    have h4 : (metadata.CmdExec == metadata.CmdBatchOne) = false := by decide
    simp only [h1, h2, h3, h4, Bool.or_self, Bool.false_and]
  · intro hcols
    rw [hzero hcols] at hr
    simp only [Except.ok.injEq] at hr
    rw [← hr]
    exact ⟨rfl, rfl, rfl, rfl⟩
  · intro hne other hn2 hc2
    rw [buildRet_of_columns G req structs query other hn2 hc2 hne]
    exact hr

/-- C20, amended, at the `:exec` query `Touch` without projected column; with
the projected column `id` the `:exec` query `Touch` has the output value of
the `:one` query `Touch`. -/
theorem C20_exec_without_columns_empty_witness :
    buildRet specGo (specRequest 1 []
        [specQuery "Touch" metadata.CmdExec [] [specColumn "id" "bigint"]]) []
        (specQuery "Touch" metadata.CmdExec [] [specColumn "id" "bigint"]) =
      buildRet specGo (specRequest 1 []
        [specQuery "Touch" metadata.CmdExec [] [specColumn "id" "bigint"]]) []
        (specQuery "Touch" metadata.CmdOne [] [specColumn "id" "bigint"]) ∧
    (((buildQueries specGo (specRequest 1 []
        [specQuery "Touch" metadata.CmdExec [] [specColumn "id" "bigint"]]) []).toOption.getD
      []).map fun gq => gq.Ret) =
      (((buildQueries specGo (specRequest 1 []
        [specQuery "Touch" metadata.CmdOne [] [specColumn "id" "bigint"]]) []).toOption.getD
      []).map fun gq => gq.Ret) ∧
    ∃ gq ∈ ((buildQueries specGo (specRequest 1 []
        [specQuery "Touch" metadata.CmdExec [⟨1, specColumn "id" "bigint"⟩] []])
        []).toOption.getD []),
      gq.MethodName = "Touch" ∧ gq.Cmd = metadata.CmdExec ∧ gq.hasRetType = false ∧
        ((specQuery "Touch" metadata.CmdExec [⟨1, specColumn "id" "bigint"⟩] []).Columns = [] →
          gq.Ret = QueryValue.zero ∧ gq.Ret.Name = "" ∧ gq.Ret.Typ = "" ∧
            gq.Ret.Struct = none) ∧
        ((specQuery "Touch" metadata.CmdExec [⟨1, specColumn "id" "bigint"⟩] []).Columns ≠ [] →
          ∀ other : plugin.Query,
            other.Name = (specQuery "Touch" metadata.CmdExec
              [⟨1, specColumn "id" "bigint"⟩] []).Name →
            other.Columns = (specQuery "Touch" metadata.CmdExec
              [⟨1, specColumn "id" "bigint"⟩] []).Columns →
            buildRet specGo (specRequest 1 []
              [specQuery "Touch" metadata.CmdExec [⟨1, specColumn "id" "bigint"⟩] []]) []
              other = .ok gq.Ret) :=
  ⟨(C20_exec_without_columns_empty specGo (specRequest 1 []
        [specQuery "Touch" metadata.CmdExec [] [specColumn "id" "bigint"]]) []
      (specQuery "Touch" metadata.CmdExec [] [specColumn "id" "bigint"])
      (by decide) (by decide) rfl).2.1 (by decide)
      (specQuery "Touch" metadata.CmdOne [] [specColumn "id" "bigint"]) rfl rfl,
    by decide,
    (C20_exec_without_columns_empty specGo (specRequest 1 []
        [specQuery "Touch" metadata.CmdExec [⟨1, specColumn "id" "bigint"⟩] []]) []
      (specQuery "Touch" metadata.CmdExec [⟨1, specColumn "id" "bigint"⟩] [])
      (by decide) (by decide) rfl).2.2 _ rfl⟩

end golang

/-! ## Properties of the query catalog: functions and tables of the catalog -/

namespace compiler

open catalog

/-- C28: `QueryCatalog.GetFunc` returns the error of the catalog's lookup by
name when there is one; on an empty list it fails with the message
`function not found: <name>`; otherwise it succeeds with the return type of
the first function of the list, whatever follows it. -/
theorem C28_get_func_first_declared {X : Ext} (qc : QueryCatalog X) (rel : ast.FuncName) :
    (∀ err, (qc.catalog.ListFuncsByName rel).2 = some err →
      qc.GetFunc rel = (none, some (.Catalog err))) ∧
    ((qc.catalog.ListFuncsByName rel).2 = none → (qc.catalog.ListFuncsByName rel).1 = [] →
      qc.GetFunc rel = (none, some (.NotFound ("function not found: " ++ rel.Name)))) ∧
    (∀ f fs, (qc.catalog.ListFuncsByName rel).2 = none →
      (qc.catalog.ListFuncsByName rel).1 = f :: fs →
      qc.GetFunc rel = (some { Rel := some rel, ReturnType := f.ReturnType }, none)) := by
  refine ⟨?_, ?_, ?_⟩
  · intro err h
    unfold QueryCatalog.GetFunc
    simp only [h]
  · intro h1 h2
    unfold QueryCatalog.GetFunc
    simp only [h1, h2]
  · intro f fs h1 h2
    unfold QueryCatalog.GetFunc
    simp only [h1, h2]

/-- C29: for a relation whose name is not a registered CTE,
`QueryCatalog.GetTable` returns the error of the catalog and no table when the
catalog lookup fails; otherwise it returns a table for the queried relation
with one column per catalog column, in order, each with the queried relation
as its table and the name, not-null, unsigned, array, length and type of the
catalog column. -/
theorem C29_get_table_delegates {X : Ext} (qc : QueryCatalog X) (rel : ast.TableName)
    (hmiss : qc.ctes.lookup rel.Name = none) :
    (∀ err, (qc.catalog.GetTable rel).2 = some err → qc.GetTable rel = (none, some err)) ∧
    ((qc.catalog.GetTable rel).2 = none →
      ∃ t, qc.GetTable rel = (some t, none) ∧ t.Rel = some rel ∧
        t.Columns.length = (qc.catalog.GetTable rel).1.Columns.length ∧
        ∀ (i : Nat) (c : catalog.Column X), (qc.catalog.GetTable rel).1.Columns[i]? = some c →
          ∃ col, t.Columns[i]? = some col ∧ col.Table = some rel ∧ col.Name = c.Name ∧
            col.NotNull = c.IsNotNull ∧ col.Unsigned = c.IsUnsigned ∧
            col.IsArray = c.IsArray ∧ col.Length = c.Length ∧ col.Type_ = some c.Type_ ∧
            col.DataType = X.dataType c.Type_) := by
  refine ⟨?_, ?_⟩
  · intro err h
    unfold QueryCatalog.GetTable
    simp only [hmiss, h]
  · intro h
    unfold QueryCatalog.GetTable
    simp only [hmiss, h]
    refine ⟨_, rfl, rfl, by simp, ?_⟩
    intro i c hc
    refine ⟨ConvertColumn rel c, ?_, rfl, rfl, rfl, rfl, rfl, rfl, rfl, rfl⟩
    simp [hc]

/-- C29 at the relation `users`, with the CTE `recent` registered and the
table `users` in the catalog. -/
theorem C29_get_table_delegates_witness :
    ∃ t, (QueryCatalog.mk
        (specCatalog (none, none) [("users", ⟨[⟨"id", "int8", true, false, false, none⟩]⟩)])
        [("recent", (⟨some ⟨"", "", "recent"⟩, []⟩ : Table specExt))] []).GetTable
        ⟨"", "", "users"⟩ = (some t, none) ∧ t.Rel = some ⟨"", "", "users"⟩ ∧
      t.Columns.length = ((specCatalog (none, none)
        [("users", ⟨[⟨"id", "int8", true, false, false, none⟩]⟩)]).GetTable
          ⟨"", "", "users"⟩).1.Columns.length ∧
      ∀ (i : Nat) (c : catalog.Column specExt),
        ((specCatalog (none, none)
          [("users", ⟨[⟨"id", "int8", true, false, false, none⟩]⟩)]).GetTable
            ⟨"", "", "users"⟩).1.Columns[i]? = some c →
          ∃ col, t.Columns[i]? = some col ∧ col.Table = some ⟨"", "", "users"⟩ ∧
            col.Name = c.Name ∧ col.NotNull = c.IsNotNull ∧ col.Unsigned = c.IsUnsigned ∧
            col.IsArray = c.IsArray ∧ col.Length = c.Length ∧ col.Type_ = some c.Type_ ∧
            col.DataType = specExt.dataType c.Type_ :=
  (C29_get_table_delegates
    (QueryCatalog.mk
      (specCatalog (none, none) [("users", ⟨[⟨"id", "int8", true, false, false, none⟩]⟩)])
      [("recent", (⟨some ⟨"", "", "recent"⟩, []⟩ : Table specExt))] [])
    ⟨"", "", "users"⟩ rfl).2 rfl

end compiler

/-! ## The latched error of the function-call validator -/

namespace validate

open catalog

theorem Visit_latched {X : Ext} (v : funcCallVisitor X) (node : ast.Node)
    (h : v.err ≠ none) : v.Visit node = ⟨v, false, []⟩ := by
  unfold funcCallVisitor.Visit
  have : v.err.isSome = true := Option.isSome_iff_ne_none.2 h
  simp only [this, if_true]

theorem Visit_clean {X : Ext} (c : Catalog X) (cs : CombinedSettings) (node : ast.Node) :
    ((funcCallVisitor.mk c cs none).Visit node).v = ⟨c, cs, rejection c cs node⟩ ∧
    (((funcCallVisitor.mk c cs none).Visit node).descend = true → rejection c cs node = none) := by
  unfold rejection funcCallVisitor.Visit
  simp only [Option.isSome_none, Bool.false_eq_true, if_false]
  repeat' split
  all_goals simp

theorem findSome?_decompose {α β : Type} (f : α → Option β) (l : List α) (b : β)
    (h : l.findSome? f = some b) :
    ∃ pre a post, l = pre ++ a :: post ∧ f a = some b ∧ ∀ x ∈ pre, f x = none := by
  induction l with
  | nil => simp at h
  | cons a l ih =>
    rw [List.findSome?_cons] at h
    cases ha : f a with
    | some b' =>
      rw [ha] at h
      simp only [Option.some.injEq] at h
      subst h
      exact ⟨[], a, l, rfl, ha, by simp⟩
    | none =>
      rw [ha] at h
      obtain ⟨pre, a', post, h1, h2, h3⟩ := ih h
      refine ⟨a :: pre, a', post, by rw [h1]; rfl, h2, ?_⟩
      intro x hx
      rcases List.mem_cons.1 hx with rfl | hx
      · exact ha
      · exact h3 x hx

theorem Walk_latched {X : Ext} (s : WalkState X) (h : s.v.err ≠ none) (node : ast.Node) :
    Walk s node = s := by
  cases node <;> rw [Walk, Visit_latched s.v _ h] <;> simp

theorem walkList_latched {X : Ext} (s : WalkState X) (h : s.v.err ≠ none)
    (nodes : List ast.Node) : walkList s nodes = s := by
  induction nodes with
  | nil => rw [walkList]
  | cons n ns ih => rw [walkList, Walk_latched s h n, ih]

mutual
theorem Walk_first_rejection {X : Ext} (c : Catalog X) (cs : CombinedSettings)
    (res : List ast.Node) :
    ∀ node : ast.Node, (Walk ⟨⟨c, cs, none⟩, res⟩ node).v =
      ⟨c, cs, (traversal c cs node).findSome? (rejection c cs)⟩
  | .A_Const loc => by
    rw [Walk, traversal]
    simp only [(Visit_clean c cs (.A_Const loc)).1, List.findSome?_cons, List.findSome?_nil]
    cases rejection c cs (.A_Const loc) <;> rfl
  | .ColumnRef loc => by
    rw [Walk, traversal]
    simp only [(Visit_clean c cs (.ColumnRef loc)).1, List.findSome?_cons, List.findSome?_nil]
    cases rejection c cs (.ColumnRef loc) <;> rfl
  | .FuncCall fn args loc => by
    rw [Walk, traversal]
    obtain ⟨h1, h2⟩ := Visit_clean c cs (.FuncCall fn args loc)
    cases hd : ((funcCallVisitor.mk c cs none).Visit (.FuncCall fn args loc)).descend with
    | false =>
      simp only [Bool.false_eq_true, if_false, h1, List.findSome?_cons, List.findSome?_nil]
      cases rejection c cs (.FuncCall fn args loc) <;> rfl
    | true =>
      have h3 := h2 hd
      simp only [if_true, List.findSome?_cons, h3]
      have : ((funcCallVisitor.mk c cs none).Visit (.FuncCall fn args loc)).v = ⟨c, cs, none⟩ := by
        rw [h1, h3]
      rw [this]
      exact walkList_first_rejection c cs _ args
  | .Other t children => by
    rw [Walk, traversal]
    obtain ⟨h1, h2⟩ := Visit_clean c cs (.Other t children)
    cases hd : ((funcCallVisitor.mk c cs none).Visit (.Other t children)).descend with
    | false =>
      simp only [Bool.false_eq_true, if_false, h1, List.findSome?_cons, List.findSome?_nil]
      cases rejection c cs (.Other t children) <;> rfl
    | true =>
      have h3 := h2 hd
      simp only [if_true, List.findSome?_cons, h3]
      have : ((funcCallVisitor.mk c cs none).Visit (.Other t children)).v = ⟨c, cs, none⟩ := by
        rw [h1, h3]
      rw [this]
      exact walkList_first_rejection c cs _ children
theorem walkList_first_rejection {X : Ext} (c : Catalog X) (cs : CombinedSettings)
    (res : List ast.Node) :
    ∀ nodes : List ast.Node, (walkList ⟨⟨c, cs, none⟩, res⟩ nodes).v =
      ⟨c, cs, (traversalList c cs nodes).findSome? (rejection c cs)⟩
  | [] => by
    rw [walkList, traversalList]
    rfl
  | n :: ns => by
    rw [walkList, traversalList, List.findSome?_append]
    have h1 := Walk_first_rejection c cs res n
    cases hr : (traversal c cs n).findSome? (rejection c cs) with
    | none =>
      rw [hr] at h1
      rcases hw : Walk ⟨⟨c, cs, none⟩, res⟩ n with ⟨v, r⟩
      rw [hw] at h1
      simp only at h1
      subst h1
      simp only [Option.none_or]
      exact walkList_first_rejection c cs r ns
    | some e =>
      rw [hr] at h1
      rw [walkList_latched _ (by rw [h1]; simp) ns, h1]
      simp
end

/-- C30: a visitor that holds an error is left unchanged by every later
`Visit`, which returns no visitor, and so by the rest of the walk;
`validate.FuncCall` returns the error of the first node, in traversal order,
whose call is rejected: nil when no visited call is rejected, and otherwise
the error of a node before which no visited node is rejected. -/
theorem C30_first_error_wins {X : Ext} (c : Catalog X) (cs : CombinedSettings) :
    (∀ (v : funcCallVisitor X) (node : ast.Node), v.err ≠ none →
      (v.Visit node).v = v ∧ (v.Visit node).descend = false) ∧
    (∀ (s : WalkState X) (node : ast.Node), s.v.err ≠ none → Walk s node = s) ∧
    (∀ n : ast.Node, FuncCall c cs n = (traversal c cs n).findSome? (rejection c cs)) ∧
    (∀ n : ast.Node, (∀ m ∈ traversal c cs n, rejection c cs m = none) → FuncCall c cs n = none) ∧
    (∀ (n : ast.Node) (e : sqlerr.Error X.Err), FuncCall c cs n = some e →
      ∃ pre m post, traversal c cs n = pre ++ m :: post ∧ rejection c cs m = some e ∧
        ∀ x ∈ pre, rejection c cs x = none) := by
  have hf : ∀ n : ast.Node,
      FuncCall c cs n = (traversal c cs n).findSome? (rejection c cs) := by
    intro n
    unfold FuncCall
    rw [Walk_first_rejection c cs [] n]
  refine ⟨?_, ?_, hf, ?_, ?_⟩
  · intro v node h
    rw [Visit_latched v node h]
    exact ⟨rfl, rfl⟩
  · intro s node h
    exact Walk_latched s h node
  · intro n h
    rw [hf n, List.findSome?_eq_none_iff]
    exact h
  · intro n e h
    rw [hf n] at h
    exact findSome?_decompose _ _ e h

end validate

/-! ## Properties of `checkIncompatibleFieldTypes` -/

namespace golang

theorem firstNamed_append_singleton (pre : List Field) (f : Field) (name : String) :
    firstNamed (pre ++ [f]) name =
      match firstNamed pre name with
      | some g => some g
      | none => if f.Name = name then some f else none := by
  unfold firstNamed
  rw [List.find?_append]
  cases h : pre.find? fun g => g.Name == name with
  | some g => simp
  | none =>
    simp only [Option.none_or, List.find?_cons, List.find?_nil]
    by_cases hn : f.Name = name
    · simp [hn]
    · have hb : (f.Name == name) = false := by simpa using hn
      simp [hn, hb]

theorem firstNamed_mem (pre : List Field) (name : String) (g : Field)
    (h : firstNamed pre name = some g) : g ∈ pre ∧ g.Name = name := by
  unfold firstNamed at h
  have h1 := List.mem_of_find?_eq_some h
  have h2 := List.find?_some h
  exact ⟨h1, by simpa using h2⟩

theorem firstNamed_none (pre : List Field) (name : String)
    (h : firstNamed pre name = none) : ∀ g ∈ pre, g.Name ≠ name := by
  unfold firstNamed at h
  intro g hg hn
  have := List.find?_eq_none.1 h g hg
  simp [hn] at this

theorem checkLoop_spec (fields : List Field) :
    ∀ (pre : List Field) (fieldTypes : List (String × String)),
      (∀ name, fieldTypes.lookup name = (firstNamed pre name).map fun g => g.Type_) →
      typesAgree pre →
      (checkIncompatibleFieldTypesLoop fieldTypes fields = none ∧ typesAgree (pre ++ fields)) ∨
      (∃ a f b first, fields = a ++ f :: b ∧ firstNamed (pre ++ a) f.Name = some first ∧
        f.Type_ ≠ first.Type_ ∧ typesAgree (pre ++ a) ∧
        checkIncompatibleFieldTypesLoop fieldTypes fields =
          some (.incompatibleTypes ("named param " ++ f.Name ++ " has incompatible types: "
            ++ f.Type_ ++ ", " ++ first.Type_))) := by
  induction fields with
  | nil =>
    intro pre ft _ hc
    left
    rw [List.append_nil]
    exact ⟨rfl, hc⟩
  | cons f fs ih =>
    intro pre ft hft hc
    rw [checkIncompatibleFieldTypesLoop]
    have hl := hft f.Name
    cases hfirst : firstNamed pre f.Name with
    | none =>
      rw [hfirst] at hl
      simp only [Option.map_none'] at hl
      rw [hl]
      simp only []
      have hnew := firstNamed_none pre f.Name hfirst
      have hft' : ∀ name, ((f.Name, f.Type_) :: ft).lookup name =
          (firstNamed (pre ++ [f]) name).map fun g => g.Type_ := by
        intro name
        rw [firstNamed_append_singleton, List.lookup_cons]
        by_cases hn : f.Name = name
        · subst hn
          simp [hfirst]
        · have hn' : (name == f.Name) = false := by
            simp only [beq_eq_false_iff_ne, ne_eq]
            exact fun h => hn h.symm
          rw [hn', hft name]
          cases firstNamed pre name <;> simp [hn]
      have hc' : typesAgree (pre ++ [f]) := by
        intro x hx y hy hxy
        rcases List.mem_append.1 hx with hx1 | hx1 <;>
          rcases List.mem_append.1 hy with hy1 | hy1
        · exact hc x hx1 y hy1 hxy
        · have hyf : y = f := List.mem_singleton.1 hy1
          rw [hyf] at hxy
          exact absurd hxy (hnew x hx1)
        · have hxf : x = f := List.mem_singleton.1 hx1
          rw [hxf] at hxy
          exact absurd hxy.symm (hnew y hy1)
        · rw [List.mem_singleton.1 hx1, List.mem_singleton.1 hy1]
      rcases ih (pre ++ [f]) _ hft' hc' with ⟨h1, h2⟩ | ⟨a, g, b, first, h1, h2, h3, h4, h5⟩
      · left
        refine ⟨h1, ?_⟩
        rw [List.append_assoc] at h2
        exact h2
      · right
        refine ⟨f :: a, g, b, first, by rw [h1]; rfl, ?_, h3, ?_, h5⟩
        · rw [List.append_assoc] at h2
          exact h2
        · rw [List.append_assoc] at h4
          exact h4
    | some first =>
      rw [hfirst] at hl
      simp only [Option.map_some'] at hl
      rw [hl]
      simp only []
      obtain ⟨hmem, hname⟩ := firstNamed_mem pre f.Name first hfirst
      by_cases ht : f.Type_ = first.Type_
      · rw [if_neg (by simpa using ht)]
        have hft' : ∀ name, ft.lookup name =
            (firstNamed (pre ++ [f]) name).map fun g => g.Type_ := by
          intro name
          rw [firstNamed_append_singleton, hft name]
          cases hp : firstNamed pre name with
          | some g => rfl
          | none =>
            by_cases hn : f.Name = name
            · subst hn
              rw [hfirst] at hp
              exact absurd hp (by simp)
            · simp [hn]
        have hc' : typesAgree (pre ++ [f]) := by
          intro x hx y hy hxy
          rcases List.mem_append.1 hx with hx1 | hx1 <;>
            rcases List.mem_append.1 hy with hy1 | hy1
          · exact hc x hx1 y hy1 hxy
          · have hyf : y = f := List.mem_singleton.1 hy1
            rw [hyf] at hxy ⊢
            rw [ht]
            exact hc x hx1 first hmem (by rw [hxy, hname])
          · have hxf : x = f := List.mem_singleton.1 hx1
            rw [hxf] at hxy ⊢
            rw [ht]
            exact hc first hmem y hy1 (by rw [hname, hxy])
          · rw [List.mem_singleton.1 hx1, List.mem_singleton.1 hy1]
        rcases ih (pre ++ [f]) ft hft' hc' with ⟨h1, h2⟩ | ⟨a, g, b, first', h1, h2, h3, h4, h5⟩
        · left
          refine ⟨h1, ?_⟩
          rw [List.append_assoc] at h2
          exact h2
        · right
          refine ⟨f :: a, g, b, first', by rw [h1]; rfl, ?_, h3, ?_, h5⟩
          · rw [List.append_assoc] at h2
            exact h2
          · rw [List.append_assoc] at h4
            exact h4
      · rw [if_pos (by simpa using ht)]
        right
        exact ⟨[], f, fs, first, rfl, by rw [List.append_nil]; exact hfirst, ht,
          by rw [List.append_nil]; exact hc, rfl⟩

/-- C25: `checkIncompatibleFieldTypes` returns nil exactly when every group of
fields of the same name agrees on one type, and an error exactly when two
fields have the same name and different types; the error reports the first
field whose type differs from the type of the first field of its name, with
the two types.  `columnsToStruct` fails with that error and succeeds when
there is none. -/
theorem C25_incompatible_field_types (fields : List Field) :
    (checkIncompatibleFieldTypes fields = none ↔ typesAgree fields) ∧
    ((∃ e, checkIncompatibleFieldTypes fields = some e) ↔
      ∃ f ∈ fields, ∃ g ∈ fields, f.Name = g.Name ∧ f.Type_ ≠ g.Type_) ∧
    (∀ e, checkIncompatibleFieldTypes fields = some e →
      ∃ a f b first, fields = a ++ f :: b ∧ firstNamed a f.Name = some first ∧
        f.Type_ ≠ first.Type_ ∧ typesAgree a ∧
        e = .incompatibleTypes ("named param " ++ f.Name ++ " has incompatible types: "
          ++ f.Type_ ++ ", " ++ first.Type_)) ∧
    (∀ (G : Deps) (req : plugin.CodeGenRequest) (name : String) (columns : List goColumn)
        (useID : Bool),
      columnsToStruct G req name columns useID =
        match checkIncompatibleFieldTypes (structFields G req columns useID) with
        | some err => .error err
        | none => .ok { Table := none, Name := name,
                        Fields := structFields G req columns useID, Comment := "" }) := by
  have hspec := checkLoop_spec fields [] [] (fun name => rfl)
    (fun f hf => absurd hf (List.not_mem_nil f))
  simp only [List.nil_append] at hspec
  have hbad : ∀ a f b first, fields = a ++ f :: b → firstNamed a f.Name = some first →
      f.Type_ ≠ first.Type_ → ¬ typesAgree fields := by
    intro a f b first h1 h2 h3 hagree
    obtain ⟨hm, hn⟩ := firstNamed_mem a f.Name first h2
    exact h3 (hagree f (by rw [h1]; simp) first (by rw [h1]; simp [hm]) hn.symm)
  have hnone : checkIncompatibleFieldTypes fields = none ↔ typesAgree fields := by
    unfold checkIncompatibleFieldTypes
    rcases hspec with ⟨h1, h2⟩ | ⟨a, f, b, first, h1, h2, h3, -, h5⟩
    · exact ⟨fun _ => h2, fun _ => h1⟩
    · rw [h5]
      exact ⟨fun h => absurd h (by simp), fun h => absurd h (hbad a f b first h1 h2 h3)⟩
  refine ⟨hnone, ?_, ?_, fun G req name columns useID => rfl⟩
  · constructor
    · rintro ⟨e, he⟩
      by_contra hno
      have : typesAgree fields := by
        intro f hf g hg hfg
        by_contra ht
        exact hno ⟨f, hf, g, hg, hfg, ht⟩
      rw [hnone.2 this] at he
      exact absurd he (by simp)
    · rintro ⟨f, hf, g, hg, hfg, ht⟩
      cases hc : checkIncompatibleFieldTypes fields with
      | some e => exact ⟨e, rfl⟩
      | none => exact absurd (hnone.1 hc f hf g hg hfg) ht
  · intro e he
    unfold checkIncompatibleFieldTypes at he
    rcases hspec with ⟨h1, -⟩ | ⟨a, f, b, first, h1, h2, h3, h4, h5⟩
    · rw [h1] at he
      exact absurd he (by simp)
    · rw [h5] at he
      simp only [Option.some.injEq] at he
      exact ⟨a, f, b, first, h1, h2, h3, h4, he.symm⟩

end golang

/-! ## Properties of `newGoEmbed` -/

namespace golang

theorem newGoEmbedLoop_skip (embed : plugin.Identifier) (defaultSchema : String)
    (pre : List Struct) (rest : List Struct)
    (hpre : ∀ x ∈ pre, x.Table ≠ none ∧ ¬ embedMatches embed defaultSchema x) :
    newGoEmbedLoop embed defaultSchema (pre ++ rest) = newGoEmbedLoop embed defaultSchema rest := by
  induction pre with
  | nil => rfl
  | cons x pre ih =>
    obtain ⟨hx1, hx2⟩ := hpre x (List.mem_cons_self _ _)
    rw [List.cons_append, newGoEmbedLoop]
    cases ht : x.Table with
    | none => exact absurd ht hx1
    | some table =>
      simp only []
      have hcond : embed.Catalog ≠ table.Catalog ∨ embed.Name ≠ table.Name ∨
          (if embed.Schema ≠ "" then embed.Schema else defaultSchema) ≠ table.Schema := by
        by_contra hno
        simp only [not_or, not_not] at hno
        exact hx2 ⟨table, ht, hno.1, hno.2.1, hno.2.2⟩
      rw [if_pos hcond]
      exact ih fun y hy => hpre y (List.mem_cons_of_mem _ hy)

/-- C26: `newGoEmbed` returns nothing without an embed target; with a target
it returns, for the first struct in list order that comes from the table the
target names (same catalog, same name, and the target's schema or the default
schema when the target has none), the struct's name as type and model name
and the names of the struct's fields, in order; it returns nothing when no
struct matches.  The structs passed over come from a table.  In
`columnsToStruct` the field of a column with an embed has the embed's type and
field names. -/
theorem C26_embed_resolution (structs : List Struct) (defaultSchema : String) :
    newGoEmbed none structs defaultSchema = .ok none ∧
    (∀ (embed : plugin.Identifier) (pre : List Struct) (s : Struct) (post : List Struct),
      structs = pre ++ s :: post →
      (∀ x ∈ pre, x.Table ≠ none ∧ ¬ embedMatches embed defaultSchema x) →
      embedMatches embed defaultSchema s →
      newGoEmbed (some embed) structs defaultSchema =
        .ok (some { modelType := s.Name, modelName := s.Name,
                    fields := s.Fields.map fun f => f.Name })) ∧
    (∀ embed : plugin.Identifier,
      (∀ x ∈ structs, x.Table ≠ none ∧ ¬ embedMatches embed defaultSchema x) →
      newGoEmbed (some embed) structs defaultSchema = .ok none) ∧
    (∀ (G : Deps) (req : plugin.CodeGenRequest) (useID : Bool) (st : StructState) (i : Nat)
        (c : goColumn) (e : goEmbed), c.embed = some e →
      ∃ f, (columnStep G req useID st i c).fields = st.fields ++ [f] ∧
        f.Type_ = e.modelType ∧ f.EmbedFields = e.fields) := by
  refine ⟨rfl, ?_, ?_, ?_⟩
  · intro embed pre s post hs hpre hm
    unfold newGoEmbed
    simp only []
    rw [hs, newGoEmbedLoop_skip embed defaultSchema pre (s :: post) hpre, newGoEmbedLoop]
    obtain ⟨table, ht, h1, h2, h3⟩ := hm
    rw [ht]
    simp only []
    rw [if_neg (by simp only [not_or, not_not, ne_eq]; exact ⟨h1, h2, h3⟩)]
  · intro embed hall
    unfold newGoEmbed
    simp only []
    have := newGoEmbedLoop_skip embed defaultSchema structs [] hall
    rw [List.append_nil] at this
    rw [this]
    rfl
  · intro G req useID st i c e he
    unfold columnStep
    simp only [he]
    exact ⟨_, rfl, rfl, rfl⟩

end golang

/-! ## Properties of `buildQueries`: struct reuse -/

namespace golang

theorem sameFields_iff (G : Deps) (req : plugin.CodeGenRequest) (s : Struct)
    (fs : List Field) :
    ∀ (i : Nat) (cs : List plugin.Column), fs.length = cs.length →
      (sameFields G req s i fs cs = true ↔
        ∀ (k : Nat) (f : Field) (c : plugin.Column), fs[k]? = some f → cs[k]? = some c →
          f.Name = G.StructName (columnName c (i + k)) req.Settings ∧
            f.Type_ = G.goType req c ∧
            G.SameTableName c.Table s.Table req.Catalog.DefaultSchema = true) := by
  induction fs with
  | nil =>
    intro i cs _
    simp [sameFields]
  | cons f fs ih =>
    intro i cs hlen
    cases cs with
    | nil => simp at hlen
    | cons c cs =>
      simp only [List.length_cons, Nat.add_right_cancel_iff] at hlen
      rw [sameFields]
      simp only [Bool.and_eq_true, beq_iff_eq]
      rw [ih (i + 1) cs hlen]
      constructor
      · rintro ⟨⟨⟨h1, h2⟩, h3⟩, h4⟩ k f' c' hf hc
        cases k with
        | zero =>
          simp only [List.getElem?_cons_zero, Option.some.injEq] at hf hc
          subst hf hc
          exact ⟨h1, h2, h3⟩
        | succ k =>
          simp only [List.getElem?_cons_succ] at hf hc
          have := h4 k f' c' hf hc
          rw [Nat.add_assoc, Nat.add_comm 1 k] at this
          exact this
      · intro h
        refine ⟨?_, ?_⟩
        · have := h 0 f c (List.getElem?_cons_zero ..) (List.getElem?_cons_zero ..)
          exact ⟨⟨this.1, this.2.1⟩, this.2.2⟩
        · intro k f' c' hf hc
          have := h (k + 1) f' c' (by simpa using hf) (by simpa using hc)
          rw [Nat.add_assoc, Nat.add_comm 1 k]
          exact this

theorem findStruct_pred_iff (G : Deps) (req : plugin.CodeGenRequest) (query : plugin.Query)
    (s : Struct) :
    (s.Fields.length == query.Columns.length && sameFields G req s 0 s.Fields query.Columns)
      = true ↔ structMatches G req query s := by
  unfold structMatches
  simp only [Bool.and_eq_true, beq_iff_eq]
  constructor
  · rintro ⟨h1, h2⟩
    refine ⟨h1, ?_⟩
    have := (sameFields_iff G req s s.Fields 0 query.Columns h1).1 h2
    simpa using this
  · rintro ⟨h1, h2⟩
    refine ⟨h1, (sameFields_iff G req s s.Fields 0 query.Columns h1).2 ?_⟩
    simpa using h2

theorem findStruct_first (G : Deps) (req : plugin.CodeGenRequest) (query : plugin.Query)
    (pre : List Struct) (s : Struct) (post : List Struct)
    (hs : structMatches G req query s) (hpre : ∀ x ∈ pre, ¬ structMatches G req query x) :
    findStruct G req (pre ++ s :: post) query = some s := by
  unfold findStruct
  induction pre with
  | nil =>
    rw [List.nil_append, List.find?_cons, (findStruct_pred_iff G req query s).2 hs]
  | cons x pre ih =>
    have hx : (x.Fields.length == query.Columns.length &&
        sameFields G req x 0 x.Fields query.Columns) = false := by
      cases h : (x.Fields.length == query.Columns.length &&
        sameFields G req x 0 x.Fields query.Columns)
      · rfl
      · exact absurd ((findStruct_pred_iff G req query x).1 h) (hpre x (List.mem_cons_self _ _))
    rw [List.cons_append, List.find?_cons, hx]
    exact ih fun y hy => hpre y (List.mem_cons_of_mem _ hy)

theorem findStruct_none (G : Deps) (req : plugin.CodeGenRequest) (query : plugin.Query)
    (structs : List Struct) (hall : ∀ x ∈ structs, ¬ structMatches G req query x) :
    findStruct G req structs query = none := by
  unfold findStruct
  rw [List.find?_eq_none]
  intro x hx h
  exact hall x hx ((findStruct_pred_iff G req query x).1 h)

theorem findStruct_congr (G : Deps) (req : plugin.CodeGenRequest) (structs : List Struct)
    (q1 q2 : plugin.Query) (h : q1.Columns = q2.Columns) :
    findStruct G req structs q1 = findStruct G req structs q2 := by
  unfold findStruct
  rw [h]

theorem retColumns_columns (req : plugin.CodeGenRequest) (structs : List Struct)
    (cs : List plugin.Column) :
    ∀ (i : Nat) (columns : List goColumn), retColumns req structs i cs = .ok columns →
      columns.map (fun c => some c.Column) = cs.map some := by
  induction cs with
  | nil =>
    intro i columns h
    simp only [retColumns, Except.ok.injEq] at h
    subst h
    rfl
  | cons c cs ih =>
    intro i columns h
    rw [retColumns] at h
    cases he : newGoEmbed c.EmbedTable structs req.Catalog.DefaultSchema with
    | error e => rw [he] at h; simp at h
    | ok embed =>
      cases hr : retColumns req structs (i + 1) cs with
      | error e => rw [he, hr] at h; simp at h
      | ok rest =>
        rw [he, hr] at h
        simp only [Except.ok.injEq] at h
        subst h
        simp only [List.map_cons, ih (i + 1) rest hr]

theorem buildRet_structPath (G : Deps) (req : plugin.CodeGenRequest) (structs : List Struct)
    (query : plugin.Query) (hpath : structPath query) :
    buildRet G req structs query = retStruct G req structs query ∧
    putOutColumns query = true := by
  unfold structPath at hpath
  constructor
  · unfold buildRet
    rcases hpath with h | ⟨c, h1, h2⟩
    · match hq : query.Columns with
      | [] => rfl
      | [c] => rw [hq] at h; simp at h
      | _ :: _ :: _ => rfl
    · rw [h1]
      have : c.EmbedTable.isNone = false := by
        cases hc : c.EmbedTable with
        | none => exact absurd hc h2
        | some t => rfl
      simp only [this, Bool.false_eq_true, if_false]
  · unfold putOutColumns
    have : query.Columns.length > 0 := by
      rcases hpath with h | ⟨c, h1, -⟩
      · omega
      · rw [h1]
        simp
    simp [this]

/-- What the struct branch of `gq.Ret` returns when a known struct is found,
and when none is. -/
theorem retStruct_spec (G : Deps) (req : plugin.CodeGenRequest) (structs : List Struct)
    (query : plugin.Query) (hput : putOutColumns query = true) :
    (∀ s, findStruct G req structs query = some s →
      ∃ r, retStruct G req structs query = .ok r ∧ r.Struct = some s ∧ r.Emit = false) ∧
    (findStruct G req structs query = none →
      (∃ e, retStruct G req structs query = .error e) ∨
      (∃ r s, retStruct G req structs query = .ok r ∧ r.Struct = some s ∧
        s.Name = query.Name ++ "Row" ∧ r.Emit = true ∧
        s.Fields.map (fun f => f.Column) = query.Columns.map some)) := by
  constructor
  · intro s hs
    unfold retStruct
    rw [if_pos hput, hs]
    exact ⟨_, rfl, rfl, rfl⟩
  · intro hnone
    unfold retStruct
    rw [if_pos hput, hnone]
    simp only []
    cases hc : retColumns req structs 0 query.Columns with
    | error e => exact Or.inl ⟨e, rfl⟩
    | ok columns =>
      simp only []
      rcases columnsToStruct_spec G req (query.Name ++ "Row") columns true with
        ⟨msg, h⟩ | ⟨s, h1, h2, -, h3⟩
      · rw [h]
        exact Or.inl ⟨_, rfl⟩
      · rw [h1]
        refine Or.inr ⟨_, s, rfl, rfl, h2, rfl, ?_⟩
        rw [h3, retColumns_columns req structs query.Columns 0 columns hc]

/-- The struct branch of `gq.Ret` when no known struct is found, the embeds
resolve and the fields have compatible types: the new struct. -/
theorem retStruct_new (G : Deps) (req : plugin.CodeGenRequest) (structs : List Struct)
    (query : plugin.Query) (hput : putOutColumns query = true)
    (hnone : findStruct G req structs query = none) (columns : List goColumn)
    (hc : retColumns req structs 0 query.Columns = .ok columns)
    (hcheck : checkIncompatibleFieldTypes (structFields G req columns true) = none) :
    ∃ r, retStruct G req structs query = .ok r ∧ r.Emit = true ∧
      r.Struct = some { Table := none, Name := query.Name ++ "Row",
                        Fields := structFields G req columns true, Comment := "" } := by
  have hs : columnsToStruct G req (query.Name ++ "Row") columns true =
      .ok { Table := none, Name := query.Name ++ "Row",
            Fields := structFields G req columns true, Comment := "" } := by
    unfold columnsToStruct
    unfold structFields at hcheck
    simp only [hcheck]
    rfl
  unfold retStruct
  rw [if_pos hput, hnone]
  simp only [hc, hs]
  exact ⟨_, rfl, rfl, rfl⟩

/-- C21: for a query whose result goes through the struct path, when some
known struct matches the columns (same number of fields and, at every
position, the column's field name, Go type and table), `Ret.Struct` is the
first such struct in list order and `Ret.Emit` is false; when no known struct
matches, `Ret.Struct` is a new struct named `<QueryName>Row` with one field
per column and `Ret.Emit` is true: the result is this one whenever the embeds
of the columns resolve and the new fields have compatible types, and the build
fails otherwise.  Whenever `buildQueries` succeeds, the built query has this
result. -/
theorem C21_struct_reuse (G : Deps) (req : plugin.CodeGenRequest) (structs : List Struct)
    (query : plugin.Query) (hname : query.Name ≠ "") (hcmd : query.Cmd ≠ "")
    (hmem : query ∈ req.Queries) (hpath : structPath query) :
    (∀ (pre : List Struct) (s : Struct) (post : List Struct), structs = pre ++ s :: post →
      structMatches G req query s → (∀ x ∈ pre, ¬ structMatches G req query x) →
      (∃ r, buildRet G req structs query = .ok r ∧ r.Struct = some s ∧ r.Emit = false) ∧
      (∀ qs, buildQueries G req structs = .ok qs →
        ∃ gq ∈ qs, gq.MethodName = query.Name ∧ gq.Ret.Struct = some s ∧
          gq.Ret.Emit = false)) ∧
    ((∀ x ∈ structs, ¬ structMatches G req query x) →
      ((∃ e, buildRet G req structs query = .error e) ∨
        (∃ r s, buildRet G req structs query = .ok r ∧ r.Struct = some s ∧
          s.Name = query.Name ++ "Row" ∧ r.Emit = true ∧
          s.Fields.map (fun f => f.Column) = query.Columns.map some)) ∧
      (∀ qs, buildQueries G req structs = .ok qs →
        ∃ gq ∈ qs, gq.MethodName = query.Name ∧
          ∃ s, gq.Ret.Struct = some s ∧ s.Name = query.Name ++ "Row" ∧
            gq.Ret.Emit = true ∧
            s.Fields.map (fun f => f.Column) = query.Columns.map some) ∧
      (∀ columns, retColumns req structs 0 query.Columns = .ok columns →
        checkIncompatibleFieldTypes (structFields G req columns true) = none →
        ∃ r, buildRet G req structs query = .ok r ∧ r.Emit = true ∧
          r.Struct = some { Table := none, Name := query.Name ++ "Row",
                            Fields := structFields G req columns true, Comment := "" })) := by
  obtain ⟨hb, hput⟩ := buildRet_structPath G req structs query hpath
  obtain ⟨hfound, hmissing⟩ := retStruct_spec G req structs query hput
  rw [← hb] at hfound hmissing
  constructor
  · intro pre s post hs hm hpre
    have hf : findStruct G req structs query = some s := by
      rw [hs]
      exact findStruct_first G req query pre s post hm hpre
    obtain ⟨r, h1, h2, h3⟩ := hfound s hf
    refine ⟨⟨r, h1, h2, h3⟩, ?_⟩
    intro qs hqs
    obtain ⟨gq, hg, hn, -, -, hr⟩ := buildQueries_mem G req structs query hname hcmd hmem qs hqs
    rw [h1] at hr
    simp only [Except.ok.injEq] at hr
    rw [hr] at h2 h3
    exact ⟨gq, hg, hn, h2, h3⟩
  · intro hall
    have hf := findStruct_none G req query structs hall
    have hm := hmissing hf
    refine ⟨hm, ?_, ?_⟩
    · intro qs hqs
      obtain ⟨gq, hg, hn, -, -, hr⟩ :=
        buildQueries_mem G req structs query hname hcmd hmem qs hqs
      rcases hm with ⟨e, he⟩ | ⟨r, s, h1, h2, h3, h4, h5⟩
      · rw [he] at hr
        simp at hr
      · rw [h1] at hr
        simp only [Except.ok.injEq] at hr
        rw [hr] at h2 h4
        exact ⟨gq, hg, hn, s, h2, h3, h4, h5⟩
    · intro columns hc hcheck
      rw [hb]
      exact retStruct_new G req structs query hput hf columns hc hcheck

/-- C21 at the query `ListUsers` over the columns of `users`, with the known
struct `User`: the struct is reused. -/
theorem C21_struct_reuse_witness :
    ∃ gq ∈ ((buildQueries specGo
        (specRequest 1 [] [specQuery "ListUsers" ":many" [] specUserColumns])
        [specUserStruct]).toOption.getD []),
      gq.MethodName = "ListUsers" ∧ gq.Ret.Struct = some specUserStruct ∧
        gq.Ret.Emit = false :=
  ((C21_struct_reuse specGo
      (specRequest 1 [] [specQuery "ListUsers" ":many" [] specUserColumns])
      [specUserStruct] (specQuery "ListUsers" ":many" [] specUserColumns)
      (by decide) (by decide) (by decide) (Or.inl (by decide))).1
    [] specUserStruct [] rfl
    ((findStruct_pred_iff specGo _ _ specUserStruct).1 (by decide))
    (fun x hx => absurd hx (List.not_mem_nil x))).2 _ rfl

/-- C22, as stated, fails: the queries `First` and `Second` project the same
two columns, no known struct matches them, and their output structs are named
`FirstRow` and `SecondRow`. -/
theorem C22_row_structs_counterexample :
    (specQuery "First" ":many" [] specUserColumns).Columns =
      (specQuery "Second" ":many" [] specUserColumns).Columns ∧
    ((buildQueries specGo
        (specRequest 1 [] [specQuery "First" ":many" [] specUserColumns,
          specQuery "Second" ":many" [] specUserColumns])
        []).toOption.getD []).map
      (fun gq => (gq.MethodName, gq.Ret.Struct.map fun s => s.Name)) =
      [("First", some "FirstRow"), ("Second", some "SecondRow")] := by
  decide

/-- C22, amended: two queries of a request that project the same list of two
or more columns get the same output struct when some known struct matches the
columns (the first such struct, reused by both); when none matches, each gets
a struct of its own, named `<QueryName>Row` after its own query. -/
theorem C22_struct_reuse_known_only (G : Deps) (req : plugin.CodeGenRequest)
    (structs : List Struct) (q1 q2 : plugin.Query)
    (hname1 : q1.Name ≠ "") (hcmd1 : q1.Cmd ≠ "") (hmem1 : q1 ∈ req.Queries)
    (hname2 : q2.Name ≠ "") (hcmd2 : q2.Cmd ≠ "") (hmem2 : q2 ∈ req.Queries)
    (hcols : q1.Columns = q2.Columns) (hlen : 2 ≤ q1.Columns.length)
    (qs : List Query) (hqs : buildQueries G req structs = .ok qs) :
    ∃ g1 ∈ qs, ∃ g2 ∈ qs, g1.MethodName = q1.Name ∧ g2.MethodName = q2.Name ∧
      (∀ (pre : List Struct) (s : Struct) (post : List Struct), structs = pre ++ s :: post →
        structMatches G req q1 s → (∀ x ∈ pre, ¬ structMatches G req q1 x) →
        g1.Ret.Struct = some s ∧ g2.Ret.Struct = some s) ∧
      ((∀ x ∈ structs, ¬ structMatches G req q1 x) →
        ∃ s1 s2, g1.Ret.Struct = some s1 ∧ g2.Ret.Struct = some s2 ∧
          s1.Name = q1.Name ++ "Row" ∧ s2.Name = q2.Name ++ "Row") := by
  have hp1 : structPath q1 := Or.inl hlen
  have hp2 : structPath q2 := Or.inl (by rw [← hcols]; exact hlen)
  obtain ⟨hb1, hput1⟩ := buildRet_structPath G req structs q1 hp1
  obtain ⟨hb2, hput2⟩ := buildRet_structPath G req structs q2 hp2
  obtain ⟨hf1, hm1⟩ := retStruct_spec G req structs q1 hput1
  obtain ⟨hf2, hm2⟩ := retStruct_spec G req structs q2 hput2
  rw [← hb1] at hf1 hm1
  rw [← hb2, ← findStruct_congr G req structs q1 q2 hcols] at hf2 hm2
  obtain ⟨g1, hg1, hn1, -, -, hr1⟩ := buildQueries_mem G req structs q1 hname1 hcmd1 hmem1 qs hqs
  obtain ⟨g2, hg2, hn2, -, -, hr2⟩ := buildQueries_mem G req structs q2 hname2 hcmd2 hmem2 qs hqs
  refine ⟨g1, hg1, g2, hg2, hn1, hn2, ?_, ?_⟩
  · intro pre s post hs hm hpre
    have hf : findStruct G req structs q1 = some s := by
      rw [hs]
      exact findStruct_first G req q1 pre s post hm hpre
    obtain ⟨r1, a1, b1, -⟩ := hf1 s hf
    obtain ⟨r2, a2, b2, -⟩ := hf2 s hf
    rw [a1] at hr1
    rw [a2] at hr2
    simp only [Except.ok.injEq] at hr1 hr2
    rw [hr1] at b1
    rw [hr2] at b2
    exact ⟨b1, b2⟩
  · intro hall
    have hf := findStruct_none G req q1 structs hall
    rcases hm1 hf with ⟨e, he⟩ | ⟨r1, s1, a1, b1, c1, -, -⟩
    · rw [he] at hr1
      simp at hr1
    · rcases hm2 hf with ⟨e, he⟩ | ⟨r2, s2, a2, b2, c2, -, -⟩
      · rw [he] at hr2
        simp at hr2
      · rw [a1] at hr1
        rw [a2] at hr2
        simp only [Except.ok.injEq] at hr1 hr2
        rw [hr1] at b1
        rw [hr2] at b2
        exact ⟨s1, s2, b1, b2, c1, c2⟩

/-- C22, amended, at the queries `First` and `Second` over the columns of
`users`, with the known struct `User`. -/
theorem C22_struct_reuse_known_only_witness :
    ∃ g1 ∈ ((buildQueries specGo
        (specRequest 1 [] [specQuery "First" ":many" [] specUserColumns,
          specQuery "Second" ":many" [] specUserColumns])
        [specUserStruct]).toOption.getD []),
      ∃ g2 ∈ ((buildQueries specGo
        (specRequest 1 [] [specQuery "First" ":many" [] specUserColumns,
          specQuery "Second" ":many" [] specUserColumns])
        [specUserStruct]).toOption.getD []),
      g1.MethodName = "First" ∧ g2.MethodName = "Second" ∧
        g1.Ret.Struct = some specUserStruct ∧ g2.Ret.Struct = some specUserStruct := by
  obtain ⟨g1, hg1, g2, hg2, h1, h2, h3, -⟩ := C22_struct_reuse_known_only specGo
    (specRequest 1 [] [specQuery "First" ":many" [] specUserColumns,
      specQuery "Second" ":many" [] specUserColumns])
    [specUserStruct] (specQuery "First" ":many" [] specUserColumns)
    (specQuery "Second" ":many" [] specUserColumns)
    (by decide) (by decide) (by decide) (by decide) (by decide) (by decide) rfl (by decide)
    _ rfl
  have h4 := h3 [] specUserStruct [] rfl
    ((findStruct_pred_iff specGo _ _ specUserStruct).1 (by decide))
    (fun x hx => absurd hx (List.not_mem_nil x))
  exact ⟨g1, hg1, g2, hg2, h1, h2, h4.1, h4.2⟩

end golang

/-! ## Properties of `columnsToStruct`: suffixes of field names -/

namespace golang

theorem columnStep_spec (G : Deps) (req : plugin.CodeGenRequest) (useID : Bool)
    (st : StructState) (i : Nat) (c : goColumn) (prev : List String)
    (hlook : st.suffixes.lookup c.id = none) (hnp : c.Column.IsNamedParam = false)
    (hseen : ∀ name, ((st.seen.lookup name).getD []).length = prev.count name) :
    (∃ f, (columnStep G req useID st i c).fields = st.fields ++ [f] ∧
      f.Name = (if prev.count (colBaseName G req i c) > 0 then
          colBaseName G req i c ++ "_" ++ toString (prev.count (colBaseName G req i c) + 1)
        else colBaseName G req i c) ∧
      f.Tags = fieldTags G req
        (if prev.count (colBaseName G req i c) > 0 then
          colTagName G i c ++ "_" ++ toString (prev.count (colBaseName G req i c) + 1)
        else colTagName G i c) c.Column) ∧
    (∀ name, (((columnStep G req useID st i c).seen.lookup name).getD []).length =
      (prev ++ [colBaseName G req i c]).count name) ∧
    (columnStep G req useID st i c).suffixes.tail = st.suffixes ∧
    ((columnStep G req useID st i c).suffixes.head?.map fun p => p.1) = some c.id := by
  have hv := hseen (colBaseName G req i c)
  refine ⟨?_, ?_, ?_, ?_⟩
  · unfold columnStep fieldTags
    simp only [hlook, hnp]
    refine ⟨_, rfl, ?_, ?_⟩
    · unfold colBaseName at hv ⊢
      cases hc : c.embed with
      | none =>
        simp only [hc] at hv ⊢
        rw [hv]
        rcases Nat.eq_zero_or_pos
          (List.count (G.StructName (columnName c.Column i) req.Settings) prev) with hp | hp
        · simp [hp]
        · simp [hp]
      | some e =>
        simp only [hc] at hv ⊢
        rw [hv]
        rcases Nat.eq_zero_or_pos
          (List.count (G.StructName e.modelName req.Settings) prev) with hp | hp
        · simp [hp]
        · simp [hp]
    · unfold colBaseName at hv
      unfold colBaseName colTagName
      cases hc : c.embed with
      | none =>
        simp only [hc] at hv ⊢
        rw [hv]
        rcases Nat.eq_zero_or_pos
          (List.count (G.StructName (columnName c.Column i) req.Settings) prev) with hp | hp
        · cases req.Settings.Go.EmitDbTags <;> cases req.Settings.Go.EmitJsonTags <;> simp [hp]
        · cases req.Settings.Go.EmitDbTags <;> cases req.Settings.Go.EmitJsonTags <;> simp [hp]
      | some e =>
        simp only [hc] at hv ⊢
        rw [hv]
        rcases Nat.eq_zero_or_pos
          (List.count (G.StructName e.modelName req.Settings) prev) with hp | hp
        · cases req.Settings.Go.EmitDbTags <;> cases req.Settings.Go.EmitJsonTags <;> simp [hp]
        · cases req.Settings.Go.EmitDbTags <;> cases req.Settings.Go.EmitJsonTags <;> simp [hp]
  · intro name
    have hs : (columnStep G req useID st i c).seen =
        match st.seen.lookup (colBaseName G req i c) with
        | none => (colBaseName G req i c, [i]) :: st.seen
        | some l => (colBaseName G req i c, l ++ [i]) :: st.seen := by
      unfold columnStep colBaseName
      cases hc : c.embed <;> rfl
    rw [hs, List.count_append]
    by_cases hn : name = colBaseName G req i c
    · subst hn
      cases hl : st.seen.lookup (colBaseName G req i c) with
      | none =>
        rw [hl] at hv
        simp only [Option.getD_none, List.length_nil] at hv
        simp [← hv]
      | some l =>
        rw [hl] at hv
        simp only [Option.getD_some] at hv
        simp [← hv]
    · have hb : (name == colBaseName G req i c) = false := by simpa using hn
      have hcount : List.count name [colBaseName G req i c] = 0 := by
        simp [List.count_singleton, Ne.symm hn]
      rw [hcount, Nat.add_zero, ← hseen name]
      cases st.seen.lookup (colBaseName G req i c) <;> simp [List.lookup_cons, hb]
  · unfold columnStep
    rfl
  · unfold columnStep
    rfl

theorem columnsLoop_prefix (G : Deps) (req : plugin.CodeGenRequest) (useID : Bool)
    (cols : List goColumn) :
    ∀ (st : StructState) (i : Nat),
      ∃ extra, (columnsLoop G req useID st i cols).fields = st.fields ++ extra := by
  induction cols with
  | nil => intro st i; exact ⟨[], by simp [columnsLoop]⟩
  | cons c cs ih =>
    intro st i
    rw [columnsLoop]
    obtain ⟨extra, h⟩ := ih (columnStep G req useID st i c) (i + 1)
    obtain ⟨f, hf⟩ : ∃ f, (columnStep G req useID st i c).fields = st.fields ++ [f] := by
      unfold columnStep
      exact ⟨_, rfl⟩
    refine ⟨f :: extra, ?_⟩
    rw [h, hf]
    simp

theorem columnsLoop_suffixes (G : Deps) (req : plugin.CodeGenRequest) (useID : Bool)
    (cols : List goColumn) :
    ∀ (st : StructState) (i : Nat) (prev : List String),
      (∀ name, ((st.seen.lookup name).getD []).length = prev.count name) →
      (∀ c ∈ cols, st.suffixes.lookup c.id = none) →
      (cols.map fun c => c.id).Nodup →
      (∀ c ∈ cols, c.Column.IsNamedParam = false) →
      ∀ (n : Nat) (c : goColumn), cols[n]? = some c →
        ∃ f, (columnsLoop G req useID st i cols).fields[st.fields.length + n]? = some f ∧
          f.Name =
            (if (prev ++ (baseNamesFrom G req i cols).take n).count
                (colBaseName G req (i + n) c) > 0 then
              colBaseName G req (i + n) c ++ "_" ++
                toString ((prev ++ (baseNamesFrom G req i cols).take n).count
                  (colBaseName G req (i + n) c) + 1)
            else colBaseName G req (i + n) c) ∧
          f.Tags = fieldTags G req
            (if (prev ++ (baseNamesFrom G req i cols).take n).count
                (colBaseName G req (i + n) c) > 0 then
              colTagName G (i + n) c ++ "_" ++
                toString ((prev ++ (baseNamesFrom G req i cols).take n).count
                  (colBaseName G req (i + n) c) + 1)
            else colTagName G (i + n) c) c.Column := by
  induction cols with
  | nil => intro st i prev _ _ _ _ n c h; simp at h
  | cons c0 cs ih =>
    intro st i prev hseen hsuf hnd hnp n c hc
    have hlook := hsuf c0 (List.mem_cons_self _ _)
    obtain ⟨⟨f0, hf0, hname0, htags0⟩, hseen', htail, hhead⟩ :=
      columnStep_spec G req useID st i c0 prev hlook (hnp c0 (List.mem_cons_self _ _)) hseen
    rw [columnsLoop]
    cases n with
    | zero =>
      simp only [List.getElem?_cons_zero, Option.some.injEq] at hc
      subst hc
      obtain ⟨extra, hex⟩ := columnsLoop_prefix G req useID cs
        (columnStep G req useID st i c0) (i + 1)
      refine ⟨f0, ?_, ?_, ?_⟩
      · rw [hex, hf0, Nat.add_zero, List.append_assoc,
          List.getElem?_append_right (Nat.le_refl _)]
        simp
      · simpa using hname0
      · simpa using htags0
    | succ n =>
      simp only [List.getElem?_cons_succ] at hc
      have hnd' : (cs.map fun c => c.id).Nodup := by
        simp only [List.map_cons, List.nodup_cons] at hnd
        exact hnd.2
      have hsuf' : ∀ c' ∈ cs, (columnStep G req useID st i c0).suffixes.lookup c'.id = none := by
        intro c' hc'
        have hne : c'.id ≠ c0.id := by
          simp only [List.map_cons, List.nodup_cons, List.mem_map, not_exists, not_and] at hnd
          exact fun h => hnd.1 c' hc' h
        cases hs : (columnStep G req useID st i c0).suffixes with
        | nil => rfl
        | cons p ps =>
          rw [hs] at htail hhead
          simp only [List.tail_cons] at htail
          simp only [List.head?_cons, Option.map_some', Option.some.injEq] at hhead
          rw [List.lookup_cons]
          have hb : (c'.id == p.1) = false := by
            rw [hhead]
            simpa using hne
          rw [hb, htail]
          exact hsuf c' (List.mem_cons_of_mem _ hc')
      obtain ⟨f, h1, h2, h3⟩ := ih (columnStep G req useID st i c0) (i + 1)
        (prev ++ [colBaseName G req i c0]) hseen' hsuf' hnd'
        (fun c' hc' => hnp c' (List.mem_cons_of_mem _ hc')) n c hc
      refine ⟨f, ?_, ?_, ?_⟩
      · rw [hf0] at h1
        simp only [List.length_append, List.length_singleton] at h1
        rw [show st.fields.length + (n + 1) = st.fields.length + 1 + n by omega]
        exact h1
      · rw [h2]
        simp only [baseNamesFrom, List.take_succ_cons, List.append_assoc, List.singleton_append,
          show i + 1 + n = i + (n + 1) by omega]
      · rw [h3]
        simp only [baseNamesFrom, List.take_succ_cons, List.append_assoc, List.singleton_append,
          show i + 1 + n = i + (n + 1) by omega]

theorem structFields_eraseType (G : Deps) (req : plugin.CodeGenRequest)
    (cols : List goColumn) (useID : Bool) :
    (structFields G req cols useID).map Field.eraseType =
      (columnsLoop G req useID { fields := [], seen := [], suffixes := [] } 0 cols).fields.map
        Field.eraseType := by
  unfold structFields
  exact backfillLoop_eraseType _ _ _ _

/-- The field of `structFields` at an index has the name and the tags of the
field the first loop of `columnsToStruct` built at that index. -/
theorem structFields_name_tags (G : Deps) (req : plugin.CodeGenRequest)
    (cols : List goColumn) (useID : Bool) (n : Nat) (f : Field)
    (h : (columnsLoop G req useID { fields := [], seen := [], suffixes := [] } 0
      cols).fields[n]? = some f) :
    ∃ f', (structFields G req cols useID)[n]? = some f' ∧ f'.Name = f.Name ∧
      f'.Tags = f.Tags ∧ f'.Column = f.Column ∧ f'.DBName = f.DBName := by
  have he := structFields_eraseType G req cols useID
  have h1 : ((columnsLoop G req useID { fields := [], seen := [], suffixes := [] } 0
      cols).fields.map Field.eraseType)[n]? = some f.eraseType := by
    rw [List.getElem?_map, h]
    rfl
  rw [← he, List.getElem?_map] at h1
  cases hf : (structFields G req cols useID)[n]? with
  | none => rw [hf] at h1; simp at h1
  | some f' =>
    rw [hf] at h1
    simp only [Option.map_some', Option.some.injEq] at h1
    have e1 := congrArg Field.Name h1
    have e2 := congrArg Field.Tags h1
    have e3 := congrArg Field.Column h1
    have e4 := congrArg Field.DBName h1
    exact ⟨f', rfl, e1, e2, e3, e4⟩

end golang

namespace golang

/-- C23: in `columnsToStruct`, for columns with pairwise distinct ids none of
which is a named parameter, the struct returned has the fields of
`structFields`, and the field of the column at index `n` is named after the
number of earlier columns producing the same base field name: no earlier one,
and it keeps the base name and the base tag name; it is the `k`-th one,
`k ≥ 2`, and it is named `<base>_<k>` and its tag name (the value of its `db`
tag) gets the same `_<k>`. -/
theorem C23_collision_suffixes (G : Deps) (req : plugin.CodeGenRequest) (name : String)
    (cols : List goColumn) (useID : Bool)
    (hid : (cols.map fun c => c.id).Nodup)
    (hnp : ∀ c ∈ cols, c.Column.IsNamedParam = false) :
    (∀ s, columnsToStruct G req name cols useID = .ok s →
      s.Fields = structFields G req cols useID) ∧
    ∀ (n : Nat) (c : goColumn), cols[n]? = some c →
      ∃ f, (structFields G req cols useID)[n]? = some f ∧
        (((baseNamesFrom G req 0 cols).take n).count (colBaseName G req n c) = 0 →
          f.Name = colBaseName G req n c ∧
          f.Tags = fieldTags G req (colTagName G n c) c.Column) ∧
        (∀ k, 2 ≤ k →
          ((baseNamesFrom G req 0 cols).take n).count (colBaseName G req n c) + 1 = k →
          f.Name = colBaseName G req n c ++ "_" ++ toString k ∧
          f.Tags = fieldTags G req (colTagName G n c ++ "_" ++ toString k) c.Column) := by
  constructor
  · intro s hs
    unfold columnsToStruct at hs
    simp only at hs
    unfold structFields
    split at hs
    · cases hs
    · cases hs
      rfl
  · intro n c hc
    obtain ⟨f, h1, h2, h3⟩ := columnsLoop_suffixes G req useID cols
      { fields := [], seen := [], suffixes := [] } 0 []
      (fun _ => rfl) (fun _ _ => rfl) hid hnp n c hc
    simp only [List.length_nil, Nat.zero_add, List.nil_append] at h1 h2 h3
    obtain ⟨f', hf', e1, e2, _, _⟩ := structFields_name_tags G req cols useID n f h1
    refine ⟨f', hf', ?_, ?_⟩
    · intro h0
      rw [e1, e2, h2, h3]
      simp [h0]
    · intro k hk hcount
      have hpos :
          List.count (colBaseName G req n c) (List.take n (baseNamesFrom G req 0 cols)) > 0 := by
        omega
      rw [e1, e2, h2, h3]
      simp [hpos, hcount]

/-- C23 at three columns named `id`, `name`, `id` with the ids 0, 1, 2: the
third field is the second one of the base name `ID`. -/
theorem C23_collision_suffixes_witness :
    ([(⟨0, specColumn "id" "bigint", none⟩ : goColumn), ⟨1, specColumn "name" "text", none⟩,
        ⟨2, specColumn "id" "bigint", none⟩].map fun c => c.id).Nodup ∧
    (∀ c ∈ [(⟨0, specColumn "id" "bigint", none⟩ : goColumn),
        ⟨1, specColumn "name" "text", none⟩, ⟨2, specColumn "id" "bigint", none⟩],
      c.Column.IsNamedParam = false) ∧
    ∃ f, (structFields specGo (specRequest 1 [] [])
        [⟨0, specColumn "id" "bigint", none⟩, ⟨1, specColumn "name" "text", none⟩,
          ⟨2, specColumn "id" "bigint", none⟩] true)[2]? = some f ∧
      (((baseNamesFrom specGo (specRequest 1 [] []) 0
          [⟨0, specColumn "id" "bigint", none⟩, ⟨1, specColumn "name" "text", none⟩,
            ⟨2, specColumn "id" "bigint", none⟩]).take 2).count
          (colBaseName specGo (specRequest 1 [] []) 2 ⟨2, specColumn "id" "bigint", none⟩) = 0 →
        f.Name = colBaseName specGo (specRequest 1 [] []) 2 ⟨2, specColumn "id" "bigint", none⟩ ∧
        f.Tags = fieldTags specGo (specRequest 1 [] [])
          (colTagName specGo 2 ⟨2, specColumn "id" "bigint", none⟩)
          (specColumn "id" "bigint")) ∧
      (∀ k, 2 ≤ k →
        ((baseNamesFrom specGo (specRequest 1 [] []) 0
          [⟨0, specColumn "id" "bigint", none⟩, ⟨1, specColumn "name" "text", none⟩,
            ⟨2, specColumn "id" "bigint", none⟩]).take 2).count
          (colBaseName specGo (specRequest 1 [] []) 2 ⟨2, specColumn "id" "bigint", none⟩) + 1 =
            k →
        f.Name = colBaseName specGo (specRequest 1 [] []) 2
            ⟨2, specColumn "id" "bigint", none⟩ ++ "_" ++ toString k ∧
        f.Tags = fieldTags specGo (specRequest 1 [] [])
          (colTagName specGo 2 ⟨2, specColumn "id" "bigint", none⟩ ++ "_" ++ toString k)
          (specColumn "id" "bigint")) :=
  ⟨by decide, by decide,
    (C23_collision_suffixes specGo (specRequest 1 [] []) "Row"
      [⟨0, specColumn "id" "bigint", none⟩, ⟨1, specColumn "name" "text", none⟩,
        ⟨2, specColumn "id" "bigint", none⟩] true (by decide) (by decide)).2 2 _ rfl⟩

/-- C24, as stated, fails: for two references to the placeholder `$1`, both
of the column `id`, with a parameter limit of 0, `buildQueries` builds the
parameter struct `GetParams` with the two fields `ID` and `ID_2`, the second
reference getting a further suffix instead of the first one's name. -/
theorem C24_same_placeholder_fields :
    ((buildQueries specGo
        (specRequest 0 []
          [specQuery "Get" ":exec"
            [⟨1, specColumn "id" "bigint"⟩, ⟨1, specColumn "id" "bigint"⟩] []])
        []).toOption.getD []).map
      (fun gq => (gq.MethodName,
        gq.Arg.Struct.map fun s => (s.Name, s.Fields.map fun f => f.Name))) =
      [("Get", some ("GetParams", ["ID", "ID_2"]))] := by
  decide

end golang

/-! ## Properties of `buildQueries`: the order of the result -/

namespace golang

theorem sorted_insertionSort_data {α : Type} (key : α → String) (l : List α) :
    (l.insertionSort fun a b => ¬ ((key b).data < (key a).data)).Pairwise
      fun a b => ¬ ((key b).data < (key a).data) := by
  haveI : IsTotal α (fun a b => ¬ ((key b).data < (key a).data)) :=
    ⟨fun a b => by
      simp only [not_lt]
      exact le_total _ _⟩
  haveI : IsTrans α (fun a b => ¬ ((key b).data < (key a).data)) :=
    ⟨fun a b c h1 h2 => by
      simp only [not_lt] at h1 h2 ⊢
      exact le_trans h1 h2⟩
  exact List.sorted_insertionSort _ l

theorem sorted_insertionSort_string {α : Type} (key : α → String) (l : List α) :
    (l.insertionSort fun a b => ¬ ((key b).data < (key a).data)).Pairwise
      fun a b => ¬ (key b < key a) := by
  refine (sorted_insertionSort_data key l).imp ?_
  intro a b h hlt
  exact h (String.lt_iff_toList_lt.1 hlt)

/-- Two lists sorted by a key without repetition among the keys are equal when
one is a rearrangement of the other. -/
theorem insertionSort_eq_of_perm {α : Type} (key : α → String) (l l' : List α)
    (hp : l.Perm l') (hnd : (l.map key).Nodup) :
    (l.insertionSort fun a b => ¬ ((key b).data < (key a).data)) =
      (l'.insertionSort fun a b => ¬ ((key b).data < (key a).data)) := by
  have strict : ∀ m : List α, m.Perm l →
      (m.insertionSort fun a b => ¬ ((key b).data < (key a).data)).Pairwise
        fun a b => (key a).data < (key b).data := by
    intro m hm
    have hs := sorted_insertionSort_data key m
    have hperm := (List.perm_insertionSort
      (fun a b => ¬ ((key b).data < (key a).data)) m).trans hm
    have hnd2 : ((m.insertionSort fun a b => ¬ ((key b).data < (key a).data)).map key).Nodup :=
      (hperm.map key).nodup_iff.2 hnd
    have hne := List.pairwise_map.1 hnd2
    refine (hs.and hne).imp ?_
    rintro a b ⟨h1, h2⟩
    have hle : (key a).data ≤ (key b).data := not_lt.1 h1
    refine lt_of_le_of_ne hle ?_
    intro he
    exact h2 (String.ext he)
  haveI : IsAntisymm α (fun a b => (key a).data < (key b).data) :=
    ⟨fun a b h1 h2 => absurd h1 (lt_asymm h2)⟩
  refine List.eq_of_perm_of_sorted ?_ (strict l (List.Perm.refl _)) (strict l' hp.symm)
  exact (List.perm_insertionSort _ l).trans (hp.trans (List.perm_insertionSort _ l').symm)

theorem buildQueriesLoop_filter (G : Deps) (req : plugin.CodeGenRequest)
    (structs : List Struct) (queries : List plugin.Query) :
    ∀ qs, buildQueriesLoop G req structs queries = .ok qs ↔
      (queries.filter hasNameAndCmd).map (buildQuery G req structs) = qs.map Except.ok := by
  induction queries with
  | nil =>
    intro qs
    cases qs <;> simp [buildQueriesLoop]
  | cons q queries ih =>
    intro qs
    rw [buildQueriesLoop]
    by_cases h1 : q.Name = ""
    · rw [if_pos h1, ih]
      simp [List.filter_cons, hasNameAndCmd, h1]
    · rw [if_neg h1]
      by_cases h2 : q.Cmd = ""
      · rw [if_pos h2, ih]
        simp [List.filter_cons, hasNameAndCmd, h2]
      · rw [if_neg h2]
        have hk : hasNameAndCmd q = true := by simp [hasNameAndCmd, h1, h2]
        rw [List.filter_cons, if_pos hk, List.map_cons]
        cases hb : buildQuery G req structs q with
        | error e =>
          simp only []
          cases qs <;> simp
        | ok gq =>
          simp only []
          cases hl : buildQueriesLoop G req structs queries with
          | error e =>
            simp only []
            constructor
            · intro h; cases h
            · intro h
              cases qs with
              | nil => simp at h
              | cons g gs =>
                simp only [List.map_cons, List.cons.injEq] at h
                rw [(ih gs).2 h.2] at hl
                cases hl
          | ok l =>
            simp only []
            have hl2 := (ih l).1 hl
            constructor
            · intro h
              simp only [Except.ok.injEq] at h
              subst h
              simp [hl2]
            · intro h
              cases qs with
              | nil => simp at h
              | cons g gs =>
                simp only [List.map_cons, List.cons.injEq, Except.ok.injEq] at h
                have := (ih gs).2 h.2
                rw [hl] at this
                simp only [Except.ok.injEq] at this
                rw [h.1, this]

theorem built_names (G : Deps) (req : plugin.CodeGenRequest) (structs : List Struct) :
    ∀ (queries : List plugin.Query) (qs : List Query),
      queries.map (buildQuery G req structs) = qs.map Except.ok →
      qs.map (fun gq => gq.MethodName) = queries.map fun q => q.Name := by
  intro queries
  induction queries with
  | nil =>
    intro qs h
    cases qs with
    | nil => rfl
    | cons g gs => simp at h
  | cons q queries ih =>
    intro qs h
    cases qs with
    | nil => simp at h
    | cons g gs =>
      simp only [List.map_cons, List.cons.injEq] at h
      simp only [List.map_cons, ih gs h.2, (buildQuery_ok G req structs q g h.1).1]

theorem map_ok_of_all_ok {ε α : Type} (xs : List (Except ε α))
    (h : ∀ x ∈ xs, ∃ g, x = Except.ok g) :
    xs = (xs.filterMap Except.toOption).map Except.ok := by
  induction xs with
  | nil => rfl
  | cons x xs ih =>
    obtain ⟨g, rfl⟩ := h x (List.mem_cons_self _ _)
    have := ih fun y hy => h y (List.mem_cons_of_mem _ hy)
    simp only [List.filterMap_cons, Except.toOption, List.map_cons]
    rw [← this]

theorem filterMap_toOption_map_ok {ε α : Type} (l : List α) :
    (l.map (Except.ok : α → Except ε α)).filterMap Except.toOption = l := by
  induction l with
  | nil => rfl
  | cons x xs ih => simp only [List.map_cons, List.filterMap_cons, Except.toOption, ih]

end golang

/-! ## The request as read by the body of the loop of `buildQueries` -/

namespace golang

theorem columnStep_congr (G : Deps) (r1 r2 : plugin.CodeGenRequest)
    (hS : r1.Settings = r2.Settings) (hgo : G.goType r1 = G.goType r2)
    (htags : ∀ tags, G.addExtraGoStructTags tags r1 = G.addExtraGoStructTags tags r2)
    (useID : Bool) (st : StructState) (i : Nat) (c : goColumn) :
    columnStep G r1 useID st i c = columnStep G r2 useID st i c := by
  unfold columnStep
  simp only [hS, hgo, htags]

theorem columnsLoop_congr (G : Deps) (r1 r2 : plugin.CodeGenRequest)
    (hS : r1.Settings = r2.Settings) (hgo : G.goType r1 = G.goType r2)
    (htags : ∀ tags, G.addExtraGoStructTags tags r1 = G.addExtraGoStructTags tags r2)
    (useID : Bool) (cols : List goColumn) :
    ∀ (st : StructState) (i : Nat),
      columnsLoop G r1 useID st i cols = columnsLoop G r2 useID st i cols := by
  induction cols with
  | nil => intro st i; rfl
  | cons c cs ih =>
    intro st i
    rw [columnsLoop, columnsLoop, columnStep_congr G r1 r2 hS hgo htags, ih]

theorem columnsToStruct_congr (G : Deps) (r1 r2 : plugin.CodeGenRequest)
    (hS : r1.Settings = r2.Settings) (hgo : G.goType r1 = G.goType r2)
    (htags : ∀ tags, G.addExtraGoStructTags tags r1 = G.addExtraGoStructTags tags r2)
    (name : String) (cols : List goColumn) (useID : Bool) :
    columnsToStruct G r1 name cols useID = columnsToStruct G r2 name cols useID := by
  unfold columnsToStruct
  rw [columnsLoop_congr G r1 r2 hS hgo htags]

theorem sameFields_congr (G : Deps) (r1 r2 : plugin.CodeGenRequest)
    (hS : r1.Settings = r2.Settings) (hC : r1.Catalog = r2.Catalog)
    (hgo : G.goType r1 = G.goType r2) (s : Struct) (fs : List Field) :
    ∀ (i : Nat) (cs : List plugin.Column),
      sameFields G r1 s i fs cs = sameFields G r2 s i fs cs := by
  induction fs with
  | nil => intro i cs; rfl
  | cons f fs ih =>
    intro i cs
    cases cs with
    | nil => rfl
    | cons c cs => simp only [sameFields, hS, hC, hgo, ih]

theorem retColumns_congr (r1 r2 : plugin.CodeGenRequest) (hC : r1.Catalog = r2.Catalog)
    (structs : List Struct) (cs : List plugin.Column) :
    ∀ i, retColumns r1 structs i cs = retColumns r2 structs i cs := by
  induction cs with
  | nil => intro i; rfl
  | cons c cs ih =>
    intro i
    simp only [retColumns, hC, ih]

/-- The body of the loop of `buildQueries` reads of the request its settings,
its catalog and what the type and tag functions read of it. -/
theorem buildQuery_congr (G : Deps) (r1 r2 : plugin.CodeGenRequest)
    (hS : r1.Settings = r2.Settings) (hC : r1.Catalog = r2.Catalog)
    (hgo : G.goType r1 = G.goType r2)
    (htags : ∀ tags, G.addExtraGoStructTags tags r1 = G.addExtraGoStructTags tags r2)
    (structs : List Struct) (query : plugin.Query) :
    buildQuery G r1 structs query = buildQuery G r2 structs query := by
  have hsame : sameFields G r1 = sameFields G r2 := by
    funext s i fs cs
    exact sameFields_congr G r1 r2 hS hC hgo s fs i cs
  have hcols : columnsToStruct G r1 = columnsToStruct G r2 := by
    funext name cols useID
    exact columnsToStruct_congr G r1 r2 hS hgo htags name cols useID
  have hret : retColumns r1 = retColumns r2 := by
    funext structs i cs
    exact retColumns_congr r1 r2 hC structs cs i
  unfold buildQuery buildArg buildRet argStruct retStruct findStruct
  simp only [hS, hgo, hsame, hcols, hret]

end golang

namespace golang

/-- C27: whenever `buildQueries` succeeds, its result is sorted in
non-decreasing order of `MethodName`; it is a rearrangement of the queries
built from exactly the input queries whose name and command are both
non-empty, so its length is their count; when the names of those queries are
distinct, a request that differs only in the order of its queries (and for
which each single query is built alike) gives the same result; and
`buildEnums` and `buildStructs` return lists sorted by `Name`. -/
theorem C27_sorted_filtered_output (G : Deps) (req : plugin.CodeGenRequest)
    (structs : List Struct) (qs : List Query) (h : buildQueries G req structs = .ok qs) :
    qs.Pairwise (fun a b => ¬ (b.MethodName < a.MethodName)) ∧
    (∃ built, (req.Queries.filter hasNameAndCmd).map (buildQuery G req structs) =
        built.map Except.ok ∧ qs.Perm built) ∧
    qs.length = (req.Queries.filter hasNameAndCmd).length ∧
    (∀ queries : List plugin.Query, req.Queries.Perm queries →
      ((req.Queries.filter hasNameAndCmd).map fun q => q.Name).Nodup →
      (∀ q, buildQuery G { req with Queries := queries } structs q =
        buildQuery G req structs q) →
      buildQueries G { req with Queries := queries } structs = .ok qs) ∧
    (buildEnums G req).Pairwise (fun a b => ¬ (b.Name < a.Name)) ∧
    (buildStructs G req).Pairwise (fun a b => ¬ (b.Name < a.Name)) := by
  unfold buildQueries at h
  cases hl : buildQueriesLoop G req structs req.Queries with
  | error e => rw [hl] at h; simp at h
  | ok l =>
    rw [hl] at h
    simp only [Except.ok.injEq] at h
    subst h
    have hf := (buildQueriesLoop_filter G req structs req.Queries l).1 hl
    have hperm := List.perm_insertionSort
      (fun a b : Query => ¬ (b.MethodName.data < a.MethodName.data)) l
    refine ⟨sorted_insertionSort_string (fun gq : Query => gq.MethodName) l,
      ⟨l, hf, hperm⟩, ?_, ?_, ?_, ?_⟩
    · rw [hperm.length_eq]
      have := congrArg List.length hf
      simpa using this.symm
    · intro queries hq hnd hG
      have hfp : ((queries.filter hasNameAndCmd).map (buildQuery G req structs)).Perm
          (l.map Except.ok) := by
        rw [← hf]
        exact ((hq.symm.filter _).map _)
      have hall : ∀ x ∈ (queries.filter hasNameAndCmd).map (buildQuery G req structs),
          ∃ g, x = Except.ok g := by
        intro x hx
        obtain ⟨g, _, hg⟩ := List.mem_map.1 (hfp.mem_iff.1 hx)
        exact ⟨g, hg.symm⟩
      have hmap := map_ok_of_all_ok _ hall
      have hl2 : (((queries.filter hasNameAndCmd).map (buildQuery G req structs)).filterMap
          Except.toOption).Perm l := by
        have := hfp.filterMap Except.toOption
        rwa [filterMap_toOption_map_ok] at this
      have hfun : buildQuery G { req with Queries := queries } structs =
          buildQuery G req structs := funext hG
      have hloop : buildQueriesLoop G { req with Queries := queries } structs queries =
          .ok (((queries.filter hasNameAndCmd).map (buildQuery G req structs)).filterMap
            Except.toOption) := by
        rw [buildQueriesLoop_filter, hfun]
        exact hmap
      unfold buildQueries
      simp only [hloop]
      congr 1
      refine (insertionSort_eq_of_perm (fun gq : Query => gq.MethodName) l _ hl2.symm ?_).symm
      rw [built_names G req structs _ l hf]
      exact hnd
    · exact sorted_insertionSort_string (fun e : Enum => e.Name) _
    · exact sorted_insertionSort_string (fun s : Struct => s.Name) _

/-- C27 at a request of the queries `Second`, an unnamed one and `First`: the
result holds `First` and then `Second`, also when the queries are given in
the opposite order. -/
theorem C27_sorted_filtered_output_witness :
    buildQueries specGo
        (specRequest 1 [] [specQuery "Second" ":many" [] specUserColumns,
          specQuery "" ":many" [] specUserColumns,
          specQuery "First" ":many" [] specUserColumns]) [] =
      .ok ((buildQueries specGo
        (specRequest 1 [] [specQuery "Second" ":many" [] specUserColumns,
          specQuery "" ":many" [] specUserColumns,
          specQuery "First" ":many" [] specUserColumns]) []).toOption.getD []) ∧
    (((buildQueries specGo
        (specRequest 1 [] [specQuery "Second" ":many" [] specUserColumns,
          specQuery "" ":many" [] specUserColumns,
          specQuery "First" ":many" [] specUserColumns]) []).toOption.getD []).map
      fun gq => gq.MethodName) = ["First", "Second"] ∧
    buildQueries specGo
        (specRequest 1 [] [specQuery "First" ":many" [] specUserColumns,
          specQuery "" ":many" [] specUserColumns,
          specQuery "Second" ":many" [] specUserColumns]) [] =
      .ok ((buildQueries specGo
        (specRequest 1 [] [specQuery "Second" ":many" [] specUserColumns,
          specQuery "" ":many" [] specUserColumns,
          specQuery "First" ":many" [] specUserColumns]) []).toOption.getD []) :=
  ⟨rfl, by decide,
    (C27_sorted_filtered_output specGo
      (specRequest 1 [] [specQuery "Second" ":many" [] specUserColumns,
        specQuery "" ":many" [] specUserColumns,
        specQuery "First" ":many" [] specUserColumns]) [] _ rfl).2.2.2.1
      [specQuery "First" ":many" [] specUserColumns,
        specQuery "" ":many" [] specUserColumns,
        specQuery "Second" ":many" [] specUserColumns] (by decide) (by decide)
      (fun q => buildQuery_congr specGo
        (specRequest 1 [] [specQuery "First" ":many" [] specUserColumns,
          specQuery "" ":many" [] specUserColumns,
          specQuery "Second" ":many" [] specUserColumns])
        (specRequest 1 [] [specQuery "Second" ":many" [] specUserColumns,
          specQuery "" ":many" [] specUserColumns,
          specQuery "First" ":many" [] specUserColumns])
        rfl rfl rfl (fun _ => rfl) [] q)⟩

end golang

/-! ## Properties of `columnsToStruct`: the backfill of unknown types -/

namespace golang

/-- C31 fails on three named parameters `id` of the types `bigint`, unknown,
unknown, in this order: the three fields are named `ID`, the second loop of
`columnsToStruct` leaves the two fields of unknown type at `interface` (each
takes the type `int64` from the first field and then the unknown type back
from the other one), and `columnsToStruct` fails with the error of
`checkIncompatibleFieldTypes`.  In the order unknown, `bigint`, unknown the
first field stays unknown and the call fails alike; in the order unknown,
unknown, `bigint` all three fields end as `int64` and the call succeeds. -/
theorem C31_backfill_order_dependent :
    ((structFields specGo (specRequest 1 [] [])
        [⟨1, specNamedParam "id" "bigint", none⟩, ⟨2, specNamedParam "id" "", none⟩,
          ⟨3, specNamedParam "id" "", none⟩] false).map fun f => (f.Name, f.Type_)) =
      [("ID", "int64"), ("ID", "interface\x7b\x7d"), ("ID", "interface\x7b\x7d")] ∧
    columnsToStruct specGo (specRequest 1 [] []) "GetParams"
        [⟨1, specNamedParam "id" "bigint", none⟩, ⟨2, specNamedParam "id" "", none⟩,
          ⟨3, specNamedParam "id" "", none⟩] false =
      .error (.incompatibleTypes
        "named param ID has incompatible types: interface\x7b\x7d, int64") ∧
    ((structFields specGo (specRequest 1 [] [])
        [⟨1, specNamedParam "id" "", none⟩, ⟨2, specNamedParam "id" "bigint", none⟩,
          ⟨3, specNamedParam "id" "", none⟩] false).map fun f => (f.Name, f.Type_)) =
      [("ID", "interface\x7b\x7d"), ("ID", "int64"), ("ID", "int64")] ∧
    columnsToStruct specGo (specRequest 1 [] []) "GetParams"
        [⟨1, specNamedParam "id" "", none⟩, ⟨2, specNamedParam "id" "bigint", none⟩,
          ⟨3, specNamedParam "id" "", none⟩] false =
      .error (.incompatibleTypes
        "named param ID has incompatible types: int64, interface\x7b\x7d") ∧
    ((columnsToStruct specGo (specRequest 1 [] []) "GetParams"
        [⟨1, specNamedParam "id" "", none⟩, ⟨2, specNamedParam "id" "", none⟩,
          ⟨3, specNamedParam "id" "bigint", none⟩] false).toOption.map fun s =>
        s.Fields.map fun f => (f.Name, f.Type_)) =
      some [("ID", "int64"), ("ID", "int64"), ("ID", "int64")] := by
  refine ⟨by decide, rfl, by decide, rfl, by decide⟩

end golang

/-! ## Properties of `filterUnusedStructs` -/

namespace golang

theorem mem_keepFields (fields : List Field) :
    ∀ (keepTypes : List String) (t : String),
      t ∈ keepFields keepTypes fields ↔ t ∈ keepTypes ∨ ∃ f ∈ fields, f.Type_ = t := by
  induction fields with
  | nil => intro k t; simp [keepFields]
  | cons f fs ih =>
    intro k t
    rw [keepFields, ih]
    simp only [List.mem_cons, exists_eq_or_imp]
    constructor
    · rintro ((h | h) | h)
      · exact Or.inr (Or.inl h.symm)
      · exact Or.inl h
      · exact Or.inr (Or.inr h)
    · rintro (h | h | h)
      · exact Or.inl (Or.inr h)
      · exact Or.inl (Or.inl h.symm)
      · exact Or.inr h

theorem mem_keepValue (keepTypes : List String) (v : QueryValue) (k : List String)
    (h : keepValue keepTypes v = some k) (t : String) :
    t ∈ k ↔ t ∈ keepTypes ∨ usedBy v t := by
  unfold keepValue at h
  unfold usedBy
  cases ht : v.Type_ with
  | none => rw [ht] at h; simp at h
  | some t0 =>
    rw [ht] at h
    simp only [QueryValue.IsStruct] at h
    cases hs : v.Struct with
    | none =>
      simp only [hs, Option.isSome_none, Bool.false_eq_true, if_false, Option.some.injEq] at h
      subst h
      simp only [List.mem_cons, Option.some.injEq, false_and, exists_false, or_false,
        reduceCtorEq]
      constructor
      · rintro (h | h)
        · exact Or.inr h.symm
        · exact Or.inl h
      · rintro (h | h)
        · exact Or.inr h
        · exact Or.inl h.symm
    | some s =>
      simp only [hs, Option.isSome_some, if_true, Option.some.injEq] at h
      subst h
      rw [mem_keepFields]
      simp only [List.mem_cons, Option.some.injEq, exists_eq_left']
      constructor
      · rintro ((h | h) | h)
        · exact Or.inr (Or.inl h.symm)
        · exact Or.inl h
        · exact Or.inr (Or.inr h)
      · rintro (h | h | h)
        · exact Or.inl (Or.inr h)
        · exact Or.inl (Or.inl h.symm)
        · exact Or.inr h

theorem mem_keepTypesLoop (queries : List Query) :
    ∀ (keepTypes k : List String), keepTypesLoop keepTypes queries = some k →
      ∀ t, t ∈ k ↔ t ∈ keepTypes ∨ usedType queries t := by
  induction queries with
  | nil =>
    intro k0 k h t
    simp only [keepTypesLoop, Option.some.injEq] at h
    subst h
    simp [usedType]
  | cons q qs ih =>
    intro k0 k h t
    rw [keepTypesLoop] at h
    have harg : ∀ k1, (if !q.Arg.isEmpty then keepValue k0 q.Arg else some k0) = some k1 →
        (t ∈ k1 ↔ t ∈ k0 ∨ (q.Arg.isEmpty = false ∧ usedBy q.Arg t)) := by
      intro k1 h1
      cases he : q.Arg.isEmpty with
      | true =>
        rw [he] at h1
        simp only [Bool.not_true, Bool.false_eq_true, if_false, Option.some.injEq] at h1
        subst h1
        simp
      | false =>
        rw [he] at h1
        simp only [Bool.not_false, if_true] at h1
        rw [mem_keepValue k0 q.Arg k1 h1 t]
        simp
    cases h1 : (if !q.Arg.isEmpty then keepValue k0 q.Arg else some k0) with
    | none => rw [h1] at h; simp at h
    | some k1 =>
      rw [h1] at h
      simp only [] at h
      have hret : ∀ k2, (if q.hasRetType then keepValue k1 q.Ret else some k1) = some k2 →
          (t ∈ k2 ↔ t ∈ k1 ∨ (q.hasRetType = true ∧ usedBy q.Ret t)) := by
        intro k2 h2
        cases he : q.hasRetType with
        | false =>
          rw [he] at h2
          simp only [Bool.false_eq_true, if_false, Option.some.injEq] at h2
          subst h2
          simp
        | true =>
          rw [he] at h2
          simp only [if_true] at h2
          rw [mem_keepValue k1 q.Ret k2 h2 t]
          simp
      cases h2 : (if q.hasRetType then keepValue k1 q.Ret else some k1) with
      | none => rw [h2] at h; simp at h
      | some k2 =>
        rw [h2] at h
        simp only [] at h
        have hU : usedType (q :: qs) t ↔
            ((q.Arg.isEmpty = false ∧ usedBy q.Arg t) ∨
              (q.hasRetType = true ∧ usedBy q.Ret t)) ∨ usedType qs t := by
          unfold usedType
          simp only [List.mem_cons, exists_eq_or_imp]
        rw [ih k2 k h t, hret k2 h2, harg k1 h1, hU]
        tauto

theorem keepEnumsLoop_eq (keepTypes : List String) (enums : List Enum) :
    ∀ keepEnums : List Enum,
      keepEnumsLoop keepTypes keepEnums enums =
        keepEnums ++ (enums.map fun enum =>
          (if enum.Name ∈ keepTypes then [enum] else []) ++
            (if "Null" ++ enum.Name ∈ keepTypes then [enum] else [])).flatten := by
  induction enums with
  | nil => intro k; simp [keepEnumsLoop]
  | cons e es ih =>
    intro k
    rw [keepEnumsLoop, ih]
    by_cases h1 : e.Name ∈ keepTypes <;> by_cases h2 : "Null" ++ e.Name ∈ keepTypes <;>
      simp [h1, h2]

theorem keepStructsLoop_eq (keepTypes : List String) (structs : List Struct) :
    ∀ keepStructs : List Struct,
      keepStructsLoop keepTypes keepStructs structs =
        keepStructs ++ structs.filter fun st => st.Name ∈ keepTypes := by
  induction structs with
  | nil => intro k; simp [keepStructsLoop]
  | cons s ss ih =>
    intro k
    rw [keepStructsLoop, ih]
    by_cases h : s.Name ∈ keepTypes <;> simp [h, List.filter_cons]

end golang

namespace golang

theorem count_keepEnums (keepTypes : List String) (e : Enum) (h1 : e.Name ∈ keepTypes)
    (h2 : "Null" ++ e.Name ∈ keepTypes) (enums : List Enum) :
    ((enums.map fun enum =>
        (if enum.Name ∈ keepTypes then [enum] else []) ++
          (if "Null" ++ enum.Name ∈ keepTypes then [enum] else [])).flatten).count e =
      2 * enums.count e := by
  induction enums with
  | nil => rfl
  | cons x xs ih =>
    rw [List.map_cons, List.flatten_cons, List.count_append, List.count_append, ih,
      List.count_cons]
    by_cases hx : x = e
    · subst hx
      simp only [h1, h2, if_true, List.count_singleton_self, beq_self_eq_true]
      omega
    · have hc : ∀ l : List Enum, (∀ y ∈ l, y = x) → l.count e = 0 := by
        intro l hl
        rw [List.count_eq_zero]
        intro hm
        exact hx (hl e hm).symm
      have hb : (x == e) = false := by simpa using hx
      rw [hc _ (by intro y hy; split at hy <;> simp at hy; exact hy),
        hc _ (by intro y hy; split at hy <;> simp at hy; exact hy), hb]
      simp only [Bool.false_eq_true, if_false]
      omega

/-- C33 fails for an enum whose name and `Null` + name are both used types:
`filterUnusedStructs` appends the enum once for each of the two tests, so the
enum occurs in the result twice as often as in the input and the result is
not a sub-sequence of the input.  The rest holds: the set `keepTypes` holds
exactly the used types, an enum is in the result exactly when its name or
`Null` + name is a used type, and the structs returned are the input structs
whose name is a used type, once each and in input order. -/
theorem C33_enum_kept_twice (enums : List Enum) (structs : List Struct) (queries : List Query)
    (out : List Enum × List Struct)
    (h : filterUnusedStructs enums structs queries = some out)
    (e : Enum) (he : e ∈ enums) (h1 : usedType queries e.Name)
    (h2 : usedType queries ("Null" ++ e.Name)) :
    out.1.count e = 2 * enums.count e ∧ ¬ out.1.Sublist enums ∧
    (∀ x, x ∈ out.1 ↔
      x ∈ enums ∧ (usedType queries x.Name ∨ usedType queries ("Null" ++ x.Name))) ∧
    ∃ keepTypes : List String, (∀ t, t ∈ keepTypes ↔ usedType queries t) ∧
      out.1 = (enums.map fun enum =>
        (if enum.Name ∈ keepTypes then [enum] else []) ++
          (if "Null" ++ enum.Name ∈ keepTypes then [enum] else [])).flatten ∧
      out.2 = structs.filter fun st => st.Name ∈ keepTypes := by
  unfold filterUnusedStructs at h
  cases hk : keepTypesLoop [] queries with
  | none => rw [hk] at h; simp at h
  | some keepTypes =>
    rw [hk] at h
    simp only [Option.some.injEq] at h
    subst h
    have hmem : ∀ t, t ∈ keepTypes ↔ usedType queries t := by
      intro t
      rw [mem_keepTypesLoop queries [] keepTypes hk t]
      simp
    have hcount := count_keepEnums keepTypes e ((hmem _).2 h1) ((hmem _).2 h2) enums
    simp only [keepEnumsLoop_eq, keepStructsLoop_eq, List.nil_append]
    refine ⟨hcount, ?_, ?_, keepTypes, hmem, rfl, rfl⟩
    · intro hsub
      have hle := hsub.count_le e
      rw [hcount] at hle
      have hpos : 0 < enums.count e := List.count_pos_iff.2 he
      omega
    · intro x
      simp only [List.mem_flatten, List.mem_map]
      constructor
      · rintro ⟨l, ⟨y, hy, rfl⟩, hx⟩
        rcases List.mem_append.1 hx with hx | hx
        · split at hx
          · rename_i hin
            rw [List.mem_singleton.1 hx]
            exact ⟨hy, Or.inl ((hmem _).1 hin)⟩
          · simp at hx
        · split at hx
          · rename_i hin
            rw [List.mem_singleton.1 hx]
            exact ⟨hy, Or.inr ((hmem _).1 hin)⟩
          · simp at hx
      · rintro ⟨hx, hu⟩
        refine ⟨_, ⟨x, hx, rfl⟩, ?_⟩
        rcases hu with hu | hu
        · rw [if_pos ((hmem _).2 hu)]
          simp
        · rw [if_pos ((hmem _).2 hu)]
          simp

/-- C33 at the enum `Status` and a query whose argument struct has a field of
the type `Status` and a field of the type `NullStatus`: the enum is returned
twice. -/
theorem C33_enum_kept_twice_witness :
    filterUnusedStructs [specEnum "Status"] []
        [specBuiltQuery "Set" [specField "Status" "Status", specField "Prev" "NullStatus"]] =
      some ([specEnum "Status", specEnum "Status"], []) ∧
    ([specEnum "Status", specEnum "Status"] : List Enum).count (specEnum "Status") =
      2 * [specEnum "Status"].count (specEnum "Status") :=
  ⟨by decide,
    (C33_enum_kept_twice [specEnum "Status"] []
      [specBuiltQuery "Set" [specField "Status" "Status", specField "Prev" "NullStatus"]]
      ([specEnum "Status", specEnum "Status"], []) (by decide) (specEnum "Status")
      (List.mem_singleton.2 rfl)
      ⟨_, List.mem_singleton.2 rfl, Or.inl ⟨by decide,
        Or.inr ⟨_, rfl, specField "Status" "Status", by decide, by decide⟩⟩⟩
      ⟨_, List.mem_singleton.2 rfl, Or.inl ⟨by decide,
        Or.inr ⟨_, rfl, specField "Prev" "NullStatus", by decide, by decide⟩⟩⟩).1⟩

end golang

/-! ## Properties of `buildQueryCatalog` -/

namespace compiler

open catalog

theorem buildCtes_outcome {X : Ext}
    (oc : QueryCatalog X → ast.Node → List (Column X) × Option X.Err)
    (items : List ast.CteItem) :
    ∀ qc, (∃ q, buildCtes oc qc items = (some q, none)) ∨
      (∃ err, buildCtes oc qc items = (none, some err)) := by
  induction items with
  | nil => intro qc; exact Or.inl ⟨qc, rfl⟩
  | cons item items ih =>
    intro qc
    cases item with
    | Other n => rw [buildCtes]; exact ih qc
    | Cte cte =>
      rw [buildCtes]
      simp only []
      cases h : (oc qc cte.Ctequery).2 with
      | some err => exact Or.inr ⟨err, rfl⟩
      | none => exact ih _

theorem buildCtes_append {X : Ext}
    (oc : QueryCatalog X → ast.Node → List (Column X) × Option X.Err)
    (pre rest : List ast.CteItem) :
    ∀ qc q, buildCtes oc qc pre = (some q, none) →
      buildCtes oc qc (pre ++ rest) = buildCtes oc q rest := by
  induction pre with
  | nil =>
    intro qc q h
    simp only [buildCtes, Prod.mk.injEq, Option.some.injEq, and_true] at h
    subst h
    rfl
  | cons item pre ih =>
    intro qc q h
    cases item with
    | Other n =>
      rw [buildCtes] at h
      rw [List.cons_append, buildCtes]
      exact ih qc q h
    | Cte cte =>
      rw [buildCtes] at h
      rw [List.cons_append, buildCtes]
      simp only [] at h ⊢
      cases hr : (oc qc cte.Ctequery).2 with
      | some err => rw [hr] at h; simp at h
      | none =>
        rw [hr] at h
        simp only [] at h ⊢
        exact ih _ q h

theorem buildCtes_spec {X : Ext}
    (oc : QueryCatalog X → ast.Node → List (Column X) × Option X.Err)
    (items : List ast.CteItem) :
    ∀ qc q, buildCtes oc qc items = (some q, none) →
      q.catalog = qc.catalog ∧ q.embeds = qc.embeds ∧
      (∀ name, (q.ctes.lookup name).isSome = true ↔
        ((qc.ctes.lookup name).isSome = true ∨ name ∈ cteNames items)) ∧
      (∀ name, name ∉ cteNames items → q.ctes.lookup name = qc.ctes.lookup name) := by
  induction items with
  | nil =>
    intro qc q h
    simp only [buildCtes, Prod.mk.injEq, Option.some.injEq, and_true] at h
    subst h
    simp [cteNames]
  | cons item items ih =>
    intro qc q h
    cases item with
    | Other n =>
      rw [buildCtes] at h
      simpa only [cteNames] using ih qc q h
    | Cte cte =>
      rw [buildCtes] at h
      simp only [] at h
      cases hr : (oc qc cte.Ctequery).2 with
      | some err => rw [hr] at h; simp at h
      | none =>
        rw [hr] at h
        simp only [] at h
        obtain ⟨h1, h2, h3, h4⟩ := ih _ q h
        refine ⟨h1, h2, ?_, ?_⟩
        · intro name
          rw [h3 name]
          simp only [cteNames, List.mem_cons, List.lookup_cons]
          by_cases hn : name = cte.Ctename
          · subst hn
            simp
          · have hb : (name == cte.Ctename) = false := by simpa using hn
            simp [hb, hn]
        · intro name hn
          simp only [cteNames, List.mem_cons, not_or] at hn
          rw [h4 name hn.2]
          have hb : (name == cte.Ctename) = false := by simpa using hn.1
          simp [List.lookup_cons, hb]

end compiler

namespace compiler

open catalog

theorem buildCtes_append_error {X : Ext}
    (oc : QueryCatalog X → ast.Node → List (Column X) × Option X.Err)
    (pre rest : List ast.CteItem) :
    ∀ qc err, buildCtes oc qc pre = (none, some err) →
      buildCtes oc qc (pre ++ rest) = (none, some err) := by
  induction pre with
  | nil => intro qc err h; simp [buildCtes] at h
  | cons item pre ih =>
    intro qc err h
    cases item with
    | Other n =>
      rw [buildCtes] at h
      rw [List.cons_append, buildCtes]
      exact ih qc err h
    | Cte cte =>
      rw [buildCtes] at h
      rw [List.cons_append, buildCtes]
      simp only [] at h ⊢
      cases hr : (oc qc cte.Ctequery).2 with
      | some e =>
        rw [hr] at h
        exact h
      | none =>
        rw [hr] at h
        simp only [] at h ⊢
        exact ih _ err h

theorem buildCtes_total {X : Ext}
    (oc : QueryCatalog X → ast.Node → List (Column X) × Option X.Err)
    (hoc : ∀ qc n, (oc qc n).2 = none) (items : List ast.CteItem) :
    ∀ qc, ∃ q, buildCtes oc qc items = (some q, none) := by
  induction items with
  | nil => intro qc; exact ⟨qc, rfl⟩
  | cons item items ih =>
    intro qc
    cases item with
    | Other n => rw [buildCtes]; exact ih qc
    | Cte cte =>
      rw [buildCtes]
      simp only [hoc]
      exact ih _

/-- C32: for a statement with a `WITH` clause, the body of a common table
expression is resolved against the query catalog built from the items before
it, whose map of common table expressions holds exactly the names of those
items; when the resolution fails, `buildQueryCatalog` returns that error and
no query catalog, and otherwise it goes on from that catalog with the
expression registered under its name as the table of the resolved columns,
each tagged with the relation of that name.  On success the map holds exactly
the names of the clause, and the expression's name maps to that table unless
a later expression has the same name.  `buildQueryCatalog` returns a catalog
or an error, a catalog when no body fails, and the error of an earlier body
that fails; for any other node, and without a `WITH` clause, the map is
empty. -/
theorem C32_cte_registration_order {X : Ext}
    (oc : QueryCatalog X → ast.Node → List (Column X) × Option X.Err)
    (c : Catalog X) (embeds : X.EmbedSet) (node : ast.Stmt) (w : ast.WithClause)
    (hw : withClauseOf node = some w)
    (pre : List ast.CteItem) (cte : ast.CommonTableExpr) (post : List ast.CteItem)
    (hitems : w.Ctes = pre ++ .Cte cte :: post) (qck : QueryCatalog X)
    (hpre : buildCtes oc { catalog := c, ctes := [], embeds := embeds } pre = (some qck, none)) :
    (qck.catalog = c ∧ qck.embeds = embeds ∧
      ∀ name, (qck.ctes.lookup name).isSome = true ↔ name ∈ cteNames pre) ∧
    (∀ err, (oc qck cte.Ctequery).2 = some err →
      buildQueryCatalog oc c node embeds = (none, some err)) ∧
    ((oc qck cte.Ctequery).2 = none →
      buildQueryCatalog oc c node embeds =
        buildCtes oc
          { qck with
            ctes := (cte.Ctename, cteTable cte.Ctename (oc qck cte.Ctequery).1) :: qck.ctes }
          post) ∧
    (∀ qc, buildQueryCatalog oc c node embeds = (some qc, none) →
      (oc qck cte.Ctequery).2 = none ∧ qc.catalog = c ∧ qc.embeds = embeds ∧
      (∀ name, (qc.ctes.lookup name).isSome = true ↔ name ∈ cteNames w.Ctes) ∧
      (cte.Ctename ∉ cteNames post →
        qc.ctes.lookup cte.Ctename =
          some (cteTable cte.Ctename (oc qck cte.Ctequery).1))) ∧
    ((∃ qc, buildQueryCatalog oc c node embeds = (some qc, none)) ∨
      (∃ err, buildQueryCatalog oc c node embeds = (none, some err))) ∧
    ((∀ qc n, (oc qc n).2 = none) →
      ∃ qc, buildQueryCatalog oc c node embeds = (some qc, none)) ∧
    (∀ (pre1 rest : List ast.CteItem) (err : X.Err), w.Ctes = pre1 ++ rest →
      buildCtes oc { catalog := c, ctes := [], embeds := embeds } pre1 = (none, some err) →
      buildQueryCatalog oc c node embeds = (none, some err)) ∧
    (∀ other : ast.Stmt, withClauseOf other = none →
      buildQueryCatalog oc c other embeds =
        (some { catalog := c, ctes := [], embeds := embeds }, none)) ∧
    (∀ n : ast.Node, withClauseOf (.Other n) = none) := by
  have hb : buildQueryCatalog oc c node embeds =
      buildCtes oc { catalog := c, ctes := [], embeds := embeds } w.Ctes := by
    unfold buildQueryCatalog
    simp only [hw]
  have hstep : buildQueryCatalog oc c node embeds =
      buildCtes oc qck (.Cte cte :: post) := by
    rw [hb, hitems]
    exact buildCtes_append oc pre _ _ qck hpre
  obtain ⟨p1, p2, p3, -⟩ := buildCtes_spec oc pre _ qck hpre
  have hok : (oc qck cte.Ctequery).2 = none →
      buildQueryCatalog oc c node embeds =
        buildCtes oc
          { qck with
            ctes := (cte.Ctename, cteTable cte.Ctename (oc qck cte.Ctequery).1) :: qck.ctes }
          post := by
    intro h
    rw [hstep, buildCtes]
    simp only [h]
    rfl
  refine ⟨⟨p1, p2, ?_⟩, ?_, hok, ?_, ?_, ?_, ?_, ?_, fun _ => rfl⟩
  · intro name
    rw [p3 name]
    simp
  · intro err h
    rw [hstep, buildCtes]
    simp only [h]
  · intro qc hqc
    have hnone : (oc qck cte.Ctequery).2 = none := by
      cases h : (oc qck cte.Ctequery).2 with
      | none => rfl
      | some err =>
        rw [hstep, buildCtes] at hqc
        simp [h] at hqc
    obtain ⟨q1, q2, q3, -⟩ := buildCtes_spec oc w.Ctes _ qc (hb ▸ hqc)
    refine ⟨hnone, q1, q2, ?_, ?_⟩
    · intro name
      rw [q3 name]
      simp
    · intro hlast
      rw [hok hnone] at hqc
      obtain ⟨-, -, -, r4⟩ := buildCtes_spec oc post _ qc hqc
      rw [r4 _ hlast]
      simp [List.lookup_cons]
  · rw [hb]
    exact buildCtes_outcome oc w.Ctes _
  · intro hoc
    rw [hb]
    exact buildCtes_total oc hoc w.Ctes _
  · intro pre1 rest err h1 h2
    rw [hb, h1]
    exact buildCtes_append_error oc pre1 rest _ err h2
  · intro other h
    unfold buildQueryCatalog
    simp only [h]

/-- C32 at the statement `WITH a AS (...), b AS (...) SELECT ...`: the body of
`b` is resolved against the catalog that holds `a` alone, and the catalog
built maps `b` to the columns `a` and `x` and `a` to the column `x`. -/
theorem C32_cte_registration_order_witness :
    ((buildQueryCatalog specOutputColumns (specCatalog (none, none) [])
        (.SelectStmt (some ⟨[.Cte ⟨"a", .A_Const 0⟩, .Cte ⟨"b", .A_Const 0⟩]⟩)) []).1.map
      fun qc => qc.ctes.map fun p => (p.1, p.2.Columns.map fun col => (col.Name, col.Table))) =
      some [("b", [("a", some ⟨"", "", "b"⟩), ("x", some ⟨"", "", "b"⟩)]),
        ("a", [("x", some ⟨"", "", "a"⟩)])] ∧
    ∀ name,
      ((([("a", cteTable "a" (specOutputColumns
            ⟨specCatalog (none, none) [], [], []⟩ (.A_Const 0)).1)] :
          List (String × Table specExt)).lookup name).isSome = true ↔
        name ∈ cteNames [.Cte ⟨"a", .A_Const 0⟩]) :=
  ⟨by decide,
    (C32_cte_registration_order specOutputColumns (specCatalog (none, none) []) []
      (.SelectStmt (some ⟨[.Cte ⟨"a", .A_Const 0⟩, .Cte ⟨"b", .A_Const 0⟩]⟩))
      ⟨[.Cte ⟨"a", .A_Const 0⟩, .Cte ⟨"b", .A_Const 0⟩]⟩ rfl
      [.Cte ⟨"a", .A_Const 0⟩] ⟨"b", .A_Const 0⟩ [] rfl
      ⟨specCatalog (none, none) [],
        [("a", cteTable "a" (specOutputColumns
          ⟨specCatalog (none, none) [], [], []⟩ (.A_Const 0)).1)], []⟩
      rfl).1.2.2⟩

end compiler

/-! ## Properties of `buildQueries`: the field names of the parameter struct -/

namespace golang

theorem columnStep_noID_spec (G : Deps) (req : plugin.CodeGenRequest)
    (st : StructState) (i : Nat) (c : goColumn) (prev : List String)
    (hseen : ∀ name, ((st.seen.lookup name).getD []).length = prev.count name) :
    (∃ f, (columnStep G req false st i c).fields = st.fields ++ [f] ∧
      f.Name = (if prev.count (colBaseName G req i c) > 0 ∧ c.Column.IsNamedParam = false then
          colBaseName G req i c ++ "_" ++ toString (prev.count (colBaseName G req i c) + 1)
        else colBaseName G req i c)) ∧
    (∀ name, (((columnStep G req false st i c).seen.lookup name).getD []).length =
      (prev ++ [colBaseName G req i c]).count name) := by
  have hv := hseen (colBaseName G req i c)
  constructor
  · have hsuf : ∀ o : Option Nat,
        (match o with
          | some o =>
            if false = true then o
            else if (((st.seen.lookup (colBaseName G req i c)).getD []).length > 0 &&
                !c.Column.IsNamedParam) = true then
              ((st.seen.lookup (colBaseName G req i c)).getD []).length + 1
            else 0
          | none =>
            if (((st.seen.lookup (colBaseName G req i c)).getD []).length > 0 &&
                !c.Column.IsNamedParam) = true then
              ((st.seen.lookup (colBaseName G req i c)).getD []).length + 1
            else 0) =
          if prev.count (colBaseName G req i c) > 0 ∧ c.Column.IsNamedParam = false then
            prev.count (colBaseName G req i c) + 1
          else 0 := by
      intro o
      rw [hv]
      cases o <;> cases c.Column.IsNamedParam <;>
        rcases Nat.eq_zero_or_pos (List.count (colBaseName G req i c) prev) with hp | hp <;>
        simp [hp]
    refine ⟨_, rfl, ?_⟩
    have hs := hsuf (st.suffixes.lookup c.id)
    unfold colBaseName at hs ⊢
    simp only [hs]
    by_cases hcond : List.count (G.StructName
        (match c.embed with
          | some e => e.modelName
          | none => columnName c.Column i) req.Settings) prev > 0 ∧
        c.Column.IsNamedParam = false
    · rw [if_pos hcond, if_pos hcond, if_pos (Nat.succ_pos _)]
    · rw [if_neg hcond, if_neg hcond, if_neg (Nat.lt_irrefl 0)]
  · intro name
    have hs : (columnStep G req false st i c).seen =
        match st.seen.lookup (colBaseName G req i c) with
        | none => (colBaseName G req i c, [i]) :: st.seen
        | some l => (colBaseName G req i c, l ++ [i]) :: st.seen := by
      unfold columnStep colBaseName
      cases hc : c.embed <;> rfl
    rw [hs, List.count_append]
    by_cases hn : name = colBaseName G req i c
    · subst hn
      cases hl : st.seen.lookup (colBaseName G req i c) with
      | none =>
        rw [hl] at hv
        simp only [Option.getD_none, List.length_nil] at hv
        simp [← hv]
      | some l =>
        rw [hl] at hv
        simp only [Option.getD_some] at hv
        simp [← hv]
    · have hb : (name == colBaseName G req i c) = false := by simpa using hn
      have hcount : List.count name [colBaseName G req i c] = 0 := by
        simp [List.count_singleton, Ne.symm hn]
      rw [hcount, Nat.add_zero, ← hseen name]
      cases st.seen.lookup (colBaseName G req i c) <;> simp [List.lookup_cons, hb]

end golang

namespace golang

theorem columnsLoop_noID_names (G : Deps) (req : plugin.CodeGenRequest) (cols : List goColumn) :
    ∀ (st : StructState) (i : Nat) (prev : List String),
      (∀ name, ((st.seen.lookup name).getD []).length = prev.count name) →
      ∀ (n : Nat) (c : goColumn), cols[n]? = some c →
        ∃ f, (columnsLoop G req false st i cols).fields[st.fields.length + n]? = some f ∧
          f.Name =
            (if (prev ++ (baseNamesFrom G req i cols).take n).count
                (colBaseName G req (i + n) c) > 0 ∧ c.Column.IsNamedParam = false then
              colBaseName G req (i + n) c ++ "_" ++
                toString ((prev ++ (baseNamesFrom G req i cols).take n).count
                  (colBaseName G req (i + n) c) + 1)
            else colBaseName G req (i + n) c) := by
  induction cols with
  | nil => intro st i prev _ n c h; simp at h
  | cons c0 cs ih =>
    intro st i prev hseen n c hc
    obtain ⟨⟨f0, hf0, hname0⟩, hseen1⟩ := columnStep_noID_spec G req st i c0 prev hseen
    rw [columnsLoop]
    cases n with
    | zero =>
      simp only [List.getElem?_cons_zero, Option.some.injEq] at hc
      subst hc
      obtain ⟨extra, hex⟩ := columnsLoop_prefix G req false cs
        (columnStep G req false st i c0) (i + 1)
      refine ⟨f0, ?_, ?_⟩
      · rw [hex, hf0, Nat.add_zero, List.append_assoc,
          List.getElem?_append_right (Nat.le_refl _)]
        simp
      · simpa using hname0
    | succ n =>
      simp only [List.getElem?_cons_succ] at hc
      obtain ⟨f, h1, h2⟩ := ih (columnStep G req false st i c0) (i + 1)
        (prev ++ [colBaseName G req i c0]) hseen1 n c hc
      refine ⟨f, ?_, ?_⟩
      · rw [hf0] at h1
        simp only [List.length_append, List.length_singleton] at h1
        rw [show st.fields.length + (n + 1) = st.fields.length + 1 + n by omega]
        exact h1
      · rw [h2]
        simp only [baseNamesFrom, List.take_succ_cons, List.append_assoc, List.singleton_append,
          show i + 1 + n = i + (n + 1) by omega]

theorem baseNamesFrom_params (G : Deps) (req : plugin.CodeGenRequest)
    (params : List plugin.Parameter) :
    ∀ i, baseNamesFrom G req i
        (params.map fun p => ({ id := p.Number, Column := p.Column, embed := none } : goColumn)) =
      paramBaseNames G req i params := by
  induction params with
  | nil => intro i; rfl
  | cons p ps ih =>
    intro i
    simp only [List.map_cons, baseNamesFrom, paramBaseNames, ih]
    rfl

theorem columnsToStruct_ok (G : Deps) (req : plugin.CodeGenRequest) (name : String)
    (cols : List goColumn) (useID : Bool) (s : Struct)
    (h : columnsToStruct G req name cols useID = .ok s) :
    s.Name = name ∧ s.Fields = structFields G req cols useID := by
  unfold columnsToStruct at h
  simp only at h
  unfold structFields
  split at h
  · cases h
  · cases h
    exact ⟨rfl, rfl⟩

theorem argStruct_ok (G : Deps) (req : plugin.CodeGenRequest) (query : plugin.Query)
    (a : QueryValue) (h : argStruct G req query = .ok a) :
    ∃ s, a.Struct = some s ∧ s.Name = query.Name ++ "Params" ∧
      s.Fields = structFields G req
        (query.Params.map fun p =>
          ({ id := p.Number, Column := p.Column, embed := none } : goColumn)) false := by
  unfold argStruct at h
  simp only [] at h
  cases hc : columnsToStruct G req (query.Name ++ "Params")
      (query.Params.map fun p =>
        ({ id := p.Number, Column := p.Column, embed := none } : goColumn)) false with
  | error e => rw [hc] at h; simp at h
  | ok s =>
    rw [hc] at h
    simp only [Except.ok.injEq] at h
    obtain ⟨h1, h2⟩ := columnsToStruct_ok G req _ _ _ s hc
    exact ⟨s, by rw [← h], h1, h2⟩

/-- The names of the fields of the parameter struct: by position among the
parameters of the same base field name, whatever the placeholder numbers. -/
theorem paramFields_names (G : Deps) (req : plugin.CodeGenRequest)
    (params : List plugin.Parameter) (n : Nat) (p : plugin.Parameter)
    (hp : params[n]? = some p) :
    ∃ f, (structFields G req
        (params.map fun p =>
          ({ id := p.Number, Column := p.Column, embed := none } : goColumn)) false)[n]? =
        some f ∧
      f.Name =
        (if ((paramBaseNames G req 0 params).take n).count
            (G.StructName (columnName p.Column n) req.Settings) > 0 ∧
            p.Column.IsNamedParam = false then
          G.StructName (columnName p.Column n) req.Settings ++ "_" ++
            toString (((paramBaseNames G req 0 params).take n).count
              (G.StructName (columnName p.Column n) req.Settings) + 1)
        else G.StructName (columnName p.Column n) req.Settings) := by
  have hc : (params.map fun p =>
      ({ id := p.Number, Column := p.Column, embed := none } : goColumn))[n]? =
      some { id := p.Number, Column := p.Column, embed := none } := by
    rw [List.getElem?_map, hp]
    rfl
  obtain ⟨f, h1, h2⟩ := columnsLoop_noID_names G req _
    { fields := [], seen := [], suffixes := [] } 0 [] (fun _ => rfl) n _ hc
  simp only [List.length_nil, Nat.zero_add, List.nil_append, baseNamesFrom_params] at h1 h2
  obtain ⟨f1, hf1, e1, -, -, -⟩ := structFields_name_tags G req _ false n f h1
  refine ⟨f1, hf1, ?_⟩
  rw [e1, h2]
  rfl

end golang

namespace golang

/-- C24, amended: in the parameter struct that `buildQueries` builds for a
query with two or more parameters, the placeholder numbers play no part in
the field names.  The field of a parameter has the base field name
(`StructName` of its column name, or of `column_<i + 1>`) when no earlier
parameter produces that base name or when it is a named parameter; when it is
the `k`-th parameter producing the base name, `k ≥ 2`, and is not a named
parameter, it is named `<base>_<k>`, also when it carries the placeholder
number of an earlier one.  The struct is built with these fields whenever
`checkIncompatibleFieldTypes` accepts them, and whenever `buildQueries`
succeeds the built query carries it. -/
theorem C24_params_named_by_position (G : Deps) (req : plugin.CodeGenRequest)
    (structs : List Struct) (query : plugin.Query)
    (hname : query.Name ≠ "") (hcmd : query.Cmd ≠ "") (hmem : query ∈ req.Queries)
    (hlen : 2 ≤ query.Params.length) :
    (∀ (n : Nat) (p : plugin.Parameter), query.Params[n]? = some p →
      ∃ f, (structFields G req
          (query.Params.map fun p =>
            ({ id := p.Number, Column := p.Column, embed := none } : goColumn)) false)[n]? =
          some f ∧
        ((((paramBaseNames G req 0 query.Params).take n).count
            (G.StructName (columnName p.Column n) req.Settings) = 0 ∨
            p.Column.IsNamedParam = true) →
          f.Name = G.StructName (columnName p.Column n) req.Settings) ∧
        (∀ k, 2 ≤ k →
          ((paramBaseNames G req 0 query.Params).take n).count
            (G.StructName (columnName p.Column n) req.Settings) + 1 = k →
          p.Column.IsNamedParam = false →
          f.Name = G.StructName (columnName p.Column n) req.Settings ++ "_" ++ toString k)) ∧
    (checkIncompatibleFieldTypes (structFields G req
        (query.Params.map fun p =>
          ({ id := p.Number, Column := p.Column, embed := none } : goColumn)) false) = none →
      ∃ a, buildArg G req query = .ok a ∧
        a.Struct = some
          { Table := none, Name := query.Name ++ "Params",
            Fields := structFields G req
              (query.Params.map fun p =>
                ({ id := p.Number, Column := p.Column, embed := none } : goColumn)) false,
            Comment := "" }) ∧
    (∀ qs, buildQueries G req structs = .ok qs →
      ∃ gq ∈ qs, gq.MethodName = query.Name ∧
        ∃ s, gq.Arg.Struct = some s ∧ s.Name = query.Name ++ "Params" ∧
          s.Fields = structFields G req
            (query.Params.map fun p =>
              ({ id := p.Number, Column := p.Column, embed := none } : goColumn)) false) := by
  refine ⟨?_, ?_, ?_⟩
  · intro n p hp
    obtain ⟨f, hf, hn⟩ := paramFields_names G req query.Params n p hp
    refine ⟨f, hf, ?_, ?_⟩
    · intro h
      rw [hn]
      rcases h with h | h
      · rw [if_neg]
        rw [h]
        exact fun hc => absurd hc.1 (Nat.lt_irrefl 0)
      · rw [if_neg]
        rw [h]
        exact fun hc => absurd hc.2 (by decide)
    · intro k hk hcount hnp
      rw [hn, if_pos ⟨by omega, hnp⟩, hcount]
  · intro hcheck
    rw [buildArg_two_or_more G req query hlen]
    have hs : columnsToStruct G req (query.Name ++ "Params")
        (query.Params.map fun p =>
          ({ id := p.Number, Column := p.Column, embed := none } : goColumn)) false =
        .ok { Table := none, Name := query.Name ++ "Params",
              Fields := structFields G req
                (query.Params.map fun p =>
                  ({ id := p.Number, Column := p.Column, embed := none } : goColumn)) false,
              Comment := "" } := by
      unfold columnsToStruct
      unfold structFields at hcheck
      simp only [hcheck]
      rfl
    unfold argStruct
    simp only [hs]
    exact ⟨_, rfl, rfl⟩
  · intro qs hqs
    obtain ⟨gq, hg, hn, -, ha, -⟩ := buildQueries_mem G req structs query hname hcmd hmem qs hqs
    rw [buildArg_two_or_more G req query hlen] at ha
    obtain ⟨s, h1, h2, h3⟩ := argStruct_ok G req query gq.Arg ha
    exact ⟨gq, hg, hn, s, h1, h2, h3⟩

/-- C24, amended, at the query `Get` with two references to the placeholder
`$1` of the column `id`: the second field is the second one of the base name
`ID`; when the second reference is a named parameter the two fields are both
named `ID`. -/
theorem C24_params_named_by_position_witness :
    (((buildQueries specGo
        (specRequest 0 []
          [specQuery "Get" ":exec"
            [⟨1, specColumn "id" "bigint"⟩, ⟨1, specNamedParam "id" "bigint"⟩] []])
        []).toOption.getD []).map
      (fun gq => gq.Arg.Struct.map fun s => s.Fields.map fun f => f.Name)) =
      [some ["ID", "ID"]] ∧
    ∃ f, (structFields specGo
        (specRequest 0 []
          [specQuery "Get" ":exec"
            [⟨1, specColumn "id" "bigint"⟩, ⟨1, specColumn "id" "bigint"⟩] []])
        ((specQuery "Get" ":exec"
            [⟨1, specColumn "id" "bigint"⟩, ⟨1, specColumn "id" "bigint"⟩] []).Params.map
          fun p => ({ id := p.Number, Column := p.Column, embed := none } : goColumn))
        false)[1]? = some f ∧
      ((((paramBaseNames specGo
            (specRequest 0 []
              [specQuery "Get" ":exec"
                [⟨1, specColumn "id" "bigint"⟩, ⟨1, specColumn "id" "bigint"⟩] []])
            0 (specQuery "Get" ":exec"
              [⟨1, specColumn "id" "bigint"⟩, ⟨1, specColumn "id" "bigint"⟩] []).Params).take
            1).count
          (specGo.StructName (columnName (specColumn "id" "bigint") 1) (specRequest 0 []
            [specQuery "Get" ":exec"
              [⟨1, specColumn "id" "bigint"⟩, ⟨1, specColumn "id" "bigint"⟩] []]).Settings) = 0 ∨
          (specColumn "id" "bigint").IsNamedParam = true) →
        f.Name = specGo.StructName (columnName (specColumn "id" "bigint") 1) (specRequest 0 []
          [specQuery "Get" ":exec"
            [⟨1, specColumn "id" "bigint"⟩, ⟨1, specColumn "id" "bigint"⟩] []]).Settings) ∧
      (∀ k, 2 ≤ k →
        ((paramBaseNames specGo
            (specRequest 0 []
              [specQuery "Get" ":exec"
                [⟨1, specColumn "id" "bigint"⟩, ⟨1, specColumn "id" "bigint"⟩] []])
            0 (specQuery "Get" ":exec"
              [⟨1, specColumn "id" "bigint"⟩, ⟨1, specColumn "id" "bigint"⟩] []).Params).take
            1).count
          (specGo.StructName (columnName (specColumn "id" "bigint") 1) (specRequest 0 []
            [specQuery "Get" ":exec"
              [⟨1, specColumn "id" "bigint"⟩, ⟨1, specColumn "id" "bigint"⟩] []]).Settings) + 1 =
          k →
        (specColumn "id" "bigint").IsNamedParam = false →
        f.Name = specGo.StructName (columnName (specColumn "id" "bigint") 1) (specRequest 0 []
          [specQuery "Get" ":exec"
            [⟨1, specColumn "id" "bigint"⟩, ⟨1, specColumn "id" "bigint"⟩] []]).Settings ++
            "_" ++ toString k) :=
  ⟨by decide,
    (C24_params_named_by_position specGo
      (specRequest 0 []
        [specQuery "Get" ":exec"
          [⟨1, specColumn "id" "bigint"⟩, ⟨1, specColumn "id" "bigint"⟩] []]) []
      (specQuery "Get" ":exec"
        [⟨1, specColumn "id" "bigint"⟩, ⟨1, specColumn "id" "bigint"⟩] [])
      (by decide) (by decide) (by decide) (by decide)).1 1 ⟨1, specColumn "id" "bigint"⟩ rfl⟩

end golang
